import Mathlib

/-!
# Mining execution stage

A shallow embedding of `eth/stagedsync/stage_mining_exec.go`:
`SpawnMiningExecStage`, `getNextTransactions`, `addTransactionsToMiningBlock`
(with its closure `miningCommitTx`) and `NotifyPendingLogs`.

Go's mutable variables become fields of explicit state records that are
threaded through the functions. External collaborators (the execution engine,
the intra-block state, the signer, the transaction pool, the decoder, the
bad-transaction filter, the finalizer, the progress store) are parameters, so
every theorem holds for every behaviour of them. The `for` loops of the source
are run with a fuel argument; an exhausted fuel is reported as
`Outcome.running`, never as a result. The polling loop of
`getNextTransactions` is bounded by its own counter test: `pollLoop_ends`
shows that it is never left running by the fuel the fetch gives it.

Each record carries a `trace` field, a ghost log of the operations performed
in program order. It is written but never read by the embedded code.

The table `ZeroHashes` of `cmd/erigon-cl/core/state/state_encoding/zero.go` is
embedded as a list of byte lists, next to a definition of SHA-256 after
FIPS 180-4 that its entries are checked against.
-/

namespace stagedsync

/-! ## Data model -/

abbrev Address := Nat

abbrev Log := Nat

/-- The modulus of Go's `uint64`. -/
def u64 : Nat := 2 ^ 64

/-- Subtraction of two `uint64` values as Go computes it (wrapping). -/
def subU64 (a b : Nat) : Nat := (a % u64 + u64 - b % u64) % u64

/-- Go `error` values the stage distinguishes. `errors.Is(err, core.ErrX)` is
equality with the constructor `ErrX`; every other error is `other code`. -/
inductive Err
  | ErrGasLimitReached
  | ErrNonceTooLow
  | ErrNonceTooHigh
  | ErrStopped
  | EOF
  | other (code : Nat)
  deriving DecidableEq, Repr

/-- The part of `types.Transaction` the stage reads: `Hash()`, `GetNonce()`,
`GetChainID()`, `Protected()` and the sender stored by `SetSender`. -/
structure Transaction where
  Hash : Nat
  Nonce : Nat
  ChainID : Nat
  Protected : Bool
  sender : Address
  deriving DecidableEq, Repr

/-- The method `SetSender` of a transaction. -/
def Transaction.SetSender (txn : Transaction) (a : Address) : Transaction :=
  { txn with sender := a }

structure Receipt where
  TxHash : Nat
  GasUsed : Nat
  Logs : List Log
  deriving DecidableEq, Repr

structure Header where
  Number : Nat
  GasLimit : Nat
  GasUsed : Nat
  BaseFee : Nat
  deriving DecidableEq, Repr

/-- The block under construction (`MiningBlock`): header, accepted
transactions and their receipts. The field `PreparedTxs` of the source is kept
next to the block, in `World.PreparedTxs`. -/
structure MiningBlock where
  Header : Header
  Txs : List Transaction
  Receipts : List Receipt
  deriving DecidableEq, Repr

/-- The method set of the interface `types.TransactionsStream` over a cursor
state `S`. -/
structure TransactionsStream (S : Type) where
  Empty : S → Bool
  Peek : S → Option Transaction
  Shift : S → S
  Pop : S → S

/-- What `core.ApplyTransaction` leaves behind: the intra-block state, the gas
pool and `header.GasUsed` (both passed by pointer), and the receipt or the
error. -/
structure ApplyOut (W : Type) where
  ibs : W
  gasPool : Nat
  gasUsed : Nat
  result : Except Err Receipt

/-- The collaborators of `addTransactionsToMiningBlock`, over an intra-block
state `W`: the signer (`txn.Sender(*signer)`, `none` when recovery fails), the
chain rules, `ibs.Prepare`, `ibs.Snapshot`, `ibs.RevertToSnapshot` and
`core.ApplyTransaction`. -/
structure Engine (W : Type) where
  Sender : Transaction → Option Address
  IsSpuriousDragon : Nat → Bool
  Prepare : W → Transaction → Nat → W
  Snapshot : W → Nat
  RevertToSnapshot : W → Nat → W
  ApplyTransaction : W → Nat → Nat → Transaction → ApplyOut W

/-- What the loop observes of its surroundings at each iteration (`tick`):
whether `libcommon.Stopped(quit)` reports a stop, the value loaded from the
interrupt flag (`none` for a nil pointer), and whether the grace ticker's
channel is ready. -/
structure Signals where
  quit : Nat → Bool
  interrupt : Option (Nat → Int)
  timerFired : Nat → Bool

/-- Modelled from the spec: `params.TxGas`, the minimum gas of a transaction
(section 8 gives 21000); the constant is declared in a package that is not embedded here. -/
def TxGas : Nat := 21000

/-- Ghost log of one run of the loop of `addTransactionsToMiningBlock`. -/
inductive LoopEvent
  | timerFired
  | stopSignal
  | newTicker
  | gasCheck (remaining : Nat)
  | peek (txn : Option Transaction)
  | prepare (txn : Transaction) (txIndex : Nat)
  | applyTransaction (txn : Transaction) (err : Option Err)
  | pop
  | shift
  deriving DecidableEq, Repr

/-- The variables of `addTransactionsToMiningBlock` that live across loop
iterations. `stopped` says whether the grace ticker exists (`stopped != nil`);
`tick` counts loop iterations. -/
structure LoopState (W T : Type) where
  current : MiningBlock
  ibs : W
  gasPool : Nat
  tcount : Nat
  coalescedLogs : List Log
  txs : T
  stopped : Bool
  tick : Nat
  trace : List LoopEvent

/-- How one loop iteration ends: `next` (the loop goes on), `done` (a `break`),
`fail` (a `return nil, err`). -/
inductive Step (α : Type)
  | next (s : α)
  | done (s : α)
  | fail (err : Err) (s : α)

/-- How a call ends: with a result and no error, with an error, or still
running when the fuel is used up. -/
inductive Outcome (ρ α : Type)
  | returned (r : ρ) (s : α)
  | failed (err : Err) (s : α)
  | running (s : α)

/-- The state a call ends in. -/
def Outcome.state {ρ α : Type} : Outcome ρ α → α
  | .returned _ s => s
  | .failed _ s => s
  | .running s => s

/-- The error a call returns, `none` for a nil error or a call still running. -/
def Outcome.err {ρ α : Type} : Outcome ρ α → Option Err
  | .returned _ _ => none
  | .failed e _ => some e
  | .running _ => none

/-- Whether the call has returned (with or without an error). -/
def Outcome.finished {ρ α : Type} : Outcome ρ α → Bool
  | .running _ => false
  | _ => true

/-! ## addTransactionsToMiningBlock -/

section applier

variable {W T : Type}

/-- The closure `miningCommitTx`. -/
def miningCommitTx (E : Engine W) (s : LoopState W T) (txn : Transaction) :
    Except Err (List Log) × LoopState W T :=
  let ibs1 := E.Prepare s.ibs txn s.tcount
  let gasSnap := s.gasPool
  let snap := E.Snapshot ibs1
  let out := E.ApplyTransaction ibs1 s.gasPool s.current.Header.GasUsed txn
  match out.result with
  | .error err =>
    (.error err,
      { s with
        ibs := E.RevertToSnapshot out.ibs snap
        gasPool := gasSnap
        current := { s.current with Header := { s.current.Header with GasUsed := out.gasUsed } }
        trace := s.trace ++ [.prepare txn s.tcount, .applyTransaction txn (some err)] })
  | .ok receipt =>
    (.ok receipt.Logs,
      { s with
        ibs := out.ibs
        gasPool := out.gasPool
        current :=
          { Header := { s.current.Header with GasUsed := out.gasUsed }
            Txs := s.current.Txs ++ [txn]
            Receipts := s.current.Receipts ++ [receipt] }
        trace := s.trace ++ [.prepare txn s.tcount, .applyTransaction txn none] })

/-- The call `txs.Pop()`. -/
def LoopState.Pop (ops : TransactionsStream T) (s : LoopState W T) : LoopState W T :=
  { s with txs := ops.Pop s.txs, trace := s.trace ++ [.pop] }

/-- The call `txs.Shift()`. -/
def LoopState.Shift (ops : TransactionsStream T) (s : LoopState W T) : LoopState W T :=
  { s with txs := ops.Shift s.txs, trace := s.trace ++ [.shift] }

/-- The interrupt test `interrupt != nil && atomic.LoadInt32(interrupt) != 0`. -/
def Signals.interrupted (sig : Signals) (tick : Nat) : Bool :=
  match sig.interrupt with
  | none => false
  | some flag => flag tick != 0

/-- The statement that starts the grace ticker:
`if interrupt != nil && atomic.LoadInt32(interrupt) != 0 && stopped == nil`. -/
def armTicker (sig : Signals) (s : LoopState W T) : LoopState W T :=
  if sig.interrupted s.tick && !s.stopped then
    { s with stopped := true, trace := s.trace ++ [.newTicker] }
  else s

/-- Adds an entry to the ghost log. -/
def LoopState.emit (s : LoopState W T) (e : LoopEvent) : LoopState W T :=
  { s with trace := s.trace ++ [e] }

/-- Moves the iteration clock on. -/
def LoopState.tickUp (s : LoopState W T) : LoopState W T :=
  { s with tick := s.tick + 1 }

/-- The chain `if errors.Is(err, core.ErrGasLimitReached) ... else` that
follows the call of `miningCommitTx`: how the loop goes on after each outcome. -/
def settle (ops : TransactionsStream T) :
    Except Err (List Log) × LoopState W T → Step (LoopState W T)
  | (.error .ErrGasLimitReached, s2) => .next (s2.Pop ops)
  | (.error .ErrNonceTooLow, s2) => .next (s2.Shift ops)
  | (.error .ErrNonceTooHigh, s2) => .next (s2.Pop ops)
  | (.ok logs, s2) =>
    .next ({ s2 with coalescedLogs := s2.coalescedLogs ++ logs, tcount := s2.tcount + 1 }.Shift ops)
  | (.error _, s2) => .next (s2.Shift ops)

/-- The part of an iteration from `txs.Peek()` on, run after the gas check
has passed. -/
def attempt (E : Engine W) (ops : TransactionsStream T) (s : LoopState W T) :
    Step (LoopState W T) :=
  let s1 := s.emit (.peek (ops.Peek s.txs))
  match ops.Peek s.txs with
  | none => .done s1
  | some txn =>
    match E.Sender txn with
    | none => .next (s1.Pop ops)
    | some _ =>
      if txn.Protected && !E.IsSpuriousDragon s.current.Header.Number then
        .next (s1.Pop ops)
      else settle ops (miningCommitTx E s1 txn)

/-- One iteration of the loop `LOOP` of `addTransactionsToMiningBlock`. -/
def iteration (E : Engine W) (ops : TransactionsStream T) (sig : Signals)
    (s : LoopState W T) : Step (LoopState W T) :=
  if s.stopped && sig.timerFired s.tick then .done (s.emit .timerFired)
  else if sig.quit s.tick then .fail .ErrStopped (s.emit .stopSignal)
  else
    let s1 := armTicker sig s
    if s1.gasPool < TxGas then .done (s1.emit (.gasCheck s1.gasPool))
    else attempt E ops (s1.emit (.gasCheck s1.gasPool))

/-- The loop `LOOP`, run for at most `fuel` iterations; the clock moves on
after each. -/
def loop (E : Engine W) (ops : TransactionsStream T) (sig : Signals) :
    Nat → LoopState W T → Outcome (List Log) (LoopState W T)
  | 0, s => .running s
  | fuel + 1, s =>
    match iteration E ops sig s with
    | .next s1 => loop E ops sig fuel s1.tickUp
    | .done s1 => .returned s1.coalescedLogs s1.tickUp
    | .fail err s1 => .failed err s1.tickUp

/-- The state `addTransactionsToMiningBlock` enters its loop with: `tcount`
is 0 and the gas pool holds `header.GasLimit - header.GasUsed`. -/
def initLoop (current : MiningBlock) (txs : T) (ibs : W) (tick : Nat) : LoopState W T :=
  { current := current
    ibs := ibs
    gasPool := subU64 current.Header.GasLimit current.Header.GasUsed
    tcount := 0
    coalescedLogs := []
    txs := txs
    stopped := false
    tick := tick
    trace := [] }

/-- The function `addTransactionsToMiningBlock`. -/
def addTransactionsToMiningBlock (E : Engine W) (ops : TransactionsStream T) (sig : Signals)
    (fuel : Nat) (current : MiningBlock) (txs : T) (ibs : W) (tick : Nat) :
    Outcome (List Log) (LoopState W T) :=
  loop E ops sig fuel (initLoop current txs ibs tick)

end applier

/-! ## Transaction streams -/

/-- Modelled from the spec: the cursor built by `types.NewTransactionsFixedOrder`,
whose code is not among the embedded sources. Section 4.1 calls it an ordered,
fixed-iteration-order stream: the transactions are yielded in list order, and
both ways of advancing step over the head only. The scenario of section 8 with
nonces 6 and 5 agrees: the second transaction of the sender is accepted after
the first was rejected as nonce-too-high. -/
def TransactionsFixedOrder : TransactionsStream (List Transaction) where
  Empty := fun t => t.isEmpty
  Peek := fun t => t.head?
  Shift := fun t => t.tail
  Pop := fun t => t.tail

/-- Modelled from the spec: the sender-grouped `TransactionStream` of section 3,
whose code is not among the embedded sources. `Peek` is "peek next without
consuming", `Shift` is "advance past current transaction only", `Pop` is "drop
current sender's remaining transactions" (the head goes with them). -/
def TransactionsBySender : TransactionsStream (List Transaction) where
  Empty := fun t => t.isEmpty
  Peek := fun t => t.head?
  Shift := fun t => t.tail
  Pop := fun t =>
    match t with
    | [] => []
    | txn :: rest => rest.filter (fun u => u.sender != txn.sender)

/-! ## getNextTransactions -/

/-- The pool's answer `types2.TxsRlp`: raw transactions and, at the same
indices, their senders. -/
structure TxsRlp where
  Txs : List (List Nat)
  Senders : List Address
  deriving DecidableEq, Repr

/-- Ghost log of a run of the stage. -/
inductive StageEvent
  | getNextTransactions
  | yieldBest (amount remainingGas : Nat)
  | addTransactionsToMiningBlock (run : List LoopEvent)
  | onNewPendingLogs (logs : List Log)
  | finalizeBlockExecution
  | saveStageProgress (blockNum : Nat)
  deriving DecidableEq, Repr

/-- What `core.FinalizeBlockExecution` hands back: the header it worked on,
the three returned values the stage assigns, and the state. -/
structure FinalizeOut (W : Type) where
  ibs : W
  Header : Header
  Txs : List Transaction
  Receipts : List Receipt
  err : Option Err

/-- The configuration `MiningExecCfg` with the collaborators it reaches: the
engine, the pool (`YieldBest`, over a pool-side state `P` that also stands for
the simulation batch), `types.DecodeTransaction`, `filterBadTransactions`, the
stream constructors, the notifier (`none` when nil), the fork hooks,
`s.ExecutionAt`, `core.FinalizeBlockExecution` and `stages.SaveStageProgress`. -/
structure MiningExecCfg (W P S F : Type) where
  engine : Engine W
  chainID : Nat
  YieldBest : P → Nat → TxsRlp → Nat → Nat → P × TxsRlp × Except Err Bool
  DecodeTransaction : List Nat → Except Err Transaction
  filterBadTransactions : P → List Transaction → Nat → Nat → P × Except Err (List Transaction)
  preparedOps : TransactionsStream S
  fixedOps : TransactionsStream F
  NewTransactionsFixedOrder : List Transaction → F
  notifier : Option Nat
  DAOForkSupport : Bool
  DAOForkBlock : Option Nat
  ApplyDAOHardFork : W → W
  UpgradeBuildInSystemContract : Nat → W → W
  ExecutionAt : Except Err Nat
  FinalizeBlockExecution : W → Header → List Transaction → List Receipt → FinalizeOut W
  SaveStageProgress : Nat → Option Err

/-- A Go run-time panic (a slice index out of range), reported as an error
value so that the embedding stays total. -/
def panicIndex : Err := .other 0

/-- The variables of the polling loop of `getNextTransactions`. -/
structure PollState (P : Type) where
  pool : P
  txSlots : TxsRlp
  onTime : Bool
  counter : Nat
  trace : List StageEvent

section fetcher

variable {W P S F : Type}

/-- The loop `for !onTime && counter < 1000` inside the `View` callback, run
for at most `fuel` tests of its condition. It is `returned` when the condition
is found false, `failed` when a call of `YieldBest` fails, and `running` when
the fuel is used up before either. -/
def pollLoop (cfg : MiningExecCfg W P S F) (header : Header) (amount executionAt : Nat) :
    Nat → PollState P → Outcome Unit (PollState P)
  | 0, st => .running st
  | fuel + 1, st =>
    if !st.onTime && st.counter < 1000 then
      let remainingGas := subU64 header.GasLimit header.GasUsed
      match cfg.YieldBest st.pool amount st.txSlots executionAt remainingGas with
      | (pool1, slots1, r) =>
        let st1 := { st with
          pool := pool1, txSlots := slots1
          trace := st.trace ++ [.yieldBest amount remainingGas] }
        match r with
        | .error err => .failed err st1
        | .ok onTime => pollLoop cfg header amount executionAt fuel
            { st1 with onTime := onTime, counter := st.counter + 1 }
    else .returned () st

/-- The state `getNextTransactions` enters its polling loop with. -/
def pollStart {P : Type} (pool : P) : PollState P :=
  { pool := pool, txSlots := { Txs := [], Senders := [] }, onTime := false, counter := 0
    trace := [.getNextTransactions] }

/-- The value that stands for a polling loop still running after 1001 tests
of its condition. The loop of the source cannot get there, its counter test
ends it at the 1001st test at the latest (`pollLoop_ends`), so no call of
`getNextTransactions` has this value; it only makes the definition total. -/
def pollOverrun : Err := .other 0

/-- The decoding loop `for i := range txSlots.Txs`: the slots still to visit,
the index of the first of them, and the transactions kept so far. -/
def decodeSlots (cfg : MiningExecCfg W P S F) (senders : List Address) :
    Nat → List (List Nat) → List Transaction → Except Err (List Transaction)
  | _, [], txs => .ok txs
  | i, raw :: rest, txs =>
    match cfg.DecodeTransaction raw with
    | .error .EOF => decodeSlots cfg senders (i + 1) rest txs
    | .error err => .error err
    | .ok transaction =>
      if transaction.ChainID != 0 && transaction.ChainID != cfg.chainID then
        decodeSlots cfg senders (i + 1) rest txs
      else
        match senders[i]? with
        | none => .error panicIndex
        | some sender => decodeSlots cfg senders (i + 1) rest (txs ++ [transaction.SetSender sender])

/-- The function `getNextTransactions`: the stream or the error, the pool
afterwards and the calls made. Its polling loop is run with fuel 1001, one
test of the loop condition more than the source can make. -/
def getNextTransactions (cfg : MiningExecCfg W P S F) (header : Header)
    (amount executionAt : Nat) (pool : P) : Except Err F × P × List StageEvent :=
  match pollLoop cfg header amount executionAt 1001 (pollStart pool) with
  | .failed err st => (.error err, st.pool, st.trace)
  | .running st => (.error pollOverrun, st.pool, st.trace)
  | .returned _ st =>
    match decodeSlots cfg st.txSlots.Senders 0 st.txSlots.Txs [] with
    | .error err => (.error err, st.pool, st.trace)
    | .ok txs =>
      let blockNum := executionAt + 1
      match cfg.filterBadTransactions st.pool txs blockNum header.BaseFee with
      | (pool1, .error err) => (.error err, pool1, st.trace)
      | (pool1, .ok txs1) => (.ok (cfg.NewTransactionsFixedOrder txs1), pool1, st.trace)

end fetcher

/-! ## SpawnMiningExecStage -/

/-- Everything `SpawnMiningExecStage` works on: the block `current` with its
`PreparedTxs` (`none` when nil), the intra-block state, the pool side, the
iteration clock of the applier and the ghost log. -/
structure World (W P S : Type) where
  current : MiningBlock
  PreparedTxs : Option S
  ibs : W
  pool : P
  tick : Nat
  trace : List StageEvent

section stage

variable {W P S F : Type}

/-- The function `NotifyPendingLogs`, as the events it sends. -/
def NotifyPendingLogs (notifier : Option Nat) (logs : List Log) : List StageEvent :=
  if logs.length == 0 then []
  else
    match notifier with
    | none => []
    | some _ => [.onNewPendingLogs logs]

/-- The world after a call of `addTransactionsToMiningBlock` that ended in
loop state `s`. -/
def World.after {T : Type} (w : World W P S) (s : LoopState W T) : World W P S :=
  { w with
    current := s.current, ibs := s.ibs, tick := s.tick
    trace := w.trace ++ [.addTransactionsToMiningBlock s.trace] }

/-- The pool path of `SpawnMiningExecStage`: the loop that fetches a batch and
applies it. The first argument bounds the recursion; 1000 is enough from
`killSwitch = 0`. -/
def fetchApplyCycle (cfg : MiningExecCfg W P S F) (sig : Signals) (fuel executionAt : Nat) :
    Nat → Nat → List Log → World W P S → Outcome (List Log) (World W P S)
  | 0, _, _, w => .running w
  | budget + 1, killSwitch, cumLogs, w =>
    match getNextTransactions cfg w.current.Header 50 executionAt w.pool with
    | (.error err, pool1, evs) => .failed err { w with pool := pool1, trace := w.trace ++ evs }
    | (.ok nextBatch, pool1, evs) =>
      let w1 := { w with pool := pool1, trace := w.trace ++ evs }
      if !cfg.fixedOps.Empty nextBatch then
        match addTransactionsToMiningBlock cfg.engine cfg.fixedOps sig fuel w1.current nextBatch
            w1.ibs w1.tick with
        | .failed err s => .failed err (w1.after s)
        | .running s => .running (w1.after s)
        | .returned logs s =>
          if killSwitch + 1 ≥ 1000 then .returned (cumLogs ++ logs) (w1.after s)
          else fetchApplyCycle cfg sig fuel executionAt budget (killSwitch + 1) (cumLogs ++ logs)
            (w1.after s)
      else .returned cumLogs w1

/-- The test `current.PreparedTxs != nil && !current.PreparedTxs.Empty()`. -/
def preparedBatch (cfg : MiningExecCfg W P S F) (w : World W P S) : Option S :=
  match w.PreparedTxs with
  | none => none
  | some p => if cfg.preparedOps.Empty p then none else some p

/-- The body of `if noempty` in `SpawnMiningExecStage` up to the
notification: the prepared transactions if there are any, the pool otherwise. -/
def applyTransactions (cfg : MiningExecCfg W P S F) (sig : Signals) (fuel executionAt : Nat)
    (w : World W P S) : Outcome (List Log) (World W P S) :=
  match preparedBatch cfg w with
  | some p =>
    match addTransactionsToMiningBlock cfg.engine cfg.preparedOps sig fuel w.current p
        w.ibs w.tick with
    | .failed err s => .failed err { w.after s with PreparedTxs := some s.txs }
    | .running s => .running { w.after s with PreparedTxs := some s.txs }
    | .returned logs s => .returned logs { w.after s with PreparedTxs := some s.txs }
  | none => fetchApplyCycle cfg sig fuel executionAt 1000 0 [] w

/-- The rest of `SpawnMiningExecStage`: notification, finalization, progress. -/
def finishBlock (cfg : MiningExecCfg W P S F) (cumLogs : List Log) (w : World W P S) :
    Outcome Unit (World W P S) :=
  let w1 := { w with trace := w.trace ++ NotifyPendingLogs cfg.notifier cumLogs }
  let out := cfg.FinalizeBlockExecution w1.ibs w1.current.Header w1.current.Txs w1.current.Receipts
  let w2 := { w1 with
    ibs := out.ibs
    current := { Header := out.Header, Txs := out.Txs, Receipts := out.Receipts }
    trace := w1.trace ++ [.finalizeBlockExecution] }
  match out.err with
  | some err => .failed err w2
  | none =>
    let w3 := { w2 with trace := w2.trace ++ [.saveStageProgress w2.current.Header.Number] }
    match cfg.SaveStageProgress w2.current.Header.Number with
    | some err => .failed err w3
    | none => .returned () w3

/-- The function `SpawnMiningExecStage`. The variable `noempty` is the
constant `true`, so the early return for an empty block is never taken. -/
def SpawnMiningExecStage (cfg : MiningExecCfg W P S F) (sig : Signals) (fuel : Nat)
    (w : World W P S) : Outcome Unit (World W P S) :=
  let ibs0 :=
    if cfg.DAOForkSupport && cfg.DAOForkBlock == some w.current.Header.Number then
      cfg.ApplyDAOHardFork w.ibs
    else w.ibs
  let w0 := { w with ibs := cfg.UpgradeBuildInSystemContract w.current.Header.Number ibs0 }
  match cfg.ExecutionAt with
  | .error err => .failed err w0
  | .ok executionAt =>
    match applyTransactions cfg sig fuel executionAt w0 with
    | .failed err w1 => .failed err w1
    | .running w1 => .running w1
    | .returned cumLogs w1 => finishBlock cfg cumLogs w1

end stage

/-! ## Reading the loop -/

section reading

variable {W T : Type}

/-- The iteration started in `s` gets as far as executing `txn`: the grace
ticker has not fired, no stop is signalled, the gas check passes, `Peek`
yields `txn`, its sender is recovered and it is not dropped for replay
protection. -/
def Attempts (E : Engine W) (ops : TransactionsStream T) (sig : Signals)
    (s : LoopState W T) (txn : Transaction) : Prop :=
  (s.stopped && sig.timerFired s.tick) = false ∧ sig.quit s.tick = false ∧
  TxGas ≤ s.gasPool ∧ ops.Peek s.txs = some txn ∧ (E.Sender txn).isSome = true ∧
  (txn.Protected && !E.IsSpuriousDragon s.current.Header.Number) = false

instance (E : Engine W) (ops : TransactionsStream T) (sig : Signals)
    (s : LoopState W T) (txn : Transaction) : Decidable (Attempts E ops sig s txn) := by
  unfold Attempts; infer_instance

/-- What `core.ApplyTransaction` answers when the iteration started in `s`
executes `txn`. -/
def engineAnswer (E : Engine W) (s : LoopState W T) (txn : Transaction) : ApplyOut W :=
  E.ApplyTransaction (E.Prepare s.ibs txn s.tcount) s.gasPool s.current.Header.GasUsed txn

/-- The loop state right before `miningCommitTx` is called by the iteration
started in `s`. -/
def beforeCommit (ops : TransactionsStream T) (sig : Signals) (s : LoopState W T) :
    LoopState W T :=
  ((armTicker sig s).emit (.gasCheck s.gasPool)).emit (.peek (ops.Peek s.txs))

/-- The loop state `miningCommitTx` leaves when the engine rejects `txn` with
`err`: state reverted, gas pool back at its value before the attempt. -/
def rejected (E : Engine W) (s : LoopState W T) (txn : Transaction) (err : Err) :
    LoopState W T :=
  { s with
    ibs := E.RevertToSnapshot (engineAnswer E s txn).ibs (E.Snapshot (E.Prepare s.ibs txn s.tcount))
    gasPool := s.gasPool
    current := { s.current with
      Header := { s.current.Header with GasUsed := (engineAnswer E s txn).gasUsed } }
    trace := s.trace ++ [.prepare txn s.tcount, .applyTransaction txn (some err)] }

/-- The loop state after `txn` has been executed with `receipt` and the loop
has collected its logs and counted it (before the `Shift`). -/
def committed (E : Engine W) (s : LoopState W T) (txn : Transaction) (receipt : Receipt) :
    LoopState W T :=
  { s with
    ibs := (engineAnswer E s txn).ibs
    gasPool := (engineAnswer E s txn).gasPool
    current :=
      { Header := { s.current.Header with GasUsed := (engineAnswer E s txn).gasUsed }
        Txs := s.current.Txs ++ [txn]
        Receipts := s.current.Receipts ++ [receipt] }
    coalescedLogs := s.coalescedLogs ++ receipt.Logs
    tcount := s.tcount + 1
    trace := s.trace ++ [.prepare txn s.tcount, .applyTransaction txn none] }

/-- The state an iteration ends in. -/
def Step.state {α : Type} : Step α → α
  | .next s => s
  | .done s => s
  | .fail _ s => s

/-- Whether a log entry is a call of `Pop` or `Shift`. -/
def isCursorMove : LoopEvent → Bool
  | .pop => true
  | .shift => true
  | _ => false

/-- Whether a log entry is a call of `core.ApplyTransaction`. -/
def isExecution : LoopEvent → Bool
  | .applyTransaction _ _ => true
  | _ => false

/-- The number of `Pop` and `Shift` calls in a log. -/
def cursorMoves (l : List LoopEvent) : Nat := l.countP isCursorMove

/-- The number of executions (calls of `core.ApplyTransaction`) in a log. -/
def executions (l : List LoopEvent) : Nat := l.countP isExecution

/-- The transactions executed in a log, in order. -/
def executed (l : List LoopEvent) : List Transaction :=
  l.filterMap (fun e => match e with | .applyTransaction txn _ => some txn | _ => none)

/-- A stream is finite: `size` bounds what it still holds, and wherever `Peek`
yields a transaction both `Pop` and `Shift` remove at least that one. -/
def Advances (ops : TransactionsStream T) (size : T → Nat) : Prop :=
  ∀ t, ops.Peek t ≠ none → size (ops.Pop t) < size t ∧ size (ops.Shift t) < size t

/-- The engine keeps the gas accounts the way `core.ApplyTransaction` is meant
to: on success it takes some `g` the pool can pay from the pool and adds the
same `g` to `header.GasUsed`; on failure it leaves `header.GasUsed` alone. -/
def GasAccounting (E : Engine W) : Prop :=
  ∀ (w : W) (pool used : Nat) (txn : Transaction),
    match (E.ApplyTransaction w pool used txn).result with
    | .ok _ => ∃ g, g ≤ pool ∧ (E.ApplyTransaction w pool used txn).gasPool = pool - g ∧
        (E.ApplyTransaction w pool used txn).gasUsed = used + g
    | .error _ => (E.ApplyTransaction w pool used txn).gasUsed = used

end reading

/-! ## Sample collaborators

Concrete inputs on which the theorems below are evaluated. -/

/-- A sample engine over the nonce the state expects next: the transaction
with hash 666 fails with an error of no special kind after the engine has
taken 5000 gas from the pool; a nonce below or above the expected one is
rejected as such; a transaction needs `21000 + Hash` gas and is rejected when
the pool holds less; otherwise it succeeds, with one log. -/
def sampleEngine : Engine Nat where
  Sender := fun txn => some txn.sender
  IsSpuriousDragon := fun _ => true
  Prepare := fun w _ _ => w
  Snapshot := fun w => w
  RevertToSnapshot := fun _ snap => snap
  ApplyTransaction := fun w pool used txn =>
    if txn.Hash = 666 then ⟨w + 7, pool - 5000, used, .error (.other 1)⟩
    else if txn.Nonce < w then ⟨w, pool, used, .error .ErrNonceTooLow⟩
    else if w < txn.Nonce then ⟨w, pool, used, .error .ErrNonceTooHigh⟩
    else if pool < 21000 + txn.Hash then ⟨w, pool, used, .error .ErrGasLimitReached⟩
    else ⟨w + 1, pool - (21000 + txn.Hash), used + (21000 + txn.Hash),
      .ok ⟨txn.Hash, 21000 + txn.Hash, [txn.Hash]⟩⟩

/-- No stop, no interrupt pointer, no ticker. -/
def quiet : Signals where
  quit := fun _ => false
  interrupt := none
  timerFired := fun _ => false

/-- A transaction of sender 1 with the given hash and nonce. -/
def sampleTx (hash nonce : Nat) : Transaction :=
  { Hash := hash, Nonce := nonce, ChainID := 0, Protected := false, sender := 1 }

/-- A transaction of sender 2 with the given hash and nonce. -/
def otherTx (hash nonce : Nat) : Transaction :=
  { Hash := hash, Nonce := nonce, ChainID := 0, Protected := false, sender := 2 }

/-- An empty block with the given gas limit. -/
def sampleBlock (gasLimit : Nat) : MiningBlock :=
  { Header := { Number := 10, GasLimit := gasLimit, GasUsed := 0, BaseFee := 0 }
    Txs := [], Receipts := [] }

/-! ## Reading the stage -/

/-- Whether a log entry is a call of `getNextTransactions`. -/
def isFetch : StageEvent → Bool
  | .getNextTransactions => true
  | _ => false

/-- Whether a log entry is a call of `addTransactionsToMiningBlock`. -/
def isApplication : StageEvent → Bool
  | .addTransactionsToMiningBlock _ => true
  | _ => false

/-- Whether a log entry is the call of `core.FinalizeBlockExecution`. -/
def isFinalize : StageEvent → Bool
  | .finalizeBlockExecution => true
  | _ => false

/-- The number of calls of `getNextTransactions` in a log. -/
def fetches (l : List StageEvent) : Nat := l.countP isFetch

/-- The number of calls of `addTransactionsToMiningBlock` in a log. -/
def applications (l : List StageEvent) : Nat := l.countP isApplication

/-- The number of calls of `core.FinalizeBlockExecution` in a log. -/
def finalizations (l : List StageEvent) : Nat := l.countP isFinalize

/-- The world right after the call of `getNextTransactions` made from `w`. -/
def World.fetched {W P S F : Type} (cfg : MiningExecCfg W P S F) (executionAt : Nat)
    (w : World W P S) : World W P S :=
  { w with
    pool := (getNextTransactions cfg w.current.Header 50 executionAt w.pool).2.1
    trace := w.trace ++ (getNextTransactions cfg w.current.Header 50 executionAt w.pool).2.2 }

/-- Every call of `addTransactionsToMiningBlock` on a batch built by
`types.NewTransactionsFixedOrder` returns within `fuel` iterations. -/
def ApplierReturns {W P S F : Type} (cfg : MiningExecCfg W P S F) (sig : Signals)
    (fuel : Nat) : Prop :=
  ∀ (txs : List Transaction) (current : MiningBlock) (ibs : W) (tick : Nat),
    (addTransactionsToMiningBlock cfg.engine cfg.fixedOps sig fuel current
      (cfg.NewTransactionsFixedOrder txs) ibs tick).finished = true

/-- The world after the fork hooks at the start of `SpawnMiningExecStage`
(`misc.ApplyDAOHardFork` at the fork block, then
`systemcontracts.UpgradeBuildInSystemContract`). -/
def World.upgraded {W P S F : Type} (cfg : MiningExecCfg W P S F) (w : World W P S) :
    World W P S :=
  { w with
    ibs := cfg.UpgradeBuildInSystemContract w.current.Header.Number
      (if cfg.DAOForkSupport && cfg.DAOForkBlock == some w.current.Header.Number then
        cfg.ApplyDAOHardFork w.ibs
      else w.ibs) }

/-! ## Sample stage -/

/-- A sample configuration over `sampleEngine`. The pool answers its `n`-th
call from `script`: a list of raw transactions (complete, all of sender 1), or
an error; past the script it has nothing left. A raw transaction is the pair of
its hash and nonce. The finalizer hands the lists back, or `finalizeErr` with
empty lists. -/
def sampleCfg (script : List (Except Err (List (List Nat)))) (finalizeErr : Option Err) :
    MiningExecCfg Nat Nat (List Transaction) (List Transaction) where
  engine := sampleEngine
  chainID := 1
  YieldBest := fun p _ slots _ _ =>
    match script[p]? with
    | some (.ok raws) => (p + 1, { Txs := raws, Senders := raws.map (fun _ => 1) }, .ok true)
    | some (.error err) => (p + 1, slots, .error err)
    | none => (p + 1, { Txs := [], Senders := [] }, .ok true)
  DecodeTransaction := fun raw =>
    match raw with
    | [] => .error .EOF
    | [hash, nonce] =>
      .ok { Hash := hash, Nonce := nonce, ChainID := 0, Protected := false, sender := 0 }
    | _ => .error (.other 2)
  filterBadTransactions := fun p txs _ _ => (p, .ok txs)
  preparedOps := TransactionsBySender
  fixedOps := TransactionsFixedOrder
  NewTransactionsFixedOrder := fun txs => txs
  notifier := some 0
  DAOForkSupport := false
  DAOForkBlock := none
  ApplyDAOHardFork := fun w => w
  UpgradeBuildInSystemContract := fun _ w => w
  ExecutionAt := .ok 9
  FinalizeBlockExecution := fun w header txs receipts =>
    match finalizeErr with
    | none => ⟨w, header, txs, receipts, none⟩
    | some err => ⟨w, header, [], [], some err⟩
  SaveStageProgress := fun _ => none

/-- The sample configuration with batches cut to the 50 transactions a fetch
asks for. -/
def boundedCfg (script : List (Except Err (List (List Nat)))) :
    MiningExecCfg Nat Nat (List Transaction) (List Transaction) :=
  { sampleCfg script none with NewTransactionsFixedOrder := fun txs => txs.take 50 }

/-- The sample configuration with a pool that never reports completion and
hands out nothing. -/
def slowCfg : MiningExecCfg Nat Nat (List Transaction) (List Transaction) :=
  { sampleCfg [] none with YieldBest := fun p _ slots _ _ => (p + 1, slots, .ok false) }

/-- A world with an empty block of the given gas limit and no prepared
transactions. -/
def sampleWorld (gasLimit : Nat) : World Nat Nat (List Transaction) :=
  { current := sampleBlock gasLimit, PreparedTxs := none, ibs := 0, pool := 0, tick := 0
    trace := [] }

/-- The stop signal is raised from the start. -/
def stopNow : Signals where
  quit := fun _ => true
  interrupt := none
  timerFired := fun _ => false

/-- The interrupt flag is set from the start and the grace ticker fires from
the second iteration on. -/
def interruptNow : Signals where
  quit := fun _ => false
  interrupt := some (fun _ => 1)
  timerFired := fun t => decide (1 ≤ t)

/-! ## Reading the logs -/

/-- Whether a log entry is a call of `Peek`. -/
def isPeek : LoopEvent → Bool
  | .peek _ => true
  | _ => false

/-- Whether a log entry is the creation of the grace ticker. -/
def isNewTicker : LoopEvent → Bool
  | .newTicker => true
  | _ => false

/-- The number of calls of `Peek` in a log. -/
def peeks (l : List LoopEvent) : Nat := l.countP isPeek

/-- The number of grace tickers created in a log. -/
def tickers (l : List LoopEvent) : Nat := l.countP isNewTicker

/-- The transactions `Peek` yielded in a log, in order. -/
def yielded (l : List LoopEvent) : List Transaction :=
  l.filterMap (fun e => match e with | .peek (some txn) => some txn | _ => none)

/-- The transactions executed with success in a log, in order. -/
def succeeded (l : List LoopEvent) : List Transaction :=
  l.filterMap (fun e => match e with | .applyTransaction txn none => some txn | _ => none)

/-- The transaction indices handed to `ibs.Prepare` in a log, in order. -/
def preparedAt (l : List LoopEvent) : List Nat :=
  l.filterMap (fun e => match e with | .prepare _ txIndex => some txIndex | _ => none)

/-- The logs of the calls of `addTransactionsToMiningBlock` in a stage log, in
order. -/
def applied (l : List StageEvent) : List (List LoopEvent) :=
  l.filterMap (fun e => match e with | .addTransactionsToMiningBlock run => some run | _ => none)

/-- Whether a log entry belongs to the application phase: a fetch, a pool
call or a call of `addTransactionsToMiningBlock`. -/
def isApplicationPhase : StageEvent → Bool
  | .getNextTransactions => true
  | .yieldBest _ _ => true
  | .addTransactionsToMiningBlock _ => true
  | _ => false

/-- Whether a log entry is an `OnNewPendingLogs` event. -/
def isNotification : StageEvent → Bool
  | .onNewPendingLogs _ => true
  | _ => false

/-- The number of `OnNewPendingLogs` events in a log. -/
def notifications (l : List StageEvent) : Nat := l.countP isNotification

/-- The non-EOF decode errors of a list of raw slots, in slot order. -/
def decodeErrors {W P S F : Type} (cfg : MiningExecCfg W P S F) (raws : List (List Nat)) :
    List Err :=
  raws.filterMap (fun raw =>
    match cfg.DecodeTransaction raw with
    | .error .EOF => none
    | .error err => some err
    | .ok _ => none)

/-- The reference for the transactions kept from a list of raw slots whose
first slot has index `i`: in slot order, the decoded transaction of each slot
that decodes and whose chain ID is zero or the configured one, with the sender
found at the slot's own index in `senders`. -/
def decodeKept {W P S F : Type} (cfg : MiningExecCfg W P S F) (senders : List Address)
    (i : Nat) (raws : List (List Nat)) : List Transaction :=
  (raws.enumFrom i).filterMap (fun slot =>
    match cfg.DecodeTransaction slot.2 with
    | .ok transaction =>
      if transaction.ChainID = 0 ∨ transaction.ChainID = cfg.chainID then
        some (transaction.SetSender (senders.getD slot.1 0))
      else none
    | .error _ => none)

/-- The reference for the decode phase of `getNextTransactions`: the first
decode error that is not end-of-input if there is one, otherwise the kept
transactions. -/
def decodeReference {W P S F : Type} (cfg : MiningExecCfg W P S F) (senders : List Address)
    (raws : List (List Nat)) : Except Err (List Transaction) :=
  match decodeErrors cfg raws with
  | err :: _ => .error err
  | [] => .ok (decodeKept cfg senders 0 raws)

end stagedsync

/-! ## Zero hashes (cmd/erigon-cl/core/state/state_encoding/zero.go) -/

namespace state_encoding

/-- The round constants of SHA-256 (FIPS 180-4, section 4.2.2). -/
def sha256K : List Nat :=
  [0x428a2f98, 0x71374491, 0xb5c0fbcf, 0xe9b5dba5, 0x3956c25b, 0x59f111f1, 0x923f82a4, 0xab1c5ed5,
   0xd807aa98, 0x12835b01, 0x243185be, 0x550c7dc3, 0x72be5d74, 0x80deb1fe, 0x9bdc06a7, 0xc19bf174,
   0xe49b69c1, 0xefbe4786, 0x0fc19dc6, 0x240ca1cc, 0x2de92c6f, 0x4a7484aa, 0x5cb0a9dc, 0x76f988da,
   0x983e5152, 0xa831c66d, 0xb00327c8, 0xbf597fc7, 0xc6e00bf3, 0xd5a79147, 0x06ca6351, 0x14292967,
   0x27b70a85, 0x2e1b2138, 0x4d2c6dfc, 0x53380d13, 0x650a7354, 0x766a0abb, 0x81c2c92e, 0x92722c85,
   0xa2bfe8a1, 0xa81a664b, 0xc24b8b70, 0xc76c51a3, 0xd192e819, 0xd6990624, 0xf40e3585, 0x106aa070,
   0x19a4c116, 0x1e376c08, 0x2748774c, 0x34b0bcb5, 0x391c0cb3, 0x4ed8aa4a, 0x5b9cca4f, 0x682e6ff3,
   0x748f82ee, 0x78a5636f, 0x84c87814, 0x8cc70208, 0x90befffa, 0xa4506ceb, 0xbef9a3f7, 0xc67178f2]

/-- The initial hash value of SHA-256 (FIPS 180-4, section 5.3.3). -/
def sha256H0 : List Nat :=
  [0x6a09e667, 0xbb67ae85, 0x3c6ef372, 0xa54ff53a, 0x510e527f, 0x9b05688c, 0x1f83d9ab, 0x5be0cd19]

/-- A value cut to 32 bits. -/
def word (x : Nat) : Nat := Nat.mod x 4294967296

/-- Rotation of a 32-bit word to the right. -/
def rotr (x n : Nat) : Nat :=
  Nat.lor (Nat.shiftRight x n) (Nat.mod (Nat.shiftLeft x (Nat.sub 32 n)) 4294967296)

/-- The function Ch of FIPS 180-4. -/
def ch (x y z : Nat) : Nat := Nat.xor (Nat.land x y) (Nat.land (Nat.sub 4294967295 x) z)

/-- The function Maj of FIPS 180-4. -/
def maj (x y z : Nat) : Nat := Nat.xor (Nat.xor (Nat.land x y) (Nat.land x z)) (Nat.land y z)

/-- The function written as capital sigma 0 in FIPS 180-4. -/
def bigSigma0 (x : Nat) : Nat := Nat.xor (Nat.xor (rotr x 2) (rotr x 13)) (rotr x 22)

/-- The function written as capital sigma 1 in FIPS 180-4. -/
def bigSigma1 (x : Nat) : Nat := Nat.xor (Nat.xor (rotr x 6) (rotr x 11)) (rotr x 25)

/-- The function written as small sigma 0 in FIPS 180-4. -/
def smallSigma0 (x : Nat) : Nat := Nat.xor (Nat.xor (rotr x 7) (rotr x 18)) (Nat.shiftRight x 3)

/-- The function written as small sigma 1 in FIPS 180-4. -/
def smallSigma1 (x : Nat) : Nat := Nat.xor (Nat.xor (rotr x 17) (rotr x 19)) (Nat.shiftRight x 10)

/-- The message schedule: `n` more words are put in front of the words so
far, which are kept newest first. -/
def extend : Nat → List Nat → List Nat
  | 0, w => w
  | n + 1, w =>
    extend n (word (Nat.add (Nat.add (smallSigma1 (w.getD 1 0)) (w.getD 6 0))
      (Nat.add (smallSigma0 (w.getD 14 0)) (w.getD 15 0))) :: w)

/-- One round of the compression function on the working variables
`a` to `h`, with the round constant and the schedule word. -/
def round (s : List Nat) (kw : Nat × Nat) : List Nat :=
  match s with
  | [a, b, c, d, e, f, g, h] =>
    let t1 := Nat.add (Nat.add (Nat.add h (bigSigma1 e)) (ch e f g)) (Nat.add kw.1 kw.2)
    let t2 := Nat.add (bigSigma0 a) (maj a b c)
    [word (Nat.add t1 t2), a, b, c, word (Nat.add d t1), e, f, g]
  | _ => s

/-- The compression function: a block of 16 words is folded into the hash
value. -/
def compress (h : List Nat) (block : List Nat) : List Nat :=
  let w := (extend 48 block.reverse).reverse
  List.zipWith (fun x y => word (Nat.add x y)) h ((sha256K.zip w).foldl round h)

/-- Bytes to big-endian 32-bit words. -/
def toWords : List Nat → List Nat
  | a :: b :: c :: d :: rest => (a * 16777216 + b * 65536 + c * 256 + d) :: toWords rest
  | _ => []

/-- The padding of a message of whole bytes: the bit 1, zeros, and the
bit length as 64 bits. -/
def pad (msg : List Nat) : List Nat :=
  let l := msg.length
  msg ++ [128] ++ List.replicate ((119 - l % 64) % 64) 0 ++
    (List.range 8).map (fun i => (l * 8) >>> (8 * (7 - i)) % 256)

/-- The first `n` blocks of 16 words. -/
def blocks : Nat → List Nat → List (List Nat)
  | 0, _ => []
  | n + 1, ws => ws.take 16 :: blocks n (ws.drop 16)

/-- The hash SHA-256 of a list of bytes, as 32 bytes (`crypto/sha256`,
FIPS 180-4). -/
def sha256 (msg : List Nat) : List Nat :=
  let ws := toWords (pad msg)
  ((blocks (ws.length / 16) ws).foldl compress sha256H0).flatMap
    (fun x => [x >>> 24 % 256, x >>> 16 % 256, x >>> 8 % 256, x % 256])

/-- The table `ZeroHashes` of `state_encoding/zero.go`, entry by entry; the
first entry, 32 zero bytes in the source, is written with `List.replicate`. -/
def ZeroHashes : List (List Nat) :=
  [List.replicate 32 0,
   [245, 165, 253, 66, 209, 106, 32, 48, 39, 152, 239, 110, 211, 9, 151, 155, 67, 0, 61, 35, 32, 217, 240, 232, 234, 152, 49, 169, 39, 89, 251, 75],
   [219, 86, 17, 78, 0, 253, 212, 193, 248, 92, 137, 43, 243, 90, 201, 168, 146, 137, 170, 236, 177, 235, 208, 169, 108, 222, 96, 106, 116, 139, 93, 113],
   [199, 128, 9, 253, 240, 127, 197, 106, 17, 241, 34, 55, 6, 88, 163, 83, 170, 165, 66, 237, 99, 228, 76, 75, 193, 95, 244, 205, 16, 90, 179, 60],
   [83, 109, 152, 131, 127, 45, 209, 101, 165, 93, 94, 234, 233, 20, 133, 149, 68, 114, 213, 111, 36, 109, 242, 86, 191, 60, 174, 25, 53, 42, 18, 60],
   [158, 253, 224, 82, 170, 21, 66, 159, 174, 5, 186, 212, 208, 177, 215, 198, 77, 166, 77, 3, 215, 161, 133, 74, 88, 140, 44, 184, 67, 12, 13, 48],
   [216, 141, 223, 238, 212, 0, 168, 117, 85, 150, 178, 25, 66, 193, 73, 126, 17, 76, 48, 46, 97, 24, 41, 15, 145, 230, 119, 41, 118, 4, 31, 161],
   [135, 235, 13, 219, 165, 126, 53, 246, 210, 134, 103, 56, 2, 164, 175, 89, 117, 226, 37, 6, 199, 207, 76, 100, 187, 107, 229, 238, 17, 82, 127, 44],
   [38, 132, 100, 118, 253, 95, 197, 74, 93, 67, 56, 81, 103, 201, 81, 68, 242, 100, 63, 83, 60, 200, 91, 185, 209, 107, 120, 47, 141, 125, 177, 147],
   [80, 109, 134, 88, 45, 37, 36, 5, 184, 64, 1, 135, 146, 202, 210, 191, 18, 89, 241, 239, 90, 165, 248, 135, 225, 60, 178, 240, 9, 79, 81, 225],
   [255, 255, 10, 215, 230, 89, 119, 47, 149, 52, 193, 149, 200, 21, 239, 196, 1, 78, 241, 225, 218, 237, 68, 4, 192, 99, 133, 209, 17, 146, 233, 43],
   [108, 240, 65, 39, 219, 5, 68, 28, 216, 51, 16, 122, 82, 190, 133, 40, 104, 137, 14, 67, 23, 230, 160, 42, 180, 118, 131, 170, 117, 150, 66, 32],
   [183, 208, 95, 135, 95, 20, 0, 39, 239, 81, 24, 162, 36, 123, 187, 132, 206, 143, 47, 15, 17, 35, 98, 48, 133, 218, 247, 150, 12, 50, 159, 95],
   [223, 106, 245, 245, 187, 219, 107, 233, 239, 138, 166, 24, 228, 191, 128, 115, 150, 8, 103, 23, 30, 41, 103, 111, 139, 40, 77, 234, 106, 8, 168, 94],
   [181, 141, 144, 15, 94, 24, 46, 60, 80, 239, 116, 150, 158, 161, 108, 119, 38, 197, 73, 117, 124, 194, 53, 35, 195, 105, 88, 125, 167, 41, 55, 132],
   [212, 154, 117, 2, 255, 207, 176, 52, 11, 29, 120, 133, 104, 133, 0, 202, 48, 129, 97, 167, 249, 107, 98, 223, 157, 8, 59, 113, 252, 200, 242, 187],
   [143, 230, 177, 104, 146, 86, 192, 211, 133, 244, 47, 91, 190, 32, 39, 162, 44, 25, 150, 225, 16, 186, 151, 193, 113, 211, 229, 148, 141, 233, 43, 235],
   [141, 13, 99, 195, 158, 186, 222, 133, 9, 224, 174, 60, 156, 56, 118, 251, 95, 161, 18, 190, 24, 249, 5, 236, 172, 254, 203, 146, 5, 118, 3, 171],
   [149, 238, 200, 178, 229, 65, 202, 212, 233, 29, 227, 131, 133, 242, 224, 70, 97, 159, 84, 73, 108, 35, 130, 203, 108, 172, 213, 185, 140, 38, 245, 164],
   [248, 147, 233, 8, 145, 119, 117, 182, 43, 255, 35, 41, 77, 187, 227, 161, 205, 142, 108, 193, 195, 91, 72, 1, 136, 123, 100, 106, 111, 129, 241, 127],
   [205, 219, 167, 181, 146, 227, 19, 51, 147, 193, 97, 148, 250, 199, 67, 26, 191, 47, 84, 133, 237, 113, 29, 178, 130, 24, 60, 129, 158, 8, 235, 170],
   [138, 141, 127, 227, 175, 140, 170, 8, 90, 118, 57, 168, 50, 0, 20, 87, 223, 185, 18, 138, 128, 97, 20, 42, 208, 51, 86, 41, 255, 35, 255, 156],
   [254, 179, 195, 55, 215, 165, 26, 111, 191, 0, 185, 227, 76, 82, 225, 201, 25, 92, 150, 155, 212, 231, 160, 191, 213, 29, 92, 91, 237, 156, 17, 103],
   [231, 31, 10, 168, 60, 195, 46, 223, 190, 250, 159, 77, 62, 1, 116, 202, 133, 24, 46, 236, 159, 58, 9, 246, 166, 192, 223, 99, 119, 165, 16, 215],
   [49, 32, 111, 168, 10, 80, 187, 106, 190, 41, 8, 80, 88, 241, 98, 18, 33, 42, 96, 238, 200, 240, 73, 254, 203, 146, 216, 200, 224, 168, 75, 192],
   [33, 53, 43, 254, 203, 237, 221, 233, 147, 131, 159, 97, 76, 61, 172, 10, 62, 227, 117, 67, 249, 180, 18, 177, 97, 153, 220, 21, 142, 35, 181, 68],
   [97, 158, 49, 39, 36, 187, 109, 124, 49, 83, 237, 157, 231, 145, 215, 100, 163, 102, 179, 137, 175, 19, 197, 139, 248, 168, 217, 4, 129, 164, 103, 101],
   [124, 221, 41, 134, 38, 130, 80, 98, 141, 12, 16, 227, 133, 197, 140, 97, 145, 230, 251, 224, 81, 145, 188, 192, 79, 19, 63, 44, 234, 114, 193, 196],
   [132, 137, 48, 189, 123, 168, 202, 197, 70, 97, 7, 33, 19, 251, 39, 136, 105, 224, 123, 184, 88, 127, 145, 57, 41, 51, 55, 77, 1, 123, 203, 225],
   [136, 105, 255, 44, 34, 178, 140, 193, 5, 16, 217, 133, 50, 146, 128, 51, 40, 190, 79, 176, 232, 4, 149, 232, 187, 141, 39, 31, 91, 136, 150, 54],
   [181, 254, 40, 231, 159, 27, 133, 15, 134, 88, 36, 108, 233, 182, 161, 231, 180, 159, 192, 109, 183, 20, 62, 143, 224, 180, 242, 176, 197, 82, 58, 92],
   [152, 94, 146, 159, 112, 175, 40, 208, 189, 209, 169, 10, 128, 143, 151, 127, 89, 124, 124, 119, 140, 72, 158, 152, 211, 189, 137, 16, 211, 26, 192, 247],
   [198, 246, 126, 2, 230, 228, 225, 189, 239, 185, 148, 198, 9, 137, 83, 243, 70, 54, 186, 43, 108, 162, 10, 71, 33, 210, 178, 106, 136, 103, 34, 255],
   [28, 154, 126, 95, 241, 207, 72, 180, 173, 21, 130, 211, 244, 228, 161, 0, 79, 59, 32, 216, 197, 162, 183, 19, 135, 164, 37, 74, 217, 51, 235, 197],
   [47, 7, 90, 226, 41, 100, 107, 111, 106, 237, 25, 165, 227, 114, 207, 41, 80, 129, 64, 30, 184, 147, 255, 89, 155, 63, 154, 204, 12, 13, 62, 125],
   [50, 137, 33, 222, 181, 150, 18, 7, 104, 1, 232, 205, 97, 89, 33, 7, 181, 198, 124, 121, 184, 70, 89, 92, 198, 50, 12, 57, 91, 70, 54, 44],
   [191, 185, 9, 253, 178, 54, 173, 36, 17, 180, 228, 136, 56, 16, 160, 116, 184, 64, 70, 70, 137, 152, 108, 63, 138, 128, 145, 130, 126, 23, 195, 39],
   [85, 216, 251, 54, 135, 186, 59, 164, 159, 52, 44, 119, 245, 161, 248, 155, 236, 131, 216, 17, 68, 110, 26, 70, 113, 57, 33, 61, 100, 11, 106, 116],
   [247, 33, 13, 79, 142, 126, 16, 57, 121, 14, 123, 244, 239, 162, 7, 85, 90, 16, 166, 219, 29, 212, 185, 93, 163, 19, 170, 168, 139, 136, 254, 118],
   [173, 33, 181, 22, 203, 198, 69, 255, 227, 74, 181, 222, 28, 138, 239, 140, 212, 231, 248, 210, 181, 30, 142, 20, 86, 173, 199, 86, 60, 218, 32, 111],
   [107, 254, 141, 43, 204, 66, 55, 183, 74, 80, 71, 5, 142, 244, 85, 51, 158, 205, 115, 96, 203, 99, 191, 187, 142, 229, 68, 142, 100, 48, 186, 4],
   [167, 242, 60, 233, 24, 23, 64, 220, 34, 12, 129, 71, 130, 101, 79, 238, 106, 206, 185, 241, 236, 146, 34, 196, 226, 70, 125, 10, 177, 104, 8, 55],
   [174, 249, 71, 108, 137, 89, 10, 44, 140, 201, 179, 183, 79, 73, 103, 199, 87, 196, 157, 152, 102, 164, 75, 172, 242, 31, 162, 237, 103, 93, 223, 162],
   [154, 66, 188, 173, 130, 246, 169, 228, 18, 132, 216, 8, 234, 211, 25, 242, 159, 59, 8, 32, 157, 104, 15, 14, 44, 231, 21, 16, 208, 113, 226, 5],
   [209, 166, 109, 53, 74, 103, 185, 207, 23, 149, 113, 216, 229, 249, 119, 146, 113, 110, 141, 212, 236, 68, 25, 104, 57, 163, 247, 198, 183, 79, 139, 172],
   [250, 250, 48, 37, 242, 248, 149, 9, 194, 199, 28, 116, 251, 160, 205, 146, 133, 142, 244, 155, 7, 128, 251, 84, 121, 116, 108, 138, 155, 252, 179, 70],
   [51, 52, 167, 193, 231, 246, 112, 90, 166, 1, 26, 106, 148, 150, 69, 1, 109, 180, 172, 222, 12, 169, 171, 214, 109, 199, 157, 130, 102, 66, 48, 86],
   [7, 150, 253, 117, 102, 79, 174, 247, 68, 238, 78, 82, 215, 39, 30, 43, 187, 118, 159, 145, 237, 111, 155, 116, 216, 182, 148, 245, 102, 6, 133, 44],
   [123, 163, 174, 74, 65, 127, 232, 84, 91, 20, 43, 200, 159, 74, 220, 215, 174, 19, 148, 28, 186, 183, 117, 11, 131, 233, 240, 166, 109, 22, 190, 100],
   [120, 143, 175, 204, 74, 165, 32, 57, 154, 219, 174, 209, 149, 248, 177, 44, 78, 179, 30, 193, 1, 104, 229, 10, 171, 198, 89, 166, 174, 165, 22, 220],
   [232, 51, 215, 166, 113, 96, 230, 139, 244, 201, 4, 74, 83, 7, 125, 242, 114, 122, 208, 12, 243, 111, 73, 73, 199, 182, 129, 169, 18, 20, 12, 187],
   [48, 158, 171, 240, 149, 220, 103, 20, 249, 244, 216, 100, 187, 165, 175, 250, 224, 179, 90, 226, 245, 227, 86, 91, 204, 58, 71, 178, 18, 118, 119, 1],
   [34, 106, 142, 190, 250, 40, 134, 101, 166, 68, 165, 2, 115, 51, 94, 251, 182, 16, 81, 15, 36, 27, 91, 114, 12, 138, 54, 141, 89, 166, 154, 93],
   [65, 171, 253, 153, 84, 37, 130, 118, 37, 147, 129, 49, 175, 12, 79, 51, 254, 11, 212, 104, 140, 34, 44, 33, 250, 157, 168, 232, 156, 170, 3, 248],
   [68, 44, 100, 46, 245, 15, 161, 166, 103, 166, 230, 209, 5, 199, 124, 92, 195, 254, 200, 215, 170, 37, 112, 207, 26, 48, 119, 181, 3, 195, 128, 105],
   [160, 160, 141, 252, 155, 66, 217, 108, 45, 225, 155, 109, 18, 123, 138, 225, 54, 221, 207, 62, 90, 208, 220, 228, 34, 196, 90, 86, 246, 31, 106, 116],
   [125, 52, 131, 130, 175, 9, 109, 190, 11, 240, 134, 199, 187, 57, 178, 162, 192, 188, 54, 182, 33, 171, 12, 115, 142, 152, 133, 215, 49, 216, 23, 64],
   [58, 177, 52, 117, 29, 25, 18, 105, 2, 108, 134, 153, 78, 170, 139, 67, 168, 59, 74, 209, 246, 208, 231, 115, 129, 196, 226, 151, 74, 251, 200, 246],
   [154, 116, 82, 97, 29, 178, 210, 62, 174, 38, 249, 189, 187, 136, 149, 142, 244, 76, 100, 208, 254, 152, 123, 233, 247, 38, 173, 249, 56, 245, 15, 108],
   [114, 92, 127, 129, 96, 55, 191, 228, 82, 205, 30, 123, 163, 90, 196, 126, 220, 180, 154, 154, 43, 39, 174, 202, 112, 220, 228, 131, 203, 125, 237, 31],
   [44, 234, 26, 245, 31, 178, 139, 98, 136, 124, 57, 153, 138, 201, 254, 244, 223, 222, 218, 31, 7, 224, 113, 186, 85, 138, 23, 58, 253, 6, 203, 195],
   [255, 29, 89, 249, 139, 108, 85, 29, 149, 8, 147, 87, 5, 125, 92, 139, 226, 100, 2, 39, 158, 157, 240, 177, 223, 26, 16, 183, 43, 243, 146, 127],
   [47, 138, 24, 31, 124, 153, 221, 33, 90, 117, 41, 191, 226, 150, 169, 96, 58, 20, 70, 115, 113, 134, 210, 26, 235, 139, 199, 174, 89, 225, 253, 33],
   [236, 197, 2, 201, 177, 20, 95, 57, 80, 203, 125, 62, 56, 66, 68, 111, 129, 164, 240, 223, 29, 245, 55, 206, 225, 57, 239, 100, 234, 152, 75, 217],
   [200, 133, 194, 54, 20, 2, 73, 201, 225, 100, 14, 94, 153, 251, 151, 45, 129, 251, 179, 30, 165, 226, 159, 189, 222, 6, 54, 39, 240, 214, 189, 200],
   [48, 60, 227, 136, 9, 186, 122, 119, 182, 96, 173, 11, 7, 74, 249, 198, 188, 213, 192, 43, 191, 242, 243, 176, 36, 134, 51, 176, 184, 118, 228, 73],
   [47, 212, 195, 43, 10, 101, 97, 109, 75, 206, 185, 226, 242, 189, 77, 207, 117, 53, 84, 111, 67, 58, 62, 29, 69, 206, 84, 171, 192, 89, 200, 103],
   [47, 141, 48, 4, 136, 171, 79, 116, 100, 217, 238, 158, 89, 216, 10, 170, 138, 32, 57, 175, 85, 19, 243, 32, 229, 163, 8, 60, 99, 234, 104, 239],
   [72, 86, 47, 42, 177, 135, 58, 97, 32, 245, 117, 38, 122, 55, 219, 71, 13, 74, 107, 200, 62, 209, 173, 144, 62, 100, 247, 179, 117, 87, 102, 173],
   [40, 32, 249, 7, 55, 7, 206, 255, 106, 14, 94, 43, 207, 202, 141, 115, 210, 53, 173, 231, 13, 10, 253, 83, 92, 145, 119, 251, 146, 102, 201, 247],
   [243, 246, 168, 21, 31, 100, 246, 189, 221, 196, 184, 192, 150, 60, 87, 18, 238, 244, 125, 110, 180, 50, 241, 38, 153, 197, 41, 89, 20, 240, 142, 162],
   [46, 169, 65, 177, 1, 217, 158, 123, 107, 24, 166, 166, 42, 15, 87, 60, 75, 128, 208, 198, 140, 161, 209, 95, 136, 93, 233, 206, 11, 79, 196, 136],
   [130, 18, 196, 155, 9, 73, 105, 48, 145, 198, 103, 42, 6, 36, 31, 61, 248, 101, 166, 118, 204, 205, 203, 209, 111, 6, 21, 238, 166, 6, 131, 131],
   [231, 38, 228, 13, 189, 47, 152, 65, 41, 59, 91, 60, 21, 233, 24, 168, 114, 174, 210, 186, 73, 31, 78, 17, 30, 160, 145, 58, 4, 255, 225, 101],
   [119, 41, 71, 94, 26, 206, 150, 141, 9, 106, 124, 191, 11, 136, 52, 129, 88, 163, 126, 239, 100, 185, 9, 148, 203, 211, 125, 220, 58, 223, 83, 112],
   [252, 72, 126, 70, 108, 43, 244, 141, 135, 181, 214, 111, 90, 162, 79, 156, 91, 63, 153, 14, 33, 15, 80, 101, 5, 13, 82, 8, 213, 155, 107, 135],
   [119, 252, 136, 88, 44, 17, 79, 183, 126, 155, 198, 102, 110, 63, 63, 198, 232, 158, 76, 189, 61, 209, 89, 10, 111, 103, 173, 181, 71, 243, 72, 213],
   [220, 36, 54, 20, 255, 218, 121, 227, 215, 85, 110, 243, 253, 234, 11, 68, 223, 23, 87, 186, 218, 224, 23, 176, 95, 81, 51, 253, 21, 194, 122, 234],
   [231, 5, 9, 95, 227, 237, 108, 178, 218, 69, 134, 100, 34, 156, 81, 88, 216, 138, 160, 247, 117, 82, 141, 251, 39, 255, 63, 254, 39, 15, 192, 201],
   [119, 159, 30, 203, 250, 227, 208, 225, 231, 50, 136, 23, 68, 109, 191, 75, 203, 106, 103, 140, 108, 164, 226, 114, 110, 159, 62, 110, 101, 252, 218, 202],
   [94, 92, 87, 126, 64, 31, 176, 237, 60, 5, 25, 121, 32, 28, 252, 94, 193, 0, 218, 233, 148, 34, 120, 233, 158, 52, 52, 207, 229, 96, 194, 118],
   [24, 148, 206, 97, 36, 101, 156, 176, 214, 249, 10, 132, 66, 78, 55, 43, 89, 221, 126, 114, 32, 189, 177, 104, 4, 83, 155, 81, 186, 124, 110, 241],
   [100, 30, 223, 25, 101, 232, 122, 112, 66, 135, 18, 114, 126, 209, 219, 19, 178, 222, 145, 237, 87, 76, 131, 178, 131, 57, 188, 117, 2, 174, 195, 242],
   [10, 54, 220, 77, 27, 23, 10, 236, 101, 76, 214, 227, 136, 111, 106, 227, 162, 68, 141, 48, 169, 94, 58, 229, 197, 107, 122, 91, 0, 203, 143, 61],
   [87, 25, 104, 166, 165, 136, 87, 120, 75, 19, 225, 191, 148, 128, 40, 90, 122, 231, 13, 223, 46, 50, 29, 6, 177, 124, 240, 169, 51, 17, 156, 221],
   [229, 104, 19, 98, 142, 197, 126, 141, 224, 89, 188, 167, 135, 209, 239, 124, 177, 203, 159, 96, 140, 107, 160, 191, 120, 2, 119, 190, 221, 189, 63, 39],
   [94, 241, 229, 58, 5, 244, 61, 1, 71, 36, 71, 217, 20, 64, 148, 89, 206, 95, 43, 13, 36, 86, 97, 135, 239, 219, 239, 194, 88, 100, 218, 43],
   [173, 25, 183, 152, 36, 178, 168, 10, 139, 137, 20, 80, 210, 199, 252, 207, 158, 81, 194, 89, 121, 179, 125, 186, 142, 213, 151, 251, 147, 186, 157, 157],
   [24, 15, 237, 202, 6, 101, 108, 185, 16, 7, 112, 19, 173, 38, 121, 105, 80, 144, 38, 159, 173, 21, 137, 226, 144, 22, 47, 233, 14, 151, 212, 170],
   [115, 244, 114, 101, 14, 141, 160, 155, 207, 44, 140, 185, 152, 219, 82, 187, 39, 187, 165, 198, 51, 93, 72, 68, 50, 61, 104, 9, 76, 16, 40, 248],
   [255, 116, 102, 150, 149, 92, 250, 145, 174, 213, 231, 97, 2, 113, 13, 254, 46, 39, 130, 121, 191, 84, 61, 233, 195, 223, 138, 113, 52, 163, 59, 100],
   [46, 152, 174, 75, 110, 105, 185, 91, 113, 4, 142, 193, 25, 113, 152, 81, 192, 80, 82, 154, 32, 198, 122, 44, 64, 23, 35, 179, 77, 233, 116, 138],
   [59, 92, 57, 215, 39, 76, 42, 116, 212, 237, 45, 158, 132, 16, 234, 210, 243, 81, 223, 214, 21, 129, 72, 241, 177, 13, 151, 214, 13, 115, 146, 7],
   [66, 63, 103, 35, 17, 193, 164, 76, 229, 164, 71, 101, 246, 33, 126, 171, 247, 89, 222, 43, 216, 130, 182, 191, 15, 123, 9, 105, 78, 75, 128, 67],
   [163, 186, 13, 133, 4, 147, 149, 51, 87, 24, 136, 60, 116, 81, 205, 61, 16, 163, 38, 177, 215, 62, 34, 58, 165, 84, 158, 230, 140, 59, 234, 191],
   [211, 212, 125, 255, 170, 153, 160, 51, 200, 195, 187, 98, 220, 10, 67, 139, 113, 249, 27, 24, 163, 140, 135, 164, 159, 168, 132, 116, 221, 232, 121, 36],
   [65, 137, 210, 1, 238, 211, 244, 235, 203, 63, 213, 164, 199, 63, 40, 41, 35, 240, 16, 231, 83, 195, 197, 231, 227, 208, 25, 144, 55, 163, 176, 135],
   [20, 42, 3, 176, 157, 102, 203, 229, 180, 95, 234, 143, 162, 93, 106, 41, 112, 132, 174, 217, 224, 59, 238, 114, 134, 47, 157, 107, 61, 186, 187, 160],
   [76, 216, 234, 82, 172, 165, 36, 8, 251, 135, 176, 230, 151, 205, 36, 99, 45, 148, 166, 223, 117, 127, 163, 242, 156, 192, 165, 213, 73, 78, 220, 197],
   [175, 162, 199, 93, 194, 197, 168, 70, 44, 23, 9, 46, 225, 239, 226, 29, 233, 177, 15, 13, 192, 222, 160, 121, 79, 48, 69, 19, 225, 170, 51, 210]]

end state_encoding

namespace stagedsync

section facts

variable {W T : Type}

theorem armTicker_gasPool (sig : Signals) (s : LoopState W T) :
    (armTicker sig s).gasPool = s.gasPool := by
  unfold armTicker; split <;> rfl

theorem armTicker_txs (sig : Signals) (s : LoopState W T) :
    (armTicker sig s).txs = s.txs := by
  unfold armTicker; split <;> rfl

theorem armTicker_current (sig : Signals) (s : LoopState W T) :
    (armTicker sig s).current = s.current := by
  unfold armTicker; split <;> rfl

theorem armTicker_ibs (sig : Signals) (s : LoopState W T) :
    (armTicker sig s).ibs = s.ibs := by
  unfold armTicker; split <;> rfl

theorem armTicker_tcount (sig : Signals) (s : LoopState W T) :
    (armTicker sig s).tcount = s.tcount := by
  unfold armTicker; split <;> rfl

theorem armTicker_coalescedLogs (sig : Signals) (s : LoopState W T) :
    (armTicker sig s).coalescedLogs = s.coalescedLogs := by
  unfold armTicker; split <;> rfl

theorem armTicker_tick (sig : Signals) (s : LoopState W T) :
    (armTicker sig s).tick = s.tick := by
  unfold armTicker; split <;> rfl

theorem iteration_of_attempts (E : Engine W) (ops : TransactionsStream T) (sig : Signals)
    (s : LoopState W T) (txn : Transaction) (h : Attempts E ops sig s txn) :
    iteration E ops sig s = settle ops (miningCommitTx E (beforeCommit ops sig s) txn) := by
  obtain ⟨h1, h2, h3, h4, h5, h6⟩ := h
  obtain ⟨a, ha⟩ := Option.isSome_iff_exists.mp h5
  have h6' : (txn.Protected && !E.IsSpuriousDragon (armTicker sig s).current.Header.Number)
      = false := by rw [armTicker_current]; exact h6
  unfold iteration
  simp only [h1, h2, armTicker_gasPool, Bool.false_eq_true, if_false, not_lt.mpr h3]
  unfold attempt
  simp only [LoopState.emit, armTicker_txs, h4, ha, h6', Bool.false_eq_true, if_false, beforeCommit]

theorem emit_gasPool (s : LoopState W T) (e : LoopEvent) : (s.emit e).gasPool = s.gasPool := rfl

theorem engineAnswer_beforeCommit (E : Engine W) (ops : TransactionsStream T) (sig : Signals)
    (s : LoopState W T) (txn : Transaction) :
    engineAnswer E (beforeCommit ops sig s) txn = engineAnswer E s txn := by
  simp only [engineAnswer, beforeCommit, LoopState.emit, armTicker_ibs, armTicker_tcount,
    armTicker_gasPool, armTicker_current]

theorem beforeCommit_gasPool (ops : TransactionsStream T) (sig : Signals) (s : LoopState W T) :
    (beforeCommit ops sig s).gasPool = s.gasPool := by
  simp only [beforeCommit, LoopState.emit, armTicker_gasPool]

theorem beforeCommit_current (ops : TransactionsStream T) (sig : Signals) (s : LoopState W T) :
    (beforeCommit ops sig s).current = s.current := by
  simp only [beforeCommit, LoopState.emit, armTicker_current]

theorem beforeCommit_txs (ops : TransactionsStream T) (sig : Signals) (s : LoopState W T) :
    (beforeCommit ops sig s).txs = s.txs := by
  simp only [beforeCommit, LoopState.emit, armTicker_txs]

theorem beforeCommit_ibs (ops : TransactionsStream T) (sig : Signals) (s : LoopState W T) :
    (beforeCommit ops sig s).ibs = s.ibs := by
  simp only [beforeCommit, LoopState.emit, armTicker_ibs]

theorem beforeCommit_tcount (ops : TransactionsStream T) (sig : Signals) (s : LoopState W T) :
    (beforeCommit ops sig s).tcount = s.tcount := by
  simp only [beforeCommit, LoopState.emit, armTicker_tcount]

theorem beforeCommit_coalescedLogs (ops : TransactionsStream T) (sig : Signals)
    (s : LoopState W T) : (beforeCommit ops sig s).coalescedLogs = s.coalescedLogs := by
  simp only [beforeCommit, LoopState.emit, armTicker_coalescedLogs]

/-- A rejected execution: the error comes back, the state is reverted to the
snapshot and the gas pool is set back to `gasSnap`. -/
theorem miningCommitTx_of_error (E : Engine W) (s : LoopState W T) (txn : Transaction) (err : Err)
    (h : (engineAnswer E s txn).result = .error err) :
    miningCommitTx E s txn =
      (.error err,
        { s with
          ibs := E.RevertToSnapshot (engineAnswer E s txn).ibs
            (E.Snapshot (E.Prepare s.ibs txn s.tcount))
          gasPool := s.gasPool
          current := { s.current with
            Header := { s.current.Header with GasUsed := (engineAnswer E s txn).gasUsed } }
          trace := s.trace ++ [.prepare txn s.tcount, .applyTransaction txn (some err)] }) := by
  unfold engineAnswer at h
  simp only [miningCommitTx, engineAnswer, h]

/-- A successful execution: the logs come back, the transaction and its
receipt are appended. -/
theorem miningCommitTx_of_ok (E : Engine W) (s : LoopState W T) (txn : Transaction)
    (receipt : Receipt) (h : (engineAnswer E s txn).result = .ok receipt) :
    miningCommitTx E s txn =
      (.ok receipt.Logs,
        { s with
          ibs := (engineAnswer E s txn).ibs
          gasPool := (engineAnswer E s txn).gasPool
          current :=
            { Header := { s.current.Header with GasUsed := (engineAnswer E s txn).gasUsed }
              Txs := s.current.Txs ++ [txn]
              Receipts := s.current.Receipts ++ [receipt] }
          trace := s.trace ++ [.prepare txn s.tcount, .applyTransaction txn none] }) := by
  unfold engineAnswer at h
  simp only [miningCommitTx, engineAnswer, h]

/-- After a rejected execution the loop goes on, having called `Pop` or
`Shift` once on the state `miningCommitTx` left. -/
theorem settle_error (ops : TransactionsStream T) (err : Err) (s2 : LoopState W T) :
    settle ops (.error err, s2) = .next (s2.Pop ops) ∨
    settle ops (.error err, s2) = .next (s2.Shift ops) := by
  cases err <;> simp [settle]

/-- C1: when the engine rejects the transaction an iteration executes, the gas
pool after `miningCommitTx` is the gas pool before the attempt, whatever the
engine took from it, and the loop goes on in a state with that same gas pool,
which is the state the next iteration starts from. -/
theorem gas_pool_restored_on_rejection (E : Engine W) (ops : TransactionsStream T)
    (sig : Signals) (s : LoopState W T) (txn : Transaction) (err : Err)
    (h : Attempts E ops sig s txn) (hErr : (engineAnswer E s txn).result = .error err) :
    (miningCommitTx E (beforeCommit ops sig s) txn).2.gasPool = s.gasPool ∧
    ∃ s1, iteration E ops sig s = .next s1 ∧ s1.gasPool = s.gasPool ∧
      ∀ fuel, loop E ops sig (fuel + 1) s = loop E ops sig fuel s1.tickUp ∧
        s1.tickUp.gasPool = s.gasPool := by
  have hErr1 : (engineAnswer E (beforeCommit ops sig s) txn).result = .error err := by
    rw [engineAnswer_beforeCommit]; exact hErr
  have hc := miningCommitTx_of_error E (beforeCommit ops sig s) txn err hErr1
  have hi := iteration_of_attempts E ops sig s txn h
  rw [hc] at hi
  refine ⟨by rw [hc]; exact beforeCommit_gasPool ops sig s, ?_⟩
  rcases settle_error ops err _ with hs | hs <;> rw [hs] at hi
  · refine ⟨_, hi, beforeCommit_gasPool ops sig s, fun fuel => ⟨?_, beforeCommit_gasPool ops sig s⟩⟩
    simp only [loop, hi]
  · refine ⟨_, hi, beforeCommit_gasPool ops sig s, fun fuel => ⟨?_, beforeCommit_gasPool ops sig s⟩⟩
    simp only [loop, hi]

theorem gas_pool_restored_on_rejection_witness :
    Attempts sampleEngine TransactionsFixedOrder quiet
        (initLoop (sampleBlock 100000) [sampleTx 666 0] 0 0) (sampleTx 666 0) ∧
      (engineAnswer sampleEngine (initLoop (sampleBlock 100000) [sampleTx 666 0] 0 0)
        (sampleTx 666 0)).gasPool = 95000 ∧
      ((miningCommitTx sampleEngine (beforeCommit TransactionsFixedOrder quiet
          (initLoop (sampleBlock 100000) [sampleTx 666 0] 0 0)) (sampleTx 666 0)).2.gasPool
          = 100000) :=
  ⟨by decide, by decide,
    (gas_pool_restored_on_rejection sampleEngine TransactionsFixedOrder quiet
      (initLoop (sampleBlock 100000) [sampleTx 666 0] 0 0) (sampleTx 666 0) (.other 1)
      (by decide) rfl).1⟩

/-- The two ways an execution ends and what the loop does next. -/
theorem settle_commit_cases (E : Engine W) (ops : TransactionsStream T) (s : LoopState W T)
    (txn : Transaction) :
    (∃ err, (engineAnswer E s txn).result = .error err ∧
      (settle ops (miningCommitTx E s txn) = .next ((rejected E s txn err).Pop ops) ∨
       settle ops (miningCommitTx E s txn) = .next ((rejected E s txn err).Shift ops))) ∨
    (∃ receipt, (engineAnswer E s txn).result = .ok receipt ∧
      settle ops (miningCommitTx E s txn) = .next ((committed E s txn receipt).Shift ops)) := by
  cases hr : (engineAnswer E s txn).result with
  | error err =>
    left
    refine ⟨err, rfl, ?_⟩
    rw [miningCommitTx_of_error E s txn err hr]
    exact settle_error ops err _
  | ok receipt =>
    right
    refine ⟨receipt, rfl, ?_⟩
    rw [miningCommitTx_of_ok E s txn receipt hr]
    rfl

/-- Every way an iteration can go, with the state it ends in. -/
theorem iteration_cases (E : Engine W) (ops : TransactionsStream T) (sig : Signals)
    (s : LoopState W T) :
    ((s.stopped && sig.timerFired s.tick) = true ∧
      iteration E ops sig s = .done (s.emit .timerFired)) ∨
    ((s.stopped && sig.timerFired s.tick) = false ∧ sig.quit s.tick = true ∧
      iteration E ops sig s = .fail .ErrStopped (s.emit .stopSignal)) ∨
    ((s.stopped && sig.timerFired s.tick) = false ∧ sig.quit s.tick = false ∧
      s.gasPool < TxGas ∧
      iteration E ops sig s = .done ((armTicker sig s).emit (.gasCheck s.gasPool))) ∨
    ((s.stopped && sig.timerFired s.tick) = false ∧ sig.quit s.tick = false ∧
      TxGas ≤ s.gasPool ∧ ops.Peek s.txs = none ∧
      iteration E ops sig s = .done (beforeCommit ops sig s)) ∨
    (∃ txn, (s.stopped && sig.timerFired s.tick) = false ∧ sig.quit s.tick = false ∧
      TxGas ≤ s.gasPool ∧ ops.Peek s.txs = some txn ∧
      ((E.Sender txn).isSome = false ∨
        (txn.Protected && !E.IsSpuriousDragon s.current.Header.Number) = true) ∧
      iteration E ops sig s = .next ((beforeCommit ops sig s).Pop ops)) ∨
    (∃ txn, Attempts E ops sig s txn ∧
      iteration E ops sig s = settle ops (miningCommitTx E (beforeCommit ops sig s) txn)) := by
  by_cases h1 : (s.stopped && sig.timerFired s.tick) = true
  · left
    exact ⟨h1, by simp only [iteration, h1, if_true]⟩
  have h1f : (s.stopped && sig.timerFired s.tick) = false := by simpa using h1
  right
  by_cases h2 : sig.quit s.tick = true
  · left
    exact ⟨h1f, h2, by simp only [iteration, h1f, h2, if_true, Bool.false_eq_true, if_false]⟩
  have h2f : sig.quit s.tick = false := by simpa using h2
  right
  by_cases h3 : s.gasPool < TxGas
  · left
    exact ⟨h1f, h2f, h3, by
      simp only [iteration, h1f, h2f, armTicker_gasPool, h3, if_true, Bool.false_eq_true,
        if_false]⟩
  right
  have h3f : TxGas ≤ s.gasPool := not_lt.mp h3
  have hit : iteration E ops sig s = attempt E ops ((armTicker sig s).emit (.gasCheck s.gasPool)) := by
    simp only [iteration, h1f, h2f, armTicker_gasPool, h3, Bool.false_eq_true, if_false]
  cases h4 : ops.Peek s.txs with
  | none =>
    left
    refine ⟨h1f, h2f, h3f, rfl, ?_⟩
    rw [hit]
    simp only [attempt, LoopState.emit, armTicker_txs, h4, beforeCommit]
  | some txn =>
    right
    cases h5 : E.Sender txn with
    | none =>
      left
      refine ⟨txn, h1f, h2f, h3f, rfl, Or.inl (by simp [h5]), ?_⟩
      rw [hit]
      simp only [attempt, LoopState.emit, armTicker_txs, h4, h5, beforeCommit]
    | some a =>
      by_cases h6 : (txn.Protected && !E.IsSpuriousDragon s.current.Header.Number) = true
      · left
        refine ⟨txn, h1f, h2f, h3f, rfl, Or.inr h6, ?_⟩
        rw [hit]
        simp only [attempt, LoopState.emit, armTicker_txs, armTicker_current, h4, h5, h6, if_true,
          beforeCommit]
      · right
        have h6f : (txn.Protected && !E.IsSpuriousDragon s.current.Header.Number) = false := by
          simpa using h6
        have hA : Attempts E ops sig s txn := ⟨h1f, h2f, h3f, h4, by simp [h5], h6f⟩
        exact ⟨txn, hA, iteration_of_attempts E ops sig s txn hA⟩

/-- A property kept by every iteration and by the clock holds in the state
the loop is in after any number of iterations, however it ends. -/
theorem loop_induction (E : Engine W) (ops : TransactionsStream T) (sig : Signals)
    (I : LoopState W T → Prop)
    (hstep : ∀ s, I s → I (iteration E ops sig s).state)
    (htick : ∀ s, I s → I s.tickUp) :
    ∀ (fuel : Nat) (s : LoopState W T), I s → I (loop E ops sig fuel s).state := by
  intro fuel
  induction fuel with
  | zero => intro s hs; exact hs
  | succ n ih =>
    intro s hs
    have h := hstep s hs
    unfold loop
    cases hi : iteration E ops sig s with
    | next s1 =>
      rw [hi] at h
      exact ih _ (htick _ h)
    | done s1 =>
      rw [hi] at h
      exact htick _ h
    | fail err s1 =>
      rw [hi] at h
      exact htick _ h

/-- What one iteration does to the block: a successful execution appends the
transaction and its receipt, everything else leaves both lists alone. -/
theorem iteration_block (E : Engine W) (ops : TransactionsStream T) (sig : Signals)
    (s : LoopState W T) :
    (∃ txn receipt, Attempts E ops sig s txn ∧ (engineAnswer E s txn).result = .ok receipt ∧
      (iteration E ops sig s).state.current.Txs = s.current.Txs ++ [txn] ∧
      (iteration E ops sig s).state.current.Receipts = s.current.Receipts ++ [receipt]) ∨
    ((∀ txn receipt, Attempts E ops sig s txn → (engineAnswer E s txn).result ≠ .ok receipt) ∧
      (iteration E ops sig s).state.current.Txs = s.current.Txs ∧
      (iteration E ops sig s).state.current.Receipts = s.current.Receipts) := by
  rcases iteration_cases E ops sig s with
    ⟨h1, h⟩ | ⟨h1, h2, h⟩ | ⟨h1, h2, h3, h⟩ | ⟨h1, h2, h3, h4, h⟩ | ⟨txn, h1, h2, h3, h4, h5, h⟩ |
    ⟨txn, hA, h⟩
  · right
    refine ⟨fun t r hA => ?_, by rw [h]; rfl, by rw [h]; rfl⟩
    rw [hA.1] at h1; cases h1
  · right
    refine ⟨fun t r hA => ?_, by rw [h]; rfl, by rw [h]; rfl⟩
    rw [hA.2.1] at h2; cases h2
  · right
    refine ⟨fun t r hA => ?_, ?_, ?_⟩
    · exact absurd hA.2.2.1 (not_le.mpr h3)
    · rw [h]; simp only [Step.state, LoopState.emit, armTicker_current]
    · rw [h]; simp only [Step.state, LoopState.emit, armTicker_current]
  · right
    refine ⟨fun t r hA => ?_, ?_, ?_⟩
    · rw [hA.2.2.2.1] at h4; cases h4
    · rw [h]; simp only [Step.state, beforeCommit, LoopState.emit, armTicker_current]
    · rw [h]; simp only [Step.state, beforeCommit, LoopState.emit, armTicker_current]
  · right
    refine ⟨fun t r hA => ?_, ?_, ?_⟩
    · obtain ⟨_, _, _, a4, a5, a6⟩ := hA
      rw [h4] at a4
      cases a4
      rcases h5 with h5 | h5
      · rw [h5] at a5; cases a5
      · rw [h5] at a6; cases a6
    · rw [h]; simp only [Step.state, LoopState.Pop, beforeCommit, LoopState.emit, armTicker_current]
    · rw [h]; simp only [Step.state, LoopState.Pop, beforeCommit, LoopState.emit, armTicker_current]
  · rcases settle_commit_cases E ops (beforeCommit ops sig s) txn with
      ⟨err, hr, hs⟩ | ⟨receipt, hr, hs⟩
    · right
      rw [engineAnswer_beforeCommit] at hr
      refine ⟨fun t r hB => ?_, ?_, ?_⟩
      · have : t = txn := by
          have := hB.2.2.2.1
          rw [hA.2.2.2.1] at this
          exact (Option.some.inj this).symm
        subst this
        rw [hr]
        intro hc; cases hc
      · rcases hs with hs | hs <;> rw [h, hs] <;>
          simp only [Step.state, LoopState.Pop, LoopState.Shift, rejected, beforeCommit,
            LoopState.emit, armTicker_current]
      · rcases hs with hs | hs <;> rw [h, hs] <;>
          simp only [Step.state, LoopState.Pop, LoopState.Shift, rejected, beforeCommit,
            LoopState.emit, armTicker_current]
    · left
      rw [engineAnswer_beforeCommit] at hr
      refine ⟨txn, receipt, hA, hr, ?_, ?_⟩
      · rw [h, hs]
        simp only [Step.state, LoopState.Shift, committed, beforeCommit, LoopState.emit,
          armTicker_current]
      · rw [h, hs]
        simp only [Step.state, LoopState.Shift, committed, beforeCommit, LoopState.emit,
          armTicker_current]

theorem subU64_of_le (a b : Nat) (hb : b ≤ a) (ha : a < u64) : subU64 a b = a - b := by
  unfold subU64 u64 at *
  norm_num at *
  omega

/-- One iteration keeps `gasPool + GasUsed = GasLimit` when the engine keeps
the gas accounts. -/
theorem iteration_gas (E : Engine W) (ops : TransactionsStream T) (sig : Signals)
    (hE : GasAccounting E) (L : Nat) (s : LoopState W T)
    (h : s.gasPool + s.current.Header.GasUsed = L ∧ s.current.Header.GasLimit = L) :
    (iteration E ops sig s).state.gasPool + (iteration E ops sig s).state.current.Header.GasUsed
        = L ∧ (iteration E ops sig s).state.current.Header.GasLimit = L := by
  rcases iteration_cases E ops sig s with
    ⟨h1, hi⟩ | ⟨h1, h2, hi⟩ | ⟨h1, h2, h3, hi⟩ | ⟨h1, h2, h3, h4, hi⟩ |
    ⟨txn, h1, h2, h3, h4, h5, hi⟩ | ⟨txn, hA, hi⟩
  · rw [hi]; exact h
  · rw [hi]; exact h
  · rw [hi]; simpa only [Step.state, LoopState.emit, armTicker_current, armTicker_gasPool] using h
  · rw [hi]
    simpa only [Step.state, beforeCommit, LoopState.emit, armTicker_current, armTicker_gasPool]
      using h
  · rw [hi]
    simpa only [Step.state, LoopState.Pop, beforeCommit, LoopState.emit, armTicker_current,
      armTicker_gasPool] using h
  · have hacc := hE (E.Prepare s.ibs txn s.tcount) s.gasPool s.current.Header.GasUsed txn
    rcases settle_commit_cases E ops (beforeCommit ops sig s) txn with
      ⟨err, hr, hs⟩ | ⟨receipt, hr, hs⟩
    · rw [engineAnswer_beforeCommit] at hr
      have hr1 : (E.ApplyTransaction (E.Prepare s.ibs txn s.tcount) s.gasPool
          s.current.Header.GasUsed txn).result = .error err := hr
      rw [hr1] at hacc
      have hu : (engineAnswer E s txn).gasUsed = s.current.Header.GasUsed := hacc
      rcases hs with hs | hs <;> rw [hi, hs] <;>
        simp only [Step.state, LoopState.Pop, LoopState.Shift, rejected, beforeCommit_current,
          beforeCommit_gasPool, engineAnswer_beforeCommit, hu] <;>
        exact h
    · rw [engineAnswer_beforeCommit] at hr
      have hr1 : (E.ApplyTransaction (E.Prepare s.ibs txn s.tcount) s.gasPool
          s.current.Header.GasUsed txn).result = .ok receipt := hr
      rw [hr1] at hacc
      obtain ⟨g, hg, hp, hu⟩ := hacc
      have hp1 : (engineAnswer E s txn).gasPool = s.gasPool - g := hp
      have hu1 : (engineAnswer E s txn).gasUsed = s.current.Header.GasUsed + g := hu
      rw [hi, hs]
      simp only [Step.state, LoopState.Shift, committed, beforeCommit_current,
        beforeCommit_gasPool, engineAnswer_beforeCommit, hp1, hu1]
      refine ⟨?_, h.2⟩
      have := h.1
      omega

/-- C3: with `header.GasUsed <= header.GasLimit` on entry and an engine that
keeps the gas accounts, the gas pool and `header.GasUsed` add up to
`header.GasLimit` after any number of loop iterations and on return, so
`header.GasUsed` never exceeds `header.GasLimit`. -/
theorem gas_used_within_limit (E : Engine W) (ops : TransactionsStream T) (sig : Signals)
    (fuel : Nat) (current : MiningBlock) (txs : T) (ibs : W) (tick : Nat)
    (hE : GasAccounting E)
    (hUsed : current.Header.GasUsed ≤ current.Header.GasLimit)
    (hLimit : current.Header.GasLimit < u64) :
    (addTransactionsToMiningBlock E ops sig fuel current txs ibs tick).state.gasPool +
      (addTransactionsToMiningBlock E ops sig fuel current txs ibs tick).state.current.Header.GasUsed
        = current.Header.GasLimit ∧
    (addTransactionsToMiningBlock E ops sig fuel current txs ibs tick).state.current.Header.GasUsed
        ≤ current.Header.GasLimit ∧
    (addTransactionsToMiningBlock E ops sig fuel current txs ibs tick).state.current.Header.GasLimit
        = current.Header.GasLimit ∧
    (initLoop current txs ibs tick).gasPool = current.Header.GasLimit - current.Header.GasUsed := by
  have h0 : (initLoop current txs ibs tick).gasPool
      = current.Header.GasLimit - current.Header.GasUsed := subU64_of_le _ _ hUsed hLimit
  have hinv := loop_induction E ops sig
    (fun s => s.gasPool + s.current.Header.GasUsed = current.Header.GasLimit ∧
      s.current.Header.GasLimit = current.Header.GasLimit)
    (fun s hs => iteration_gas E ops sig hE _ s hs) (fun s hs => hs) fuel
    (initLoop current txs ibs tick)
    ⟨by rw [h0]; simp only [initLoop]; omega, rfl⟩
  refine ⟨hinv.1, ?_, hinv.2, h0⟩
  have := hinv.1
  unfold addTransactionsToMiningBlock
  omega

theorem sampleEngine_gasAccounting : GasAccounting sampleEngine := by
  intro w pool used txn
  simp only [sampleEngine]
  split_ifs with h1 h2 h3 h4
  · rfl
  · rfl
  · rfl
  · rfl
  · exact ⟨21000 + txn.Hash, not_lt.mp h4, rfl, rfl⟩

theorem gas_used_within_limit_witness :
    (addTransactionsToMiningBlock sampleEngine TransactionsFixedOrder quiet 5 (sampleBlock 50000)
        [sampleTx 1 0, sampleTx 2 1, sampleTx 666 2] 0 0).state.current.Header.GasUsed = 42003 ∧
    (addTransactionsToMiningBlock sampleEngine TransactionsFixedOrder quiet 5 (sampleBlock 50000)
        [sampleTx 1 0, sampleTx 2 1, sampleTx 666 2] 0 0).state.gasPool +
      (addTransactionsToMiningBlock sampleEngine TransactionsFixedOrder quiet 5 (sampleBlock 50000)
        [sampleTx 1 0, sampleTx 2 1, sampleTx 666 2] 0 0).state.current.Header.GasUsed
        = 50000 :=
  ⟨by decide,
    (gas_used_within_limit sampleEngine TransactionsFixedOrder quiet 5 (sampleBlock 50000)
      [sampleTx 1 0, sampleTx 2 1, sampleTx 666 2] 0 0 sampleEngine_gasAccounting
      (by decide) (by decide)).1⟩

/-- C4: `len(current.Txs) == len(current.Receipts)`, when it holds on entry,
holds after any number of loop iterations and on every return path; and one
iteration either executes a transaction with success and appends exactly it
and its receipt, or appends to neither list. -/
theorem txs_receipts_lengths_agree (E : Engine W) (ops : TransactionsStream T) (sig : Signals)
    (fuel : Nat) (current : MiningBlock) (txs : T) (ibs : W) (tick : Nat)
    (h : current.Txs.length = current.Receipts.length) :
    (addTransactionsToMiningBlock E ops sig fuel current txs ibs tick).state.current.Txs.length =
      (addTransactionsToMiningBlock E ops sig fuel current txs ibs tick).state.current.Receipts.length ∧
    ∀ s : LoopState W T,
      (∃ txn receipt, Attempts E ops sig s txn ∧ (engineAnswer E s txn).result = .ok receipt ∧
        (iteration E ops sig s).state.current.Txs = s.current.Txs ++ [txn] ∧
        (iteration E ops sig s).state.current.Receipts = s.current.Receipts ++ [receipt]) ∨
      ((∀ txn receipt, Attempts E ops sig s txn → (engineAnswer E s txn).result ≠ .ok receipt) ∧
        (iteration E ops sig s).state.current.Txs = s.current.Txs ∧
        (iteration E ops sig s).state.current.Receipts = s.current.Receipts) := by
  refine ⟨?_, iteration_block E ops sig⟩
  refine loop_induction E ops sig
    (fun s => s.current.Txs.length = s.current.Receipts.length) (fun s hs => ?_)
    (fun s hs => hs) fuel (initLoop current txs ibs tick) h
  rcases iteration_block E ops sig s with ⟨txn, receipt, _, _, h1, h2⟩ | ⟨_, h1, h2⟩
  · have hs1 : s.current.Txs.length = s.current.Receipts.length := hs
    simp only [h1, h2, List.length_append, List.length_singleton, hs1]
  · have hs1 : s.current.Txs.length = s.current.Receipts.length := hs
    simp only [h1, h2, hs1]

theorem txs_receipts_lengths_agree_witness :
    (sampleBlock 50000).Txs.length = (sampleBlock 50000).Receipts.length ∧
    (addTransactionsToMiningBlock sampleEngine TransactionsFixedOrder quiet 5 (sampleBlock 50000)
        [sampleTx 1 0, sampleTx 666 1, sampleTx 2 1] 0 0).state.current.Txs.length = 2 ∧
    (addTransactionsToMiningBlock sampleEngine TransactionsFixedOrder quiet 5 (sampleBlock 50000)
        [sampleTx 1 0, sampleTx 666 1, sampleTx 2 1] 0 0).state.current.Txs.length =
      (addTransactionsToMiningBlock sampleEngine TransactionsFixedOrder quiet 5 (sampleBlock 50000)
        [sampleTx 1 0, sampleTx 666 1, sampleTx 2 1] 0 0).state.current.Receipts.length :=
  ⟨by decide, by decide,
    (txs_receipts_lengths_agree sampleEngine TransactionsFixedOrder quiet 5 (sampleBlock 50000)
      [sampleTx 1 0, sampleTx 666 1, sampleTx 2 1] 0 0 (by decide)).1⟩

theorem armTicker_counts (sig : Signals) (s : LoopState W T) :
    cursorMoves (armTicker sig s).trace = cursorMoves s.trace ∧
    executions (armTicker sig s).trace = executions s.trace := by
  unfold armTicker
  split
  · simp [cursorMoves, executions, List.countP_append, isCursorMove, isExecution]
  · exact ⟨rfl, rfl⟩

theorem beforeCommit_counts (ops : TransactionsStream T) (sig : Signals) (s : LoopState W T) :
    cursorMoves (beforeCommit ops sig s).trace = cursorMoves s.trace ∧
    executions (beforeCommit ops sig s).trace = executions s.trace := by
  have h := armTicker_counts sig s
  simp only [cursorMoves, executions] at h
  simp [beforeCommit, LoopState.emit, cursorMoves, executions, List.countP_append, isCursorMove,
    isExecution, h.1, h.2]

/-- What one iteration does to the cursor: if the loop goes on, `Peek` had
yielded a transaction and `Pop` or `Shift` was called exactly once; if the loop
ends, the cursor is untouched. At most one execution takes place. -/
theorem iteration_cursor (E : Engine W) (ops : TransactionsStream T) (sig : Signals)
    (s : LoopState W T) :
    (∃ s1, iteration E ops sig s = .next s1 ∧ ops.Peek s.txs ≠ none ∧
      (s1.txs = ops.Pop s.txs ∨ s1.txs = ops.Shift s.txs) ∧
      cursorMoves s1.trace = cursorMoves s.trace + 1 ∧
      executions s1.trace ≤ executions s.trace + 1) ∨
    (((∃ s1, iteration E ops sig s = .done s1) ∨ (∃ err s1, iteration E ops sig s = .fail err s1)) ∧
      (iteration E ops sig s).state.txs = s.txs ∧
      cursorMoves (iteration E ops sig s).state.trace = cursorMoves s.trace ∧
      executions (iteration E ops sig s).state.trace = executions s.trace) := by
  have hb := beforeCommit_counts ops sig s
  have ha := armTicker_counts sig s
  simp only [cursorMoves, executions] at hb ha
  rcases iteration_cases E ops sig s with
    ⟨h1, hi⟩ | ⟨h1, h2, hi⟩ | ⟨h1, h2, h3, hi⟩ | ⟨h1, h2, h3, h4, hi⟩ |
    ⟨txn, h1, h2, h3, h4, h5, hi⟩ | ⟨txn, hA, hi⟩
  · right
    refine ⟨Or.inl ⟨_, hi⟩, ?_⟩
    rw [hi]
    simp [Step.state, LoopState.emit, cursorMoves, executions, List.countP_append, isCursorMove,
      isExecution]
  · right
    refine ⟨Or.inr ⟨_, _, hi⟩, ?_⟩
    rw [hi]
    simp [Step.state, LoopState.emit, cursorMoves, executions, List.countP_append, isCursorMove,
      isExecution]
  · right
    refine ⟨Or.inl ⟨_, hi⟩, ?_⟩
    rw [hi]
    simp [Step.state, LoopState.emit, cursorMoves, executions, List.countP_append, isCursorMove,
      isExecution, armTicker_txs, ha.1, ha.2]
  · right
    refine ⟨Or.inl ⟨_, hi⟩, ?_⟩
    rw [hi]
    simp [Step.state, cursorMoves, executions, beforeCommit_txs, hb.1, hb.2]
  · left
    refine ⟨_, hi, by simp [h4], Or.inl ?_, ?_, ?_⟩
    · simp [LoopState.Pop, beforeCommit_txs]
    · simp [LoopState.Pop, cursorMoves, List.countP_append, isCursorMove, hb.1]
    · simp [LoopState.Pop, executions, List.countP_append, isExecution, hb.2]
  · left
    have h4 := hA.2.2.2.1
    rcases settle_commit_cases E ops (beforeCommit ops sig s) txn with
      ⟨err, hr, hs | hs⟩ | ⟨receipt, hr, hs⟩
    · rw [hs] at hi
      refine ⟨_, hi, by simp [h4], Or.inl ?_, ?_, ?_⟩
      · simp [LoopState.Pop, rejected, beforeCommit_txs]
      · simp [LoopState.Pop, rejected, cursorMoves, List.countP_append, List.countP_cons,
          isCursorMove, hb.1]
      · simp [LoopState.Pop, rejected, executions, List.countP_append, List.countP_cons,
          isExecution, hb.2]
    · rw [hs] at hi
      refine ⟨_, hi, by simp [h4], Or.inr ?_, ?_, ?_⟩
      · simp [LoopState.Shift, rejected, beforeCommit_txs]
      · simp [LoopState.Shift, rejected, cursorMoves, List.countP_append, List.countP_cons,
          isCursorMove, hb.1]
      · simp [LoopState.Shift, rejected, executions, List.countP_append, List.countP_cons,
          isExecution, hb.2]
    · rw [hs] at hi
      refine ⟨_, hi, by simp [h4], Or.inr ?_, ?_, ?_⟩
      · simp [LoopState.Shift, committed, beforeCommit_txs]
      · simp [LoopState.Shift, committed, cursorMoves, List.countP_append, List.countP_cons,
          isCursorMove, hb.1]
      · simp [LoopState.Shift, committed, executions, List.countP_append, List.countP_cons,
          isExecution, hb.2]

/-- On a finite stream the loop ends within `size + 1` iterations and executes
at most `size` transactions, whatever the outcomes. -/
theorem loop_terminates (E : Engine W) (ops : TransactionsStream T) (sig : Signals)
    (size : T → Nat) (hadv : Advances ops size) :
    ∀ (fuel : Nat) (s : LoopState W T), size s.txs < fuel →
      (loop E ops sig fuel s).finished = true ∧
      executions (loop E ops sig fuel s).state.trace ≤ executions s.trace + size s.txs := by
  intro fuel
  induction fuel with
  | zero => intro s h; omega
  | succ n ih =>
    intro s h
    rcases iteration_cursor E ops sig s with
      ⟨s1, hi, hp, ht, _, he⟩ | ⟨hi, _, _, he⟩
    · have hlt : size s1.txs < size s.txs := by
        rcases ht with ht | ht <;> rw [ht]
        · exact (hadv _ hp).1
        · exact (hadv _ hp).2
      have := ih s1.tickUp (by simp only [LoopState.tickUp]; omega)
      simp only [loop, hi]
      refine ⟨this.1, le_trans this.2 ?_⟩
      simp only [LoopState.tickUp]
      omega
    · rcases hi with ⟨s1, hi⟩ | ⟨err, s1, hi⟩
      · rw [hi] at he
        simp only [loop, hi, Outcome.finished, Outcome.state, LoopState.tickUp]
        simp only [Step.state] at he
        exact ⟨trivial, by omega⟩
      · rw [hi] at he
        simp only [loop, hi, Outcome.finished, Outcome.state, LoopState.tickUp]
        simp only [Step.state] at he
        exact ⟨trivial, by omega⟩

theorem fixedOrder_advances : Advances TransactionsFixedOrder List.length := by
  intro t ht
  cases t with
  | nil => exact absurd rfl ht
  | cons a l => simp [TransactionsFixedOrder]

theorem bySender_advances : Advances TransactionsBySender List.length := by
  intro t ht
  cases t with
  | nil => exact absurd rfl ht
  | cons a l =>
    simp only [TransactionsBySender, List.length_cons, List.tail_cons]
    have := List.length_filter_le (fun u => u.sender != a.sender) l
    omega

/-- C5: every iteration either ends the loop, leaving the cursor alone, or
calls exactly one of `Pop` and `Shift`; so on a finite stream (`size` bounds
it and `Pop` and `Shift` each remove at least the head) the call returns
within `size + 1` iterations and executes at most `size` transactions, also
when every execution is rejected. -/
theorem every_iteration_ends_or_advances (E : Engine W) (ops : TransactionsStream T)
    (sig : Signals) (size : T → Nat) (fuel : Nat) (current : MiningBlock) (txs : T) (ibs : W)
    (tick : Nat) (hadv : Advances ops size) (hfuel : size txs < fuel) :
    (∀ s : LoopState W T,
      (∃ s1, iteration E ops sig s = .next s1 ∧ ops.Peek s.txs ≠ none ∧
        (s1.txs = ops.Pop s.txs ∨ s1.txs = ops.Shift s.txs) ∧
        cursorMoves s1.trace = cursorMoves s.trace + 1 ∧
        executions s1.trace ≤ executions s.trace + 1) ∨
      (((∃ s1, iteration E ops sig s = .done s1) ∨
          (∃ err s1, iteration E ops sig s = .fail err s1)) ∧
        (iteration E ops sig s).state.txs = s.txs ∧
        cursorMoves (iteration E ops sig s).state.trace = cursorMoves s.trace ∧
        executions (iteration E ops sig s).state.trace = executions s.trace)) ∧
    (addTransactionsToMiningBlock E ops sig fuel current txs ibs tick).finished = true ∧
    executions (addTransactionsToMiningBlock E ops sig fuel current txs ibs tick).state.trace
      ≤ size txs := by
  refine ⟨iteration_cursor E ops sig, ?_⟩
  have h := loop_terminates E ops sig size hadv fuel (initLoop current txs ibs tick) hfuel
  refine ⟨h.1, le_trans h.2 ?_⟩
  simp [initLoop, executions]

theorem every_iteration_ends_or_advances_witness :
    (addTransactionsToMiningBlock sampleEngine TransactionsFixedOrder quiet 4 (sampleBlock 50000)
        [sampleTx 666 0, sampleTx 5 9, sampleTx 666 1] 0 0).finished = true ∧
    executions (addTransactionsToMiningBlock sampleEngine TransactionsFixedOrder quiet 4
        (sampleBlock 50000) [sampleTx 666 0, sampleTx 5 9, sampleTx 666 1] 0 0).state.trace = 3 ∧
    (addTransactionsToMiningBlock sampleEngine TransactionsFixedOrder quiet 4 (sampleBlock 50000)
        [sampleTx 666 0, sampleTx 5 9, sampleTx 666 1] 0 0).state.current.Txs = [] ∧
    executions (addTransactionsToMiningBlock sampleEngine TransactionsFixedOrder quiet 4
        (sampleBlock 50000) [sampleTx 666 0, sampleTx 5 9, sampleTx 666 1] 0 0).state.trace
      ≤ [sampleTx 666 0, sampleTx 5 9, sampleTx 666 1].length :=
  ⟨by decide, by decide, by decide,
    (every_iteration_ends_or_advances sampleEngine TransactionsFixedOrder quiet List.length 4
      (sampleBlock 50000) [sampleTx 666 0, sampleTx 5 9, sampleTx 666 1] 0 0
      fixedOrder_advances (by decide)).2.2⟩

/-- The loop returns an error only from the stop-signal check. -/
theorem iteration_fail (E : Engine W) (ops : TransactionsStream T) (sig : Signals)
    (s s1 : LoopState W T) (err : Err) (h : iteration E ops sig s = .fail err s1) :
    sig.quit s.tick = true ∧ err = .ErrStopped ∧ s1 = s.emit .stopSignal := by
  rcases iteration_cases E ops sig s with
    ⟨h1, hi⟩ | ⟨h1, h2, hi⟩ | ⟨h1, h2, h3, hi⟩ | ⟨h1, h2, h3, h4, hi⟩ |
    ⟨txn, h1, h2, h3, h4, h5, hi⟩ | ⟨txn, hA, hi⟩
  · rw [hi] at h; cases h
  · rw [hi] at h; cases h; exact ⟨h2, rfl, rfl⟩
  · rw [hi] at h; cases h
  · rw [hi] at h; cases h
  · rw [hi] at h; cases h
  · rcases settle_commit_cases E ops (beforeCommit ops sig s) txn with
      ⟨err, hr, hs | hs⟩ | ⟨receipt, hr, hs⟩ <;> rw [hi, hs] at h <;> cases h

/-- Without a stop signal the loop never returns an error. -/
theorem loop_err_none (E : Engine W) (ops : TransactionsStream T) (sig : Signals)
    (hquit : ∀ t, sig.quit t = false) :
    ∀ (fuel : Nat) (s : LoopState W T), (loop E ops sig fuel s).err = none := by
  intro fuel
  induction fuel with
  | zero => intro s; rfl
  | succ n ih =>
    intro s
    unfold loop
    cases hi : iteration E ops sig s with
    | next s1 => exact ih _
    | done s1 => rfl
    | fail err s1 =>
      have := (iteration_fail E ops sig s s1 err hi).1
      rw [hquit] at this
      cases this

/-- A call that has finished without an error has returned its logs. -/
theorem Outcome.returned_of {ρ α : Type} (o : Outcome ρ α) (hf : o.finished = true)
    (he : o.err = none) : ∃ r s, o = .returned r s := by
  cases o with
  | returned r s => exact ⟨r, s, rfl⟩
  | failed e s => cases he
  | running s => cases hf

/-- C7: without a stop signal `addTransactionsToMiningBlock` returns a nil
error on every finite stream, whatever the outcomes of the transactions, and
has produced no error after any number of iterations; and a transaction that
is dropped or rejected (or accepted) makes the loop go on with the stream
advanced by one `Pop` or `Shift`. -/
theorem local_errors_not_surfaced (E : Engine W) (ops : TransactionsStream T)
    (sig : Signals) (size : T → Nat) (fuel : Nat) (current : MiningBlock) (txs : T) (ibs : W)
    (tick : Nat) (hadv : Advances ops size) (hfuel : size txs < fuel)
    (hquit : ∀ t, sig.quit t = false) :
    (∃ logs s, addTransactionsToMiningBlock E ops sig fuel current txs ibs tick
      = .returned logs s) ∧
    (∀ n, (addTransactionsToMiningBlock E ops sig n current txs ibs tick).err = none) ∧
    ∀ (s : LoopState W T) (txn : Transaction),
      (s.stopped && sig.timerFired s.tick) = false → TxGas ≤ s.gasPool →
      ops.Peek s.txs = some txn →
      ∃ s1, iteration E ops sig s = .next s1 ∧
        (s1.txs = ops.Pop s.txs ∨ s1.txs = ops.Shift s.txs) := by
  refine ⟨?_, fun n => loop_err_none E ops sig hquit n _, ?_⟩
  · exact Outcome.returned_of _
      (loop_terminates E ops sig size hadv fuel (initLoop current txs ibs tick) hfuel).1
      (loop_err_none E ops sig hquit fuel _)
  · intro s txn h1 h3 h4
    rcases iteration_cursor E ops sig s with ⟨s1, hi, _, ht, _⟩ | ⟨hi, _⟩
    · exact ⟨s1, hi, ht⟩
    · exfalso
      rcases iteration_cases E ops sig s with
        ⟨g1, gi⟩ | ⟨g1, g2, gi⟩ | ⟨g1, g2, g3, gi⟩ | ⟨g1, g2, g3, g4, gi⟩ |
        ⟨t, g1, g2, g3, g4, g5, gi⟩ | ⟨t, gA, gi⟩
      · rw [h1] at g1; cases g1
      · rw [hquit] at g2; cases g2
      · exact absurd h3 (not_le.mpr g3)
      · rw [h4] at g4; cases g4
      · rcases hi with ⟨s1, hi⟩ | ⟨err, s1, hi⟩ <;> rw [gi] at hi <;> cases hi
      · rcases settle_commit_cases E ops (beforeCommit ops sig s) t with
          ⟨err, hr, hs | hs⟩ | ⟨receipt, hr, hs⟩ <;> rw [hs] at gi <;>
          rcases hi with ⟨s1, hi⟩ | ⟨err1, s1, hi⟩ <;> rw [gi] at hi <;> cases hi

theorem local_errors_not_surfaced_witness :
    (addTransactionsToMiningBlock sampleEngine TransactionsFixedOrder quiet 5 (sampleBlock 50000)
        [sampleTx 666 0, sampleTx 1 5, sampleTx 2 0, sampleTx 40000 1] 0 0).state.current.Txs
        = [sampleTx 2 0] ∧
    ∃ logs s, addTransactionsToMiningBlock sampleEngine TransactionsFixedOrder quiet 5
        (sampleBlock 50000) [sampleTx 666 0, sampleTx 1 5, sampleTx 2 0, sampleTx 40000 1] 0 0
      = .returned logs s :=
  ⟨by decide,
    (local_errors_not_surfaced sampleEngine TransactionsFixedOrder quiet List.length 5
      (sampleBlock 50000) [sampleTx 666 0, sampleTx 1 5, sampleTx 2 0, sampleTx 40000 1] 0 0
      fixedOrder_advances (by decide) (fun _ => rfl)).1⟩

theorem armTicker_executed (sig : Signals) (s : LoopState W T) :
    executed (armTicker sig s).trace = executed s.trace := by
  unfold armTicker
  split
  · simp [executed, List.filterMap_append]
  · rfl

theorem beforeCommit_executed (ops : TransactionsStream T) (sig : Signals) (s : LoopState W T) :
    executed (beforeCommit ops sig s).trace = executed s.trace := by
  have h := armTicker_executed sig s
  simp only [executed] at h
  simp [beforeCommit, LoopState.emit, executed, List.filterMap_append, h]

/-- What one iteration executes and commits: at most the transaction `Peek`
yields. -/
theorem iteration_executed (E : Engine W) (ops : TransactionsStream T) (sig : Signals)
    (s : LoopState W T) :
    ∃ l added, executed (iteration E ops sig s).state.trace = executed s.trace ++ l ∧
      (iteration E ops sig s).state.current.Txs = s.current.Txs ++ added ∧
      (∀ t ∈ l, ops.Peek s.txs = some t) ∧ (∀ t ∈ added, ops.Peek s.txs = some t) := by
  have hb := beforeCommit_executed ops sig s
  have ha := armTicker_executed sig s
  simp only [executed] at hb ha
  rcases iteration_cases E ops sig s with
    ⟨h1, hi⟩ | ⟨h1, h2, hi⟩ | ⟨h1, h2, h3, hi⟩ | ⟨h1, h2, h3, h4, hi⟩ |
    ⟨txn, h1, h2, h3, h4, h5, hi⟩ | ⟨txn, hA, hi⟩
  · refine ⟨[], [], ?_, ?_, by simp, by simp⟩ <;> rw [hi] <;>
      simp [Step.state, LoopState.emit, executed, List.filterMap_append]
  · refine ⟨[], [], ?_, ?_, by simp, by simp⟩ <;> rw [hi] <;>
      simp [Step.state, LoopState.emit, executed, List.filterMap_append]
  · refine ⟨[], [], ?_, ?_, by simp, by simp⟩ <;> rw [hi] <;>
      simp [Step.state, LoopState.emit, executed, List.filterMap_append, ha, armTicker_current]
  · refine ⟨[], [], ?_, ?_, by simp, by simp⟩ <;> rw [hi] <;>
      simp [Step.state, executed, hb, beforeCommit_current]
  · refine ⟨[], [], ?_, ?_, by simp, by simp⟩ <;> rw [hi] <;>
      simp [Step.state, LoopState.Pop, executed, List.filterMap_append, hb, beforeCommit_current]
  · have h4 := hA.2.2.2.1
    rcases settle_commit_cases E ops (beforeCommit ops sig s) txn with
      ⟨err, hr, hs | hs⟩ | ⟨receipt, hr, hs⟩
    · refine ⟨[txn], [], ?_, ?_, by simp [h4], by simp⟩ <;> rw [hi, hs] <;>
        simp [Step.state, LoopState.Pop, rejected, executed, List.filterMap_append,
          List.filterMap_cons, hb, beforeCommit_current]
    · refine ⟨[txn], [], ?_, ?_, by simp [h4], by simp⟩ <;> rw [hi, hs] <;>
        simp [Step.state, LoopState.Shift, rejected, executed, List.filterMap_append,
          List.filterMap_cons, hb, beforeCommit_current]
    · refine ⟨[txn], [txn], ?_, ?_, by simp [h4], by simp [h4]⟩ <;> rw [hi, hs] <;>
        simp [Step.state, LoopState.Shift, committed, executed, List.filterMap_append,
          List.filterMap_cons, hb, beforeCommit_current]

/-- If every transaction the stream can still yield has property `P` (`Q`
says so of a cursor state and is kept by `Pop` and `Shift`), then every
transaction the loop executes or commits from here on has it. -/
theorem loop_executes_only (E : Engine W) (ops : TransactionsStream T) (sig : Signals)
    (P : Transaction → Prop) (Q : T → Prop)
    (hpeek : ∀ t x, Q t → ops.Peek t = some x → P x)
    (hmove : ∀ t, Q t → Q (ops.Pop t) ∧ Q (ops.Shift t))
    (fuel : Nat) (s : LoopState W T) (hs : Q s.txs) :
    ∃ l added, executed (loop E ops sig fuel s).state.trace = executed s.trace ++ l ∧
      (loop E ops sig fuel s).state.current.Txs = s.current.Txs ++ added ∧
      (∀ t ∈ l, P t) ∧ (∀ t ∈ added, P t) := by
  have := loop_induction E ops sig
    (fun s1 => Q s1.txs ∧ ∃ l added, executed s1.trace = executed s.trace ++ l ∧
      s1.current.Txs = s.current.Txs ++ added ∧ (∀ t ∈ l, P t) ∧ (∀ t ∈ added, P t))
    (fun s1 h1 => ?_) (fun s1 h1 => h1) fuel s ⟨hs, [], [], by simp, by simp, by simp, by simp⟩
  · exact this.2
  · obtain ⟨hq, l, added, hl, hadd, hPl, hPa⟩ := h1
    obtain ⟨l1, a1, hl1, ha1, hp1, hp2⟩ := iteration_executed E ops sig s1
    refine ⟨?_, l ++ l1, added ++ a1, ?_, ?_, ?_, ?_⟩
    · rcases iteration_cursor E ops sig s1 with ⟨s2, hi, _, ht, _⟩ | ⟨_, ht, _⟩
      · rw [hi]
        rcases ht with ht | ht <;> simp only [Step.state, ht]
        · exact (hmove _ hq).1
        · exact (hmove _ hq).2
      · rw [ht]; exact hq
    · rw [hl1, hl, List.append_assoc]
    · rw [ha1, hadd, List.append_assoc]
    · intro t ht
      rcases List.mem_append.mp ht with ht | ht
      · exact hPl t ht
      · exact hpeek _ _ hq (hp1 t ht)
    · intro t ht
      rcases List.mem_append.mp ht with ht | ht
      · exact hPa t ht
      · exact hpeek _ _ hq (hp2 t ht)

/-- On the sender-grouped stream, once no transaction of sender `a` is left
none comes back: `Peek` yields other senders only and `Pop` and `Shift` keep
it so. -/
theorem bySender_without (a : Address) :
    (∀ (t : List Transaction) (x : Transaction), (∀ u ∈ t, u.sender ≠ a) →
      TransactionsBySender.Peek t = some x → x.sender ≠ a) ∧
    (∀ t : List Transaction, (∀ u ∈ t, u.sender ≠ a) →
      (∀ u ∈ TransactionsBySender.Pop t, u.sender ≠ a) ∧
      (∀ u ∈ TransactionsBySender.Shift t, u.sender ≠ a)) := by
  constructor
  · intro t x hq hp
    cases t with
    | nil => cases hp
    | cons y r =>
      simp only [TransactionsBySender, List.head?_cons, Option.some.injEq] at hp
      subst hp
      exact hq _ (List.mem_cons_self _ _)
  · intro t hq
    cases t with
    | nil => exact ⟨by simp [TransactionsBySender], by simp [TransactionsBySender]⟩
    | cons y r =>
      constructor
      · intro u hu
        simp only [TransactionsBySender] at hu
        exact hq u (List.mem_cons_of_mem _ (List.mem_filter.mp hu).1)
      · intro u hu
        exact hq u (List.mem_cons_of_mem _ hu)

/-- On the sender-grouped stream `Pop` leaves no transaction of the sender of
the head. -/
theorem bySender_pop (txn : Transaction) (rest : List Transaction) :
    ∀ u ∈ TransactionsBySender.Pop (txn :: rest), u.sender ≠ txn.sender := by
  intro u hu
  simp only [TransactionsBySender] at hu
  simpa using (List.mem_filter.mp hu).2

/-- An execution rejected with `err` whose handling calls `Pop`. -/
theorem iteration_rejected_pop (E : Engine W) (ops : TransactionsStream T) (sig : Signals)
    (s : LoopState W T) (txn : Transaction) (err : Err) (h : Attempts E ops sig s txn)
    (hr : (engineAnswer E s txn).result = .error err)
    (he : err = .ErrGasLimitReached ∨ err = .ErrNonceTooHigh) :
    iteration E ops sig s = .next ((rejected E (beforeCommit ops sig s) txn err).Pop ops) := by
  rw [iteration_of_attempts E ops sig s txn h,
    miningCommitTx_of_error E (beforeCommit ops sig s) txn err
      (by rw [engineAnswer_beforeCommit]; exact hr)]
  rcases he with he | he <;> subst he <;> rfl

/-- An execution rejected with `err` whose handling calls `Shift`. -/
theorem iteration_rejected_shift (E : Engine W) (ops : TransactionsStream T) (sig : Signals)
    (s : LoopState W T) (txn : Transaction) (err : Err) (h : Attempts E ops sig s txn)
    (hr : (engineAnswer E s txn).result = .error err)
    (he : err ≠ .ErrGasLimitReached ∧ err ≠ .ErrNonceTooHigh) :
    iteration E ops sig s = .next ((rejected E (beforeCommit ops sig s) txn err).Shift ops) := by
  rw [iteration_of_attempts E ops sig s txn h,
    miningCommitTx_of_error E (beforeCommit ops sig s) txn err
      (by rw [engineAnswer_beforeCommit]; exact hr)]
  cases err <;> first | rfl | exact absurd rfl he.1 | exact absurd rfl he.2

/-- C2, counterexample: on the fixed-order stream a transaction rejected as
nonce-too-high does not take the later transaction of the same sender with
it; that one is executed and enters the block. -/
theorem nonce_too_high_fixed_order_keeps_sender :
    (engineAnswer sampleEngine
        (initLoop (sampleBlock 100000) [sampleTx 1 6, sampleTx 2 5] 5 0) (sampleTx 1 6)).result
      = .error .ErrNonceTooHigh ∧
    (sampleTx 2 5).sender = (sampleTx 1 6).sender ∧
    (addTransactionsToMiningBlock sampleEngine TransactionsFixedOrder quiet 3 (sampleBlock 100000)
        [sampleTx 1 6, sampleTx 2 5] 5 0).state.current.Txs = [sampleTx 2 5] ∧
    executed (addTransactionsToMiningBlock sampleEngine TransactionsFixedOrder quiet 3
        (sampleBlock 100000) [sampleTx 1 6, sampleTx 2 5] 5 0).state.trace
      = [sampleTx 1 6, sampleTx 2 5] := by
  refine ⟨rfl, rfl, by decide, by decide⟩

/-- C2, amended: a transaction rejected as nonce-too-high is answered with
`Pop`, one rejected as nonce-too-low with `Shift`. On a stream whose `Pop`
drops the sender's remaining transactions (`Q` holds of a cursor that has none
of them left) no later transaction of that sender is executed or added to the
block; after nonce-too-low the cursor is the one `Shift` gives. -/
theorem nonce_too_high_pops_nonce_too_low_shifts (E : Engine W) (ops : TransactionsStream T)
    (sig : Signals) (s : LoopState W T) (txn : Transaction) (Q : T → Prop)
    (h : Attempts E ops sig s txn)
    (hpeek : ∀ t x, Q t → ops.Peek t = some x → x.sender ≠ txn.sender)
    (hmove : ∀ t, Q t → Q (ops.Pop t) ∧ Q (ops.Shift t))
    (hpop : Q (ops.Pop s.txs)) :
    ((engineAnswer E s txn).result = .error .ErrNonceTooHigh →
      iteration E ops sig s
        = .next ((rejected E (beforeCommit ops sig s) txn .ErrNonceTooHigh).Pop ops) ∧
      ∀ fuel, ∃ l added,
        executed (loop E ops sig (fuel + 1) s).state.trace = executed s.trace ++ txn :: l ∧
        (loop E ops sig (fuel + 1) s).state.current.Txs = s.current.Txs ++ added ∧
        (∀ t ∈ l, t.sender ≠ txn.sender) ∧ (∀ t ∈ added, t.sender ≠ txn.sender)) ∧
    ((engineAnswer E s txn).result = .error .ErrNonceTooLow →
      iteration E ops sig s
        = .next ((rejected E (beforeCommit ops sig s) txn .ErrNonceTooLow).Shift ops) ∧
      ((rejected E (beforeCommit ops sig s) txn .ErrNonceTooLow).Shift ops).txs
        = ops.Shift s.txs) := by
  constructor
  · intro hr
    have hi := iteration_rejected_pop E ops sig s txn _ h hr (Or.inr rfl)
    refine ⟨hi, fun fuel => ?_⟩
    obtain ⟨l, added, hl, hadd, hPl, hPa⟩ := loop_executes_only E ops sig
      (fun t => t.sender ≠ txn.sender) Q hpeek hmove fuel
      ((rejected E (beforeCommit ops sig s) txn .ErrNonceTooHigh).Pop ops).tickUp
      (by simpa only [LoopState.tickUp, LoopState.Pop, rejected, beforeCommit_txs] using hpop)
    refine ⟨l, added, ?_, ?_, hPl, hPa⟩
    · simp only [loop, hi]
      rw [hl]
      simp [LoopState.tickUp, LoopState.Pop, rejected, executed, List.filterMap_append,
        List.filterMap_cons]
      exact beforeCommit_executed ops sig s
    · simp only [loop, hi]
      rw [hadd]
      simp only [LoopState.tickUp, LoopState.Pop, rejected, beforeCommit_current]
  · intro hr
    refine ⟨iteration_rejected_shift E ops sig s txn _ h hr ⟨by simp, by simp⟩, ?_⟩
    simp only [LoopState.Shift, rejected, beforeCommit_txs]

theorem nonce_too_high_pops_nonce_too_low_shifts_witness :
    (addTransactionsToMiningBlock sampleEngine TransactionsBySender quiet 4 (sampleBlock 100000)
        [sampleTx 1 6, sampleTx 2 5, otherTx 3 5] 5 0).state.current.Txs = [otherTx 3 5] ∧
    iteration sampleEngine TransactionsBySender quiet
        (initLoop (sampleBlock 100000) [sampleTx 1 6, sampleTx 2 5, otherTx 3 5] 5 0)
      = .next ((rejected sampleEngine (beforeCommit TransactionsBySender quiet
          (initLoop (sampleBlock 100000) [sampleTx 1 6, sampleTx 2 5, otherTx 3 5] 5 0))
          (sampleTx 1 6) .ErrNonceTooHigh).Pop TransactionsBySender) :=
  ⟨by decide,
    ((nonce_too_high_pops_nonce_too_low_shifts sampleEngine TransactionsBySender quiet
      (initLoop (sampleBlock 100000) [sampleTx 1 6, sampleTx 2 5, otherTx 3 5] 5 0)
      (sampleTx 1 6) (fun t => ∀ u ∈ t, u.sender ≠ (sampleTx 1 6).sender) (by decide)
      (bySender_without (sampleTx 1 6).sender).1 (bySender_without (sampleTx 1 6).sender).2
      (bySender_pop (sampleTx 1 6) [sampleTx 2 5, otherTx 3 5])).1 rfl).1⟩

/-- C10, counterexample: on the sender-grouped stream a transaction rejected
because the block gas limit would be exceeded takes the later transaction of
its sender with it: the cursor after the attempt is the one `Pop` gives, not
the one `Shift` gives, and the later transaction is never executed. -/
theorem gas_limit_reached_drops_sender :
    (engineAnswer sampleEngine
        (initLoop (sampleBlock 50000) [sampleTx 40000 0, sampleTx 1 0] 0 0)
        (sampleTx 40000 0)).result = .error .ErrGasLimitReached ∧
    (iteration sampleEngine TransactionsBySender quiet
        (initLoop (sampleBlock 50000) [sampleTx 40000 0, sampleTx 1 0] 0 0)).state.txs = [] ∧
    TransactionsBySender.Shift [sampleTx 40000 0, sampleTx 1 0] = [sampleTx 1 0] ∧
    executed (addTransactionsToMiningBlock sampleEngine TransactionsBySender quiet 3
        (sampleBlock 50000) [sampleTx 40000 0, sampleTx 1 0] 0 0).state.trace
      = [sampleTx 40000 0] ∧
    (addTransactionsToMiningBlock sampleEngine TransactionsBySender quiet 3 (sampleBlock 50000)
        [sampleTx 40000 0, sampleTx 1 0] 0 0).state.current.Txs = [] := by
  refine ⟨rfl, by decide, by decide, by decide, by decide⟩

/-- After an execution rejected for the gas limit or as nonce-too-high the
loop calls `Pop`; on a stream whose `Pop` leaves none of the sender's
transactions (`Q` holds of such a cursor) the loop executes and commits no
later transaction of that sender. -/
theorem rejected_pop_drops_sender (E : Engine W) (ops : TransactionsStream T) (sig : Signals)
    (s : LoopState W T) (txn : Transaction) (err : Err) (Q : T → Prop)
    (h : Attempts E ops sig s txn) (hr : (engineAnswer E s txn).result = .error err)
    (he : err = .ErrGasLimitReached ∨ err = .ErrNonceTooHigh)
    (hpeek : ∀ t x, Q t → ops.Peek t = some x → x.sender ≠ txn.sender)
    (hmove : ∀ t, Q t → Q (ops.Pop t) ∧ Q (ops.Shift t))
    (hpop : Q (ops.Pop s.txs)) :
    ∀ fuel, ∃ l added,
      executed (loop E ops sig (fuel + 1) s).state.trace = executed s.trace ++ txn :: l ∧
      (loop E ops sig (fuel + 1) s).state.current.Txs = s.current.Txs ++ added ∧
      (∀ t ∈ l, t.sender ≠ txn.sender) ∧ (∀ t ∈ added, t.sender ≠ txn.sender) := by
  have hi := iteration_rejected_pop E ops sig s txn _ h hr he
  intro fuel
  obtain ⟨l, added, hl, hadd, hPl, hPa⟩ := loop_executes_only E ops sig
    (fun t => t.sender ≠ txn.sender) Q hpeek hmove fuel
    ((rejected E (beforeCommit ops sig s) txn err).Pop ops).tickUp
    (by simpa only [LoopState.tickUp, LoopState.Pop, rejected, beforeCommit_txs] using hpop)
  refine ⟨l, added, ?_, ?_, hPl, hPa⟩
  · simp only [loop, hi]
    rw [hl]
    simp [LoopState.tickUp, LoopState.Pop, rejected, executed, List.filterMap_append,
      List.filterMap_cons]
    exact beforeCommit_executed ops sig s
  · simp only [loop, hi]
    rw [hadd]
    simp only [LoopState.tickUp, LoopState.Pop, rejected, beforeCommit_current]

/-- C10, amended: when the execution fails because the block gas limit would
be exceeded, the state is reverted to the snapshot, the gas pool is back at
its value before the attempt, nothing is added to the transactions and
receipts of the block, the header is the one before the attempt with the
`GasUsed` the engine left behind the pointer it was given (so the block is
unchanged when the engine left that value alone), and the stream is advanced
with `Pop`, the operation also used for nonce-too-high. On every stream whose
`Pop` leaves none of the sender's transactions, and so on the sender-grouped
stream, no later transaction of that sender is executed or added to the block
in this call. On a stream whose `Pop` and `Shift` agree, and so on the
fixed-order stream, the cursor is the one `Shift` gives and the transaction
that followed is the next one `Peek` yields. -/
theorem gas_limit_reached_pops (E : Engine W) (ops : TransactionsStream T) (sig : Signals)
    (s : LoopState W T) (txn : Transaction) (h : Attempts E ops sig s txn)
    (hr : (engineAnswer E s txn).result = .error .ErrGasLimitReached) :
    (∃ s1, iteration E ops sig s = .next s1 ∧
      s1.txs = ops.Pop s.txs ∧
      cursorMoves s1.trace = cursorMoves s.trace + 1 ∧
      s1.trace.getLast? = some .pop ∧
      s1.gasPool = s.gasPool ∧
      s1.ibs = E.RevertToSnapshot (engineAnswer E s txn).ibs
        (E.Snapshot (E.Prepare s.ibs txn s.tcount)) ∧
      s1.current.Txs = s.current.Txs ∧ s1.current.Receipts = s.current.Receipts ∧
      s1.current.Header
        = { s.current.Header with GasUsed := (engineAnswer E s txn).gasUsed } ∧
      ((engineAnswer E s txn).gasUsed = s.current.Header.GasUsed → s1.current = s.current) ∧
      (ops.Pop s.txs = ops.Shift s.txs → s1.txs = ops.Shift s.txs)) ∧
    (∀ Q : T → Prop,
      (∀ t x, Q t → ops.Peek t = some x → x.sender ≠ txn.sender) →
      (∀ t, Q t → Q (ops.Pop t) ∧ Q (ops.Shift t)) →
      Q (ops.Pop s.txs) →
      ∀ fuel, ∃ l added,
        executed (loop E ops sig (fuel + 1) s).state.trace = executed s.trace ++ txn :: l ∧
        (loop E ops sig (fuel + 1) s).state.current.Txs = s.current.Txs ++ added ∧
        (∀ t ∈ l, t.sender ≠ txn.sender) ∧ (∀ t ∈ added, t.sender ≠ txn.sender)) ∧
    (∀ sb : LoopState W (List Transaction), Attempts E TransactionsBySender sig sb txn →
      (engineAnswer E sb txn).result = .error .ErrGasLimitReached →
      (∀ u ∈ (iteration E TransactionsBySender sig sb).state.txs, u.sender ≠ txn.sender) ∧
      ∀ fuel, ∃ l added,
        executed (loop E TransactionsBySender sig (fuel + 1) sb).state.trace
          = executed sb.trace ++ txn :: l ∧
        (loop E TransactionsBySender sig (fuel + 1) sb).state.current.Txs
          = sb.current.Txs ++ added ∧
        (∀ t ∈ l, t.sender ≠ txn.sender) ∧ (∀ t ∈ added, t.sender ≠ txn.sender)) ∧
    (∀ sf : LoopState W (List Transaction), Attempts E TransactionsFixedOrder sig sf txn →
      (engineAnswer E sf txn).result = .error .ErrGasLimitReached →
      (iteration E TransactionsFixedOrder sig sf).state.txs = TransactionsFixedOrder.Shift sf.txs ∧
      ∀ u rest, sf.txs = txn :: u :: rest →
        TransactionsFixedOrder.Peek (iteration E TransactionsFixedOrder sig sf).state.txs
          = some u) := by
  refine ⟨?_, fun Q hpeek hmove hpop =>
    rejected_pop_drops_sender E ops sig s txn _ Q h hr (Or.inl rfl) hpeek hmove hpop, ?_, ?_⟩
  · have hi := iteration_rejected_pop E ops sig s txn _ h hr (Or.inl rfl)
    have hb := beforeCommit_counts ops sig s
    simp only [cursorMoves] at hb
    refine ⟨_, hi, ?_, ?_, ?_, ?_, ?_, ?_, ?_, ?_, ?_, ?_⟩
    · simp only [LoopState.Pop, rejected, beforeCommit_txs]
    · simp [LoopState.Pop, rejected, cursorMoves, List.countP_append, List.countP_cons,
        isCursorMove, hb.1]
    · simp [LoopState.Pop, rejected]
    · simp only [LoopState.Pop, rejected, beforeCommit_gasPool]
    · simp only [LoopState.Pop, rejected, engineAnswer_beforeCommit, beforeCommit_ibs,
        beforeCommit_tcount]
    · simp only [LoopState.Pop, rejected, beforeCommit_current]
    · simp only [LoopState.Pop, rejected, beforeCommit_current]
    · simp only [LoopState.Pop, rejected, engineAnswer_beforeCommit, beforeCommit_current]
    · intro hg
      simp only [LoopState.Pop, rejected, engineAnswer_beforeCommit, beforeCommit_current, hg]
    · intro hps
      simp only [LoopState.Pop, rejected, beforeCommit_txs, hps]
  · intro sb hb hrb
    have hhead : sb.txs.head? = some txn := hb.2.2.2.1
    have hpop : ∀ u ∈ TransactionsBySender.Pop sb.txs, u.sender ≠ txn.sender := by
      cases ht : sb.txs with
      | nil => rw [ht] at hhead; cases hhead
      | cons y r =>
        rw [ht] at hhead
        simp only [List.head?_cons, Option.some.injEq] at hhead
        subst hhead
        exact bySender_pop y r
    refine ⟨?_, rejected_pop_drops_sender E TransactionsBySender sig sb txn _
      (fun t => ∀ u ∈ t, u.sender ≠ txn.sender) hb hrb (Or.inl rfl)
      (bySender_without txn.sender).1 (bySender_without txn.sender).2 hpop⟩
    rw [iteration_rejected_pop E TransactionsBySender sig sb txn _ hb hrb (Or.inl rfl)]
    simpa only [Step.state, LoopState.Pop, rejected, beforeCommit_txs] using hpop
  · intro sf hf hrf
    have hi := iteration_rejected_pop E TransactionsFixedOrder sig sf txn _ hf hrf (Or.inl rfl)
    have ht : (iteration E TransactionsFixedOrder sig sf).state.txs
        = TransactionsFixedOrder.Shift sf.txs := by
      rw [hi]
      simp only [Step.state, LoopState.Pop, rejected, beforeCommit_txs]
      rfl
    refine ⟨ht, fun u rest hl => ?_⟩
    rw [ht, hl]
    rfl

theorem gas_limit_reached_pops_witness :
    Attempts sampleEngine TransactionsFixedOrder quiet
      (initLoop (sampleBlock 50000) [sampleTx 40000 0, sampleTx 1 0] 0 0) (sampleTx 40000 0) ∧
    ∃ s1, iteration sampleEngine TransactionsFixedOrder quiet
        (initLoop (sampleBlock 50000) [sampleTx 40000 0, sampleTx 1 0] 0 0) = .next s1 ∧
      s1.txs = TransactionsFixedOrder.Pop [sampleTx 40000 0, sampleTx 1 0] ∧
      cursorMoves s1.trace
        = cursorMoves (initLoop (sampleBlock 50000) [sampleTx 40000 0, sampleTx 1 0] 0 0
            : LoopState Nat (List Transaction)).trace + 1 ∧
      s1.trace.getLast? = some .pop ∧
      s1.gasPool = 50000 ∧ s1.ibs = 0 ∧ s1.current.Txs = [] ∧ s1.current.Receipts = [] ∧
      s1.current = sampleBlock 50000 ∧ TransactionsFixedOrder.Peek s1.txs = some (sampleTx 1 0) := by
  obtain ⟨s1, h1, h2, h3, h4, h5, h6, h7, h8, _, h10, _⟩ :=
    (gas_limit_reached_pops sampleEngine TransactionsFixedOrder quiet
      (initLoop (sampleBlock 50000) [sampleTx 40000 0, sampleTx 1 0] 0 0) (sampleTx 40000 0)
      (by decide) rfl).1
  exact ⟨by decide, s1, h1, h2, h3, h4, h5, h6, h7, h8, h10 rfl, by rw [h2]; rfl⟩

end facts

section stageFacts

variable {W P S F : Type}

/-- The polling loop logs calls of `YieldBest` and nothing else. -/
theorem pollLoop_trace (cfg : MiningExecCfg W P S F) (header : Header)
    (amount executionAt : Nat) :
    ∀ (fuel : Nat) (st : PollState P),
      ∃ l, (pollLoop cfg header amount executionAt fuel st).state.trace = st.trace ++ l ∧
        fetches l = 0 ∧ applications l = 0 ∧ finalizations l = 0 := by
  intro fuel
  induction fuel with
  | zero => intro st; exact ⟨[], by simp [pollLoop, Outcome.state], rfl, rfl, rfl⟩
  | succ n ih =>
    intro st
    unfold pollLoop
    split
    · rcases hy : cfg.YieldBest st.pool amount st.txSlots executionAt
          (subU64 header.GasLimit header.GasUsed) with ⟨pool1, slots1, r⟩
      simp only [hy]
      cases r with
      | error err =>
        exact ⟨[.yieldBest amount (subU64 header.GasLimit header.GasUsed)], rfl, rfl, rfl, rfl⟩
      | ok onTime =>
        obtain ⟨l, hl, h1, h2, h3⟩ := ih
          { pool := pool1, txSlots := slots1, onTime := onTime, counter := st.counter + 1
            trace := st.trace ++ [.yieldBest amount (subU64 header.GasLimit header.GasUsed)] }
        refine ⟨.yieldBest amount (subU64 header.GasLimit header.GasUsed) :: l, ?_, ?_, ?_, ?_⟩
        · simp only [hl, List.append_assoc, List.singleton_append]
        · simpa [fetches, List.countP_cons, isFetch] using h1
        · simpa [applications, List.countP_cons, isApplication] using h2
        · simpa [finalizations, List.countP_cons, isFinalize] using h3
    · exact ⟨[], by simp [Outcome.state], rfl, rfl, rfl⟩

/-- What a call of `getNextTransactions` logs is what its polling loop
logs. -/
theorem getNextTransactions_trace (cfg : MiningExecCfg W P S F) (header : Header)
    (amount executionAt : Nat) (pool : P) :
    (getNextTransactions cfg header amount executionAt pool).2.2
      = (pollLoop cfg header amount executionAt 1001 (pollStart pool)).state.trace := by
  unfold getNextTransactions
  cases pollLoop cfg header amount executionAt 1001 (pollStart pool) with
  | failed err st => rfl
  | running st => rfl
  | returned r st =>
    simp only [Outcome.state]
    split
    · rfl
    · rename_i txs1 _
      rcases cfg.filterBadTransactions st.pool txs1 (executionAt + 1) header.BaseFee with
        ⟨pool1, r1⟩
      cases r1 <;> rfl

/-- A stream `getNextTransactions` returns was built by
`types.NewTransactionsFixedOrder`. -/
theorem getNextTransactions_batch (cfg : MiningExecCfg W P S F) (header : Header)
    (amount executionAt : Nat) (pool : P) :
    ∀ batch, (getNextTransactions cfg header amount executionAt pool).1 = .ok batch →
      ∃ txs, batch = cfg.NewTransactionsFixedOrder txs := by
  unfold getNextTransactions
  cases pollLoop cfg header amount executionAt 1001 (pollStart pool) with
  | failed err st => exact fun b hb => by cases hb
  | running st => exact fun b hb => by cases hb
  | returned r st =>
    simp only
    split
    · exact fun b hb => by cases hb
    · rename_i txs1 _
      rcases cfg.filterBadTransactions st.pool txs1 (executionAt + 1) header.BaseFee with
        ⟨pool1, r1⟩
      cases r1 with
      | error err => exact fun b hb => by cases hb
      | ok txs2 => exact fun b hb => ⟨txs2, by cases hb; rfl⟩

/-- A call of `getNextTransactions` is logged as one fetch; a stream it
returns was built by `types.NewTransactionsFixedOrder`. -/
theorem getNextTransactions_events (cfg : MiningExecCfg W P S F) (header : Header)
    (amount executionAt : Nat) (pool : P) :
    fetches (getNextTransactions cfg header amount executionAt pool).2.2 = 1 ∧
    applications (getNextTransactions cfg header amount executionAt pool).2.2 = 0 ∧
    finalizations (getNextTransactions cfg header amount executionAt pool).2.2 = 0 ∧
    ∀ batch, (getNextTransactions cfg header amount executionAt pool).1 = .ok batch →
      ∃ txs, batch = cfg.NewTransactionsFixedOrder txs := by
  obtain ⟨l, hl, h1, h2, h3⟩ := pollLoop_trace cfg header amount executionAt 1001
    (pollStart pool)
  have hl1 : (pollLoop cfg header amount executionAt 1001 (pollStart pool)).state.trace
      = [StageEvent.getNextTransactions] ++ l := hl
  have hf : fetches ([StageEvent.getNextTransactions] ++ l) = 1 := by
    simp only [fetches, List.countP_append] at h1 ⊢
    rw [h1]; rfl
  have ha : applications ([StageEvent.getNextTransactions] ++ l) = 0 := by
    simp only [applications, List.countP_append] at h2 ⊢
    rw [h2]; rfl
  have hz : finalizations ([StageEvent.getNextTransactions] ++ l) = 0 := by
    simp only [finalizations, List.countP_append] at h3 ⊢
    rw [h3]; rfl
  rw [getNextTransactions_trace, hl1]
  exact ⟨hf, ha, hz, getNextTransactions_batch cfg header amount executionAt pool⟩

theorem after_counts {T : Type} (w : World W P S) (s : LoopState W T) :
    fetches (w.after s).trace = fetches w.trace ∧
    applications (w.after s).trace = applications w.trace + 1 ∧
    finalizations (w.after s).trace = finalizations w.trace := by
  simp [World.after, fetches, applications, finalizations, List.countP_append, isFetch,
    isApplication, isFinalize]

/-- The fetch/apply cycle, counted: started with `budget` rounds left and the
kill switch at `killSwitch`, it makes `f` fetches and `a` applications with
`a <= f <= a + 1` and `f <= budget`; when it returns, either the last fetch
was not followed by an application (the batch was empty) or the kill switch
has reached 1000; it never finalizes; and it does not run out of rounds. -/
theorem fetchApplyCycle_counts (cfg : MiningExecCfg W P S F) (sig : Signals)
    (fuel executionAt : Nat) :
    ∀ (budget killSwitch : Nat) (cumLogs : List Log) (w : World W P S),
      ∃ f a,
        fetches (fetchApplyCycle cfg sig fuel executionAt budget killSwitch cumLogs w).state.trace
          = fetches w.trace + f ∧
        applications
            (fetchApplyCycle cfg sig fuel executionAt budget killSwitch cumLogs w).state.trace
          = applications w.trace + a ∧
        finalizations
            (fetchApplyCycle cfg sig fuel executionAt budget killSwitch cumLogs w).state.trace
          = finalizations w.trace ∧
        a ≤ f ∧ f ≤ a + 1 ∧ f ≤ budget ∧
        ((∃ logs w1, fetchApplyCycle cfg sig fuel executionAt budget killSwitch cumLogs w
            = .returned logs w1) → f = a + 1 ∨ (f = a ∧ 1000 ≤ killSwitch + a)) ∧
        (0 < budget → 1000 ≤ killSwitch + budget → ApplierReturns cfg sig fuel →
          (fetchApplyCycle cfg sig fuel executionAt budget killSwitch cumLogs w).finished
            = true) := by
  intro budget
  induction budget with
  | zero =>
    intro ks cum w
    refine ⟨0, 0, rfl, rfl, rfl, le_refl _, by omega, le_refl _, ?_, ?_⟩
    · rintro ⟨logs, w1, h⟩
      simp [fetchApplyCycle] at h
    · intro h; omega
  | succ n ih =>
    intro ks cum w
    obtain ⟨hf, ha, hz, hnew⟩ := getNextTransactions_events cfg w.current.Header 50 executionAt
      w.pool
    rcases hg : getNextTransactions cfg w.current.Header 50 executionAt w.pool with
      ⟨r, pool1, evs⟩
    rw [hg] at hf ha hz hnew
    simp only at hf ha hz hnew
    have hw1 : ∀ w1 : World W P S, w1.trace = w.trace ++ evs →
        fetches w1.trace = fetches w.trace + 1 ∧ applications w1.trace = applications w.trace ∧
        finalizations w1.trace = finalizations w.trace := by
      intro w1 h1
      rw [h1]
      simp only [fetches, applications, finalizations, List.countP_append] at hf ha hz ⊢
      omega
    cases r with
    | error err =>
      have hc : fetchApplyCycle cfg sig fuel executionAt (n + 1) ks cum w
          = .failed err { w with pool := pool1, trace := w.trace ++ evs } := by
        simp only [fetchApplyCycle, hg]
      rw [hc]
      obtain ⟨e1, e2, e3⟩ := hw1 { w with pool := pool1, trace := w.trace ++ evs } rfl
      refine ⟨1, 0, e1, e2, e3, by omega, by omega, by omega, ?_, fun _ _ _ => rfl⟩
      rintro ⟨logs, w1, h⟩
      cases h
    | ok batch =>
      by_cases hE : cfg.fixedOps.Empty batch = true
      · have hc : fetchApplyCycle cfg sig fuel executionAt (n + 1) ks cum w
            = .returned cum { w with pool := pool1, trace := w.trace ++ evs } := by
          simp only [fetchApplyCycle, hg, hE, Bool.not_true, Bool.false_eq_true, if_false]
        rw [hc]
        obtain ⟨e1, e2, e3⟩ := hw1 { w with pool := pool1, trace := w.trace ++ evs } rfl
        exact ⟨1, 0, e1, e2, e3, by omega, by omega, by omega, fun _ => Or.inl rfl,
          fun _ _ _ => rfl⟩
      · have hE1 : (!cfg.fixedOps.Empty batch) = true := by simpa using hE
        obtain ⟨e1, e2, e3⟩ := hw1 { w with pool := pool1, trace := w.trace ++ evs } rfl
        cases hin : addTransactionsToMiningBlock cfg.engine cfg.fixedOps sig fuel w.current batch
            w.ibs w.tick with
        | failed err s =>
          have hc : fetchApplyCycle cfg sig fuel executionAt (n + 1) ks cum w
              = .failed err (World.after { w with pool := pool1, trace := w.trace ++ evs } s) := by
            simp only [fetchApplyCycle, hg, hE1, if_true, hin]
          rw [hc]
          obtain ⟨a1, a2, a3⟩ := after_counts { w with pool := pool1, trace := w.trace ++ evs } s
          refine ⟨1, 1, by simp only [Outcome.state]; omega, by simp only [Outcome.state]; omega,
            by simp only [Outcome.state]; omega, by omega, by omega, by omega, ?_,
            fun _ _ _ => rfl⟩
          rintro ⟨logs, w1, h⟩
          cases h
        | running s =>
          have hc : fetchApplyCycle cfg sig fuel executionAt (n + 1) ks cum w
              = .running (World.after { w with pool := pool1, trace := w.trace ++ evs } s) := by
            simp only [fetchApplyCycle, hg, hE1, if_true, hin]
          rw [hc]
          obtain ⟨a1, a2, a3⟩ := after_counts { w with pool := pool1, trace := w.trace ++ evs } s
          refine ⟨1, 1, by simp only [Outcome.state]; omega, by simp only [Outcome.state]; omega,
            by simp only [Outcome.state]; omega, by omega, by omega, by omega, ?_, ?_⟩
          · rintro ⟨logs, w1, h⟩
            cases h
          · intro _ _ hret
            obtain ⟨txs, hb⟩ := hnew batch rfl
            have := hret txs w.current w.ibs w.tick
            rw [← hb, hin] at this
            cases this
        | returned logs s =>
          obtain ⟨a1, a2, a3⟩ := after_counts { w with pool := pool1, trace := w.trace ++ evs } s
          by_cases hk : ks + 1 ≥ 1000
          · have hc : fetchApplyCycle cfg sig fuel executionAt (n + 1) ks cum w
                = .returned (cum ++ logs)
                  (World.after { w with pool := pool1, trace := w.trace ++ evs } s) := by
              simp only [fetchApplyCycle, hg, hE1, if_true, hin, hk]
            rw [hc]
            exact ⟨1, 1, by simp only [Outcome.state]; omega, by simp only [Outcome.state]; omega,
              by simp only [Outcome.state]; omega, by omega, by omega, by omega,
              fun _ => Or.inr ⟨rfl, by omega⟩, fun _ _ _ => rfl⟩
          · have hc : fetchApplyCycle cfg sig fuel executionAt (n + 1) ks cum w
                = fetchApplyCycle cfg sig fuel executionAt n (ks + 1) (cum ++ logs)
                  (World.after { w with pool := pool1, trace := w.trace ++ evs } s) := by
              simp only [fetchApplyCycle, hg, hE1, if_true, hin, hk, if_false]
            rw [hc]
            obtain ⟨f, a, i1, i2, i3, i4, i5, i6, i7, i8⟩ := ih (ks + 1) (cum ++ logs)
              (World.after { w with pool := pool1, trace := w.trace ++ evs } s)
            refine ⟨f + 1, a + 1, by omega, by omega, by omega, by omega, by omega, by omega,
              ?_, ?_⟩
            · intro hret
              rcases i7 hret with h | ⟨h, h'⟩
              · left; omega
              · right; exact ⟨by omega, by omega⟩
            · intro _ hb hret
              exact i8 (by omega) (by omega) hret

/-- Every way one round of the fetch/apply cycle can go. -/
theorem fetchApplyCycle_cases (cfg : MiningExecCfg W P S F) (sig : Signals)
    (fuel executionAt n ks : Nat) (cum : List Log) (w : World W P S) :
    (∃ err, (getNextTransactions cfg w.current.Header 50 executionAt w.pool).1 = .error err ∧
      fetchApplyCycle cfg sig fuel executionAt (n + 1) ks cum w
        = .failed err (w.fetched cfg executionAt)) ∨
    (∃ batch, (getNextTransactions cfg w.current.Header 50 executionAt w.pool).1 = .ok batch ∧
      cfg.fixedOps.Empty batch = true ∧
      fetchApplyCycle cfg sig fuel executionAt (n + 1) ks cum w
        = .returned cum (w.fetched cfg executionAt)) ∨
    (∃ batch, (getNextTransactions cfg w.current.Header 50 executionAt w.pool).1 = .ok batch ∧
      cfg.fixedOps.Empty batch = false ∧
      ((∃ err s, addTransactionsToMiningBlock cfg.engine cfg.fixedOps sig fuel w.current batch
            w.ibs w.tick = .failed err s ∧
          fetchApplyCycle cfg sig fuel executionAt (n + 1) ks cum w
            = .failed err ((w.fetched cfg executionAt).after s)) ∨
        (∃ s, addTransactionsToMiningBlock cfg.engine cfg.fixedOps sig fuel w.current batch
            w.ibs w.tick = .running s ∧
          fetchApplyCycle cfg sig fuel executionAt (n + 1) ks cum w
            = .running ((w.fetched cfg executionAt).after s)) ∨
        (∃ logs s, addTransactionsToMiningBlock cfg.engine cfg.fixedOps sig fuel w.current batch
            w.ibs w.tick = .returned logs s ∧ 1000 ≤ ks + 1 ∧
          fetchApplyCycle cfg sig fuel executionAt (n + 1) ks cum w
            = .returned (cum ++ logs) ((w.fetched cfg executionAt).after s)) ∨
        (∃ logs s, addTransactionsToMiningBlock cfg.engine cfg.fixedOps sig fuel w.current batch
            w.ibs w.tick = .returned logs s ∧ ks + 1 < 1000 ∧
          fetchApplyCycle cfg sig fuel executionAt (n + 1) ks cum w
            = fetchApplyCycle cfg sig fuel executionAt n (ks + 1) (cum ++ logs)
              ((w.fetched cfg executionAt).after s)))) := by
  rcases hg : getNextTransactions cfg w.current.Header 50 executionAt w.pool with
    ⟨r, pool1, evs⟩
  have hw : w.fetched cfg executionAt = { w with pool := pool1, trace := w.trace ++ evs } := by
    simp only [World.fetched, hg]
  rw [hw]
  cases r with
  | error err =>
    left
    exact ⟨err, rfl, by simp only [fetchApplyCycle, hg]⟩
  | ok batch =>
    right
    by_cases hE : cfg.fixedOps.Empty batch = true
    · left
      exact ⟨batch, rfl, hE, by
        simp only [fetchApplyCycle, hg, hE, Bool.not_true, Bool.false_eq_true, if_false]⟩
    · right
      have hE0 : cfg.fixedOps.Empty batch = false := by simpa using hE
      have hE1 : (!cfg.fixedOps.Empty batch) = true := by simpa using hE
      refine ⟨batch, rfl, hE0, ?_⟩
      cases hin : addTransactionsToMiningBlock cfg.engine cfg.fixedOps sig fuel w.current batch
          w.ibs w.tick with
      | failed err s =>
        left
        exact ⟨err, s, rfl, by simp only [fetchApplyCycle, hg, hE1, if_true, hin]⟩
      | running s =>
        right; left
        exact ⟨s, rfl, by simp only [fetchApplyCycle, hg, hE1, if_true, hin]⟩
      | returned logs s =>
        right; right
        by_cases hk : ks + 1 ≥ 1000
        · left
          exact ⟨logs, s, rfl, hk, by simp only [fetchApplyCycle, hg, hE1, if_true, hin, hk]⟩
        · right
          exact ⟨logs, s, rfl, by omega, by
            simp only [fetchApplyCycle, hg, hE1, if_true, hin, hk, if_false]⟩

/-- A property of the block that every call of `addTransactionsToMiningBlock`
keeps is kept by the fetch/apply cycle. -/
theorem fetchApplyCycle_current (cfg : MiningExecCfg W P S F) (sig : Signals)
    (fuel executionAt : Nat) (I : MiningBlock → Prop)
    (hI : ∀ (current : MiningBlock) (batch : F) (ibs : W) (tick : Nat), I current →
      I (addTransactionsToMiningBlock cfg.engine cfg.fixedOps sig fuel current batch ibs
        tick).state.current) :
    ∀ (budget ks : Nat) (cum : List Log) (w : World W P S), I w.current →
      I (fetchApplyCycle cfg sig fuel executionAt budget ks cum w).state.current := by
  intro budget
  induction budget with
  | zero => intro ks cum w h; exact h
  | succ n ih =>
    intro ks cum w h
    rcases fetchApplyCycle_cases cfg sig fuel executionAt n ks cum w with
      ⟨err, _, hc⟩ | ⟨batch, _, _, hc⟩ |
      ⟨batch, _, _, ⟨err, s, hin, hc⟩ | ⟨s, hin, hc⟩ | ⟨logs, s, hin, _, hc⟩ |
        ⟨logs, s, hin, _, hc⟩⟩
    · rw [hc]; exact h
    · rw [hc]; exact h
    · rw [hc]
      have := hI w.current batch w.ibs w.tick h
      rw [hin] at this
      exact this
    · rw [hc]
      have := hI w.current batch w.ibs w.tick h
      rw [hin] at this
      exact this
    · rw [hc]
      have := hI w.current batch w.ibs w.tick h
      rw [hin] at this
      exact this
    · rw [hc]
      have := hI w.current batch w.ibs w.tick h
      rw [hin] at this
      exact ih _ _ _ this

/-- An error of the fetch/apply cycle is the error of a fetch or the error of
an application. -/
theorem fetchApplyCycle_failed (cfg : MiningExecCfg W P S F) (sig : Signals)
    (fuel executionAt : Nat) :
    ∀ (budget ks : Nat) (cum : List Log) (w : World W P S) (err : Err) (w1 : World W P S),
      fetchApplyCycle cfg sig fuel executionAt budget ks cum w = .failed err w1 →
      (∃ header pool, (getNextTransactions cfg header 50 executionAt pool).1 = .error err) ∨
      (∃ current batch ibs tick s, addTransactionsToMiningBlock cfg.engine cfg.fixedOps sig fuel
        current batch ibs tick = .failed err s) := by
  intro budget
  induction budget with
  | zero => intro ks cum w err w1 h; simp [fetchApplyCycle] at h
  | succ n ih =>
    intro ks cum w err w1 h
    rcases fetchApplyCycle_cases cfg sig fuel executionAt n ks cum w with
      ⟨err1, hg, hc⟩ | ⟨batch, _, _, hc⟩ |
      ⟨batch, _, _, ⟨err1, s, hin, hc⟩ | ⟨s, hin, hc⟩ | ⟨logs, s, hin, _, hc⟩ |
        ⟨logs, s, hin, _, hc⟩⟩
    · rw [hc] at h; cases h
      exact Or.inl ⟨_, _, hg⟩
    · rw [hc] at h; cases h
    · rw [hc] at h; cases h
      exact Or.inr ⟨_, _, _, _, _, hin⟩
    · rw [hc] at h; cases h
    · rw [hc] at h; cases h
    · rw [hc] at h
      exact ih _ _ _ _ _ h

/-- An error of the loop is the stop error, and the stop signal was raised. -/
theorem loop_failed {T : Type} (E : Engine W) (ops : TransactionsStream T) (sig : Signals) :
    ∀ (fuel : Nat) (s s1 : LoopState W T) (err : Err),
      loop E ops sig fuel s = .failed err s1 → err = .ErrStopped ∧ ∃ t, sig.quit t = true := by
  intro fuel
  induction fuel with
  | zero => intro s s1 err h; simp [loop] at h
  | succ n ih =>
    intro s s1 err h
    unfold loop at h
    cases hi : iteration E ops sig s with
    | next s2 => rw [hi] at h; exact ih _ _ _ h
    | done s2 => rw [hi] at h; cases h
    | fail e s2 =>
      rw [hi] at h
      cases h
      obtain ⟨hq, he, _⟩ := iteration_fail E ops sig s s2 _ hi
      exact ⟨he, _, hq⟩

/-- Whatever a call of `addTransactionsToMiningBlock` does, the block it
leaves holds the transactions and receipts it found, followed by equally many
new ones of each. -/
theorem addTransactions_extends {T : Type} (E : Engine W) (ops : TransactionsStream T)
    (sig : Signals) (fuel : Nat) (c0 current : MiningBlock) (txs : T) (ibs : W) (tick : Nat)
    (h : ∃ l r, current.Txs = c0.Txs ++ l ∧ current.Receipts = c0.Receipts ++ r ∧
      l.length = r.length) :
    ∃ l r, (addTransactionsToMiningBlock E ops sig fuel current txs ibs tick).state.current.Txs
        = c0.Txs ++ l ∧
      (addTransactionsToMiningBlock E ops sig fuel current txs ibs tick).state.current.Receipts
        = c0.Receipts ++ r ∧ l.length = r.length := by
  refine loop_induction E ops sig
    (fun s => ∃ l r, s.current.Txs = c0.Txs ++ l ∧ s.current.Receipts = c0.Receipts ++ r ∧
      l.length = r.length) (fun s hs => ?_) (fun s hs => hs) fuel (initLoop current txs ibs tick) h
  obtain ⟨l, r, h1, h2, h3⟩ := hs
  rcases iteration_block E ops sig s with ⟨txn, receipt, _, _, g1, g2⟩ | ⟨_, g1, g2⟩
  · exact ⟨l ++ [txn], r ++ [receipt], by rw [g1, h1, List.append_assoc],
      by rw [g2, h2, List.append_assoc], by simp [h3]⟩
  · exact ⟨l, r, by rw [g1, h1], by rw [g2, h2], h3⟩

/-- How `SpawnMiningExecStage` is put together. -/
theorem SpawnMiningExecStage_eq (cfg : MiningExecCfg W P S F) (sig : Signals) (fuel : Nat)
    (w : World W P S) :
    SpawnMiningExecStage cfg sig fuel w =
      match cfg.ExecutionAt with
      | .error err => .failed err (w.upgraded cfg)
      | .ok executionAt =>
        match applyTransactions cfg sig fuel executionAt (w.upgraded cfg) with
        | .failed err w1 => .failed err w1
        | .running w1 => .running w1
        | .returned cumLogs w1 => finishBlock cfg cumLogs w1 := rfl

/-- Applying transactions never calls the finalizer. -/
theorem applyTransactions_finalizations (cfg : MiningExecCfg W P S F) (sig : Signals)
    (fuel executionAt : Nat) (w : World W P S) :
    finalizations (applyTransactions cfg sig fuel executionAt w).state.trace
      = finalizations w.trace := by
  unfold applyTransactions
  cases hp : preparedBatch cfg w with
  | some p =>
    simp only
    cases hin : addTransactionsToMiningBlock cfg.engine cfg.preparedOps sig fuel w.current p
        w.ibs w.tick <;>
      simp only [Outcome.state] <;> exact (after_counts w _).2.2
  | none =>
    obtain ⟨f, a, _, _, h, _⟩ := fetchApplyCycle_counts cfg sig fuel executionAt 1000 0 [] w
    exact h

/-- An error of the application phase is the error of a fetch or the stop
error of the applier. -/
theorem applyTransactions_failed (cfg : MiningExecCfg W P S F) (sig : Signals)
    (fuel executionAt : Nat) (w w1 : World W P S) (err : Err)
    (h : applyTransactions cfg sig fuel executionAt w = .failed err w1) :
    (∃ header pool, (getNextTransactions cfg header 50 executionAt pool).1 = .error err) ∨
    (err = .ErrStopped ∧ ∃ t, sig.quit t = true) := by
  unfold applyTransactions at h
  cases hp : preparedBatch cfg w with
  | some p =>
    rw [hp] at h
    simp only at h
    cases hin : addTransactionsToMiningBlock cfg.engine cfg.preparedOps sig fuel w.current p
        w.ibs w.tick with
    | failed e s =>
      rw [hin] at h
      cases h
      exact Or.inr (loop_failed cfg.engine cfg.preparedOps sig fuel _ _ _ hin)
    | running s => rw [hin] at h; cases h
    | returned logs s => rw [hin] at h; cases h
  | none =>
    rw [hp] at h
    rcases fetchApplyCycle_failed cfg sig fuel executionAt 1000 0 [] w err w1 h with
      hf | ⟨current, batch, ibs, tick, s, hin⟩
    · exact Or.inl hf
    · exact Or.inr (loop_failed cfg.engine cfg.fixedOps sig fuel _ _ _ hin)

/-- The application phase only appends to the block: the lists it leaves are
the lists it found followed by equally many new transactions and receipts. -/
theorem applyTransactions_extends (cfg : MiningExecCfg W P S F) (sig : Signals)
    (fuel executionAt : Nat) (w : World W P S) :
    ∃ l r, (applyTransactions cfg sig fuel executionAt w).state.current.Txs
        = w.current.Txs ++ l ∧
      (applyTransactions cfg sig fuel executionAt w).state.current.Receipts
        = w.current.Receipts ++ r ∧ l.length = r.length := by
  unfold applyTransactions
  cases hp : preparedBatch cfg w with
  | some p =>
    simp only
    have := addTransactions_extends cfg.engine cfg.preparedOps sig fuel w.current w.current p
      w.ibs w.tick ⟨[], [], by simp, by simp, rfl⟩
    cases hin : addTransactionsToMiningBlock cfg.engine cfg.preparedOps sig fuel w.current p
        w.ibs w.tick <;> rw [hin] at this <;> exact this
  | none =>
    exact fetchApplyCycle_current cfg sig fuel executionAt
      (fun c => ∃ l r, c.Txs = w.current.Txs ++ l ∧ c.Receipts = w.current.Receipts ++ r ∧
        l.length = r.length)
      (fun current batch ibs tick hc =>
        addTransactions_extends cfg.engine cfg.fixedOps sig fuel w.current current batch ibs tick
          hc)
      1000 0 [] w ⟨[], [], by simp, by simp, rfl⟩

/-- Finishing the block calls the finalizer exactly once, and the block it
leaves holds the lists the finalizer handed back. -/
theorem finishBlock_facts (cfg : MiningExecCfg W P S F) (cumLogs : List Log) (w : World W P S) :
    finalizations (finishBlock cfg cumLogs w).state.trace = finalizations w.trace + 1 ∧
    (finishBlock cfg cumLogs w).state.current.Txs
      = (cfg.FinalizeBlockExecution w.ibs w.current.Header w.current.Txs w.current.Receipts).Txs ∧
    (finishBlock cfg cumLogs w).state.current.Receipts
      = (cfg.FinalizeBlockExecution w.ibs w.current.Header w.current.Txs
          w.current.Receipts).Receipts := by
  have hn : finalizations (NotifyPendingLogs cfg.notifier cumLogs) = 0 := by
    unfold NotifyPendingLogs
    split
    · rfl
    · split <;> rfl
  simp only [finalizations] at hn
  unfold finishBlock
  simp only
  split
  · refine ⟨?_, rfl, rfl⟩
    simp [Outcome.state, finalizations, List.countP_append, isFinalize, hn]
  · split
    · refine ⟨?_, rfl, rfl⟩
      simp [Outcome.state, finalizations, List.countP_append, isFinalize, hn]
    · refine ⟨?_, rfl, rfl⟩
      simp [Outcome.state, finalizations, List.countP_append, isFinalize, hn]

/-- On finite batches smaller than the fuel every application returns. -/
theorem applierReturns_of_advances (cfg : MiningExecCfg W P S F) (sig : Signals) (fuel : Nat)
    (size : F → Nat) (hadv : Advances cfg.fixedOps size)
    (hsize : ∀ txs, size (cfg.NewTransactionsFixedOrder txs) < fuel) :
    ApplierReturns cfg sig fuel := by
  intro txs current ibs tick
  exact (loop_terminates cfg.engine cfg.fixedOps sig size hadv fuel
    (initLoop current (cfg.NewTransactionsFixedOrder txs) ibs tick) (hsize txs)).1

/-- C6: in the pool path the cycle makes `f` calls of `getNextTransactions`
and `a` calls of `addTransactionsToMiningBlock` with `f <= 1000`, `a <= 1000`
and `a <= f <= a + 1`, for every pool and engine; a round whose batch is empty
returns at once; when the cycle returns, either its last fetch was followed by
no application or it has made exactly 1000 of each; and it returns whenever
every application does. -/
theorem fetch_apply_cycle_bounded (cfg : MiningExecCfg W P S F) (sig : Signals)
    (fuel executionAt : Nat) (w : World W P S) :
    (∃ f a,
      fetches (fetchApplyCycle cfg sig fuel executionAt 1000 0 [] w).state.trace
        = fetches w.trace + f ∧
      applications (fetchApplyCycle cfg sig fuel executionAt 1000 0 [] w).state.trace
        = applications w.trace + a ∧
      f ≤ 1000 ∧ a ≤ 1000 ∧ a ≤ f ∧ f ≤ a + 1 ∧
      ((∃ logs w1, fetchApplyCycle cfg sig fuel executionAt 1000 0 [] w = .returned logs w1) →
        f = a + 1 ∨ (f = 1000 ∧ a = 1000))) ∧
    (∀ (n ks : Nat) (cum : List Log) (w1 : World W P S) (batch : F),
      (getNextTransactions cfg w1.current.Header 50 executionAt w1.pool).1 = .ok batch →
      cfg.fixedOps.Empty batch = true →
      fetchApplyCycle cfg sig fuel executionAt (n + 1) ks cum w1
        = .returned cum (w1.fetched cfg executionAt)) ∧
    (ApplierReturns cfg sig fuel →
      (fetchApplyCycle cfg sig fuel executionAt 1000 0 [] w).finished = true) ∧
    (preparedBatch cfg w = none →
      applyTransactions cfg sig fuel executionAt w
        = fetchApplyCycle cfg sig fuel executionAt 1000 0 [] w) := by
  obtain ⟨f, a, h1, h2, _, h4, h5, h6, h7, h8⟩ :=
    fetchApplyCycle_counts cfg sig fuel executionAt 1000 0 [] w
  refine ⟨⟨f, a, h1, h2, h6, by omega, h4, h5, fun hr => ?_⟩, ?_, ?_, ?_⟩
  · rcases h7 hr with h | ⟨h, h'⟩
    · exact Or.inl h
    · exact Or.inr ⟨by omega, by omega⟩
  · intro n ks cum w1 batch hg hE
    rcases fetchApplyCycle_cases cfg sig fuel executionAt n ks cum w1 with
      ⟨err, hg1, _⟩ | ⟨b, _, _, hc⟩ | ⟨b, hg1, hE1, _⟩
    · rw [hg] at hg1; cases hg1
    · exact hc
    · rw [hg] at hg1
      cases hg1
      rw [hE] at hE1
      cases hE1
  · exact fun hret => h8 (by omega) (by omega) hret
  · intro hp
    simp only [applyTransactions, hp]

theorem fetch_apply_cycle_bounded_witness :
    fetches (fetchApplyCycle (boundedCfg [.ok [[666, 0]], .ok [[666, 0], [5, 9]]]) quiet 51 9
        1000 0 [] (sampleWorld 100000)).state.trace = 3 ∧
    applications (fetchApplyCycle (boundedCfg [.ok [[666, 0]], .ok [[666, 0], [5, 9]]]) quiet 51 9
        1000 0 [] (sampleWorld 100000)).state.trace = 2 ∧
    (fetchApplyCycle (boundedCfg [.ok [[666, 0]], .ok [[666, 0], [5, 9]]]) quiet 51 9
        1000 0 [] (sampleWorld 100000)).state.current.Txs = [] ∧
    (fetchApplyCycle (boundedCfg [.ok [[666, 0]], .ok [[666, 0], [5, 9]]]) quiet 51 9
        1000 0 [] (sampleWorld 100000)).finished = true :=
  ⟨by decide, by decide, by decide,
    (fetch_apply_cycle_bounded (boundedCfg [.ok [[666, 0]], .ok [[666, 0], [5, 9]]]) quiet 51 9
      (sampleWorld 100000)).2.2.1
      (applierReturns_of_advances _ quiet 51 List.length fixedOrder_advances
        (fun txs => by
          have := List.length_take_le 50 txs
          simp only [boundedCfg]
          omega))⟩

/-- C8, counterexample: with the stop signal raised
`addTransactionsToMiningBlock` returns the stop error, and
`SpawnMiningExecStage` returns that error without calling the finalizer. -/
theorem stop_signal_is_an_error :
    (addTransactionsToMiningBlock sampleEngine TransactionsFixedOrder stopNow 5
        (sampleBlock 100000) [sampleTx 1 0] 0 0).err = some .ErrStopped ∧
    (SpawnMiningExecStage (sampleCfg [.ok [[1, 0]]] none) stopNow 5 (sampleWorld 100000)).err
      = some .ErrStopped ∧
    finalizations (SpawnMiningExecStage (sampleCfg [.ok [[1, 0]]] none) stopNow 5
      (sampleWorld 100000)).state.trace = 0 := by
  refine ⟨by decide, by decide, by decide⟩

/-- C8, amended: a stop through the interrupt flag is a normal end: once the
grace ticker has fired the loop returns the logs collected so far with a nil
error, and when the application phase returns `SpawnMiningExecStage` goes on
to the finalizer, which it calls once. A stop through the quit channel is an
error: the loop returns the stop error, the only error it ever returns, and
`SpawnMiningExecStage` returns an error of the application phase as it is,
without calling the finalizer. Without a stop signal an error of the
application phase is the error of a fetch. -/
theorem cancellation_paths (cfg : MiningExecCfg W P S F) (sig : Signals) (fuel : Nat)
    (w : World W P S) :
    (∀ (T : Type) (ops : TransactionsStream T) (n : Nat) (s : LoopState W T),
      (s.stopped && sig.timerFired s.tick) = true →
      loop cfg.engine ops sig (n + 1) s = .returned s.coalescedLogs (s.emit .timerFired).tickUp) ∧
    (∀ (T : Type) (ops : TransactionsStream T) (n : Nat) (s : LoopState W T),
      (s.stopped && sig.timerFired s.tick) = false → sig.quit s.tick = true →
      loop cfg.engine ops sig (n + 1) s = .failed .ErrStopped (s.emit .stopSignal).tickUp) ∧
    (∀ (T : Type) (ops : TransactionsStream T) (n : Nat) (s s1 : LoopState W T) (err : Err),
      loop cfg.engine ops sig n s = .failed err s1 →
      err = .ErrStopped ∧ ∃ t, sig.quit t = true) ∧
    (∀ executionAt logs w1, cfg.ExecutionAt = .ok executionAt →
      applyTransactions cfg sig fuel executionAt (w.upgraded cfg) = .returned logs w1 →
      SpawnMiningExecStage cfg sig fuel w = finishBlock cfg logs w1 ∧
      finalizations (SpawnMiningExecStage cfg sig fuel w).state.trace
        = finalizations w.trace + 1) ∧
    (∀ executionAt err w1, cfg.ExecutionAt = .ok executionAt →
      applyTransactions cfg sig fuel executionAt (w.upgraded cfg) = .failed err w1 →
      SpawnMiningExecStage cfg sig fuel w = .failed err w1 ∧
      finalizations w1.trace = finalizations w.trace ∧
      ((∃ header pool, (getNextTransactions cfg header 50 executionAt pool).1 = .error err) ∨
        (err = .ErrStopped ∧ ∃ t, sig.quit t = true))) := by
  refine ⟨?_, ?_, ?_, ?_, ?_⟩
  · intro T ops n s h
    simp only [loop, iteration, h, if_true, LoopState.emit]
  · intro T ops n s h1 h2
    simp only [loop, iteration, h1, h2, if_true, Bool.false_eq_true, if_false]
  · intro T ops n s s1 err h
    exact loop_failed cfg.engine ops sig n s s1 err h
  · intro ea logs w1 he ha
    have hs : SpawnMiningExecStage cfg sig fuel w = finishBlock cfg logs w1 := by
      rw [SpawnMiningExecStage_eq]
      simp only [he, ha]
    refine ⟨hs, ?_⟩
    rw [hs, (finishBlock_facts cfg logs w1).1]
    have := applyTransactions_finalizations cfg sig fuel ea (w.upgraded cfg)
    rw [ha] at this
    simp only [Outcome.state] at this
    rw [this]
    rfl
  · intro ea err w1 he ha
    refine ⟨?_, ?_, applyTransactions_failed cfg sig fuel ea _ _ err ha⟩
    · rw [SpawnMiningExecStage_eq]
      simp only [he, ha]
    · have := applyTransactions_finalizations cfg sig fuel ea (w.upgraded cfg)
      rw [ha] at this
      exact this

theorem cancellation_paths_witness :
    (SpawnMiningExecStage (sampleCfg [.ok [[1, 0], [2, 1], [3, 2]]] none) interruptNow 5
        (sampleWorld 100000)).err = none ∧
    (SpawnMiningExecStage (sampleCfg [.ok [[1, 0], [2, 1], [3, 2]]] none) interruptNow 5
        (sampleWorld 100000)).state.current.Txs = [sampleTx 1 0] ∧
    finalizations (SpawnMiningExecStage (sampleCfg [.ok [[1, 0], [2, 1], [3, 2]]] none)
        interruptNow 5 (sampleWorld 100000)).state.trace
      = finalizations (sampleWorld 100000).trace + 1 :=
  ⟨by decide, by decide,
    ((cancellation_paths (sampleCfg [.ok [[1, 0], [2, 1], [3, 2]]] none) interruptNow 5
      (sampleWorld 100000)).2.2.2.1 9 [1]
      (applyTransactions (sampleCfg [.ok [[1, 0], [2, 1], [3, 2]]] none) interruptNow 5 9
        ((sampleWorld 100000).upgraded (sampleCfg [.ok [[1, 0], [2, 1], [3, 2]]] none))).state
      rfl rfl).2⟩

/-- C9, counterexample: the first batch commits a transaction, the second
fetch fails; `SpawnMiningExecStage` returns the fetch error and the block
still holds the committed transaction, its receipt and its gas. -/
theorem fetch_error_exposes_committed_transaction :
    (SpawnMiningExecStage (sampleCfg [.ok [[1, 0]], .error (.other 9)] none) quiet 5
        (sampleWorld 100000)).err = some (.other 9) ∧
    (sampleWorld 100000).current.Txs = [] ∧
    (sampleWorld 100000).current.Header.GasUsed = 0 ∧
    (SpawnMiningExecStage (sampleCfg [.ok [[1, 0]], .error (.other 9)] none) quiet 5
        (sampleWorld 100000)).state.current.Txs = [sampleTx 1 0] ∧
    (SpawnMiningExecStage (sampleCfg [.ok [[1, 0]], .error (.other 9)] none) quiet 5
        (sampleWorld 100000)).state.current.Receipts.length = 1 ∧
    (SpawnMiningExecStage (sampleCfg [.ok [[1, 0]], .error (.other 9)] none) quiet 5
        (sampleWorld 100000)).state.current.Header.GasUsed = 21001 := by
  refine ⟨by decide, by decide, by decide, by decide, by decide, by decide⟩

/-- C9, amended: when `SpawnMiningExecStage` returns the error of
`s.ExecutionAt` the block is untouched; when it returns a fetch error or the
stop error of the applier, the world is the one the application phase left:
the block holds the transactions and receipts it held on entry followed by
those committed before the error, and nothing is rolled back; once the
application phase has returned, the two lists are the ones the finalizer
handed back, also when it fails. -/
theorem error_keeps_committed_transactions (cfg : MiningExecCfg W P S F) (sig : Signals)
    (fuel : Nat) (w : World W P S) :
    (∀ err, cfg.ExecutionAt = .error err →
      SpawnMiningExecStage cfg sig fuel w = .failed err (w.upgraded cfg) ∧
      (w.upgraded cfg).current = w.current) ∧
    (∀ executionAt err w1, cfg.ExecutionAt = .ok executionAt →
      applyTransactions cfg sig fuel executionAt (w.upgraded cfg) = .failed err w1 →
      SpawnMiningExecStage cfg sig fuel w = .failed err w1 ∧
      ∃ l r, w1.current.Txs = w.current.Txs ++ l ∧ w1.current.Receipts = w.current.Receipts ++ r ∧
        l.length = r.length) ∧
    (∀ executionAt logs w1, cfg.ExecutionAt = .ok executionAt →
      applyTransactions cfg sig fuel executionAt (w.upgraded cfg) = .returned logs w1 →
      (SpawnMiningExecStage cfg sig fuel w).state.current.Txs
        = (cfg.FinalizeBlockExecution w1.ibs w1.current.Header w1.current.Txs
            w1.current.Receipts).Txs ∧
      (SpawnMiningExecStage cfg sig fuel w).state.current.Receipts
        = (cfg.FinalizeBlockExecution w1.ibs w1.current.Header w1.current.Txs
            w1.current.Receipts).Receipts) := by
  refine ⟨?_, ?_, ?_⟩
  · intro err he
    refine ⟨?_, rfl⟩
    rw [SpawnMiningExecStage_eq]
    simp only [he]
  · intro ea err w1 he ha
    refine ⟨?_, ?_⟩
    · rw [SpawnMiningExecStage_eq]
      simp only [he, ha]
    · have := applyTransactions_extends cfg sig fuel ea (w.upgraded cfg)
      rw [ha] at this
      exact this
  · intro ea logs w1 he ha
    have hs : SpawnMiningExecStage cfg sig fuel w = finishBlock cfg logs w1 := by
      rw [SpawnMiningExecStage_eq]
      simp only [he, ha]
    rw [hs]
    exact (finishBlock_facts cfg logs w1).2

theorem error_keeps_committed_transactions_witness :
    (applyTransactions (sampleCfg [.ok [[1, 0]], .error (.other 9)] none) quiet 5 9
        ((sampleWorld 100000).upgraded (sampleCfg [.ok [[1, 0]], .error (.other 9)] none))).err
      = some (.other 9) ∧
    SpawnMiningExecStage (sampleCfg [.ok [[1, 0]], .error (.other 9)] none) quiet 5
        (sampleWorld 100000)
      = .failed (.other 9)
        (applyTransactions (sampleCfg [.ok [[1, 0]], .error (.other 9)] none) quiet 5 9
          ((sampleWorld 100000).upgraded
            (sampleCfg [.ok [[1, 0]], .error (.other 9)] none))).state :=
  ⟨by decide,
    ((error_keeps_committed_transactions (sampleCfg [.ok [[1, 0]], .error (.other 9)] none) quiet 5
      (sampleWorld 100000)).2.1 9 (.other 9) _ rfl rfl).1⟩

end stageFacts

section admission

variable {W T : Type}

theorem armTicker_trace (sig : Signals) (s : LoopState W T) :
    (armTicker sig s).trace
      = s.trace ++ (if (sig.interrupted s.tick && !s.stopped) = true then [.newTicker] else []) := by
  unfold armTicker
  split <;> simp

theorem beforeCommit_trace (ops : TransactionsStream T) (sig : Signals) (s : LoopState W T) :
    (beforeCommit ops sig s).trace
      = s.trace ++ (if (sig.interrupted s.tick && !s.stopped) = true then [.newTicker] else [])
        ++ [.gasCheck s.gasPool, .peek (ops.Peek s.txs)] := by
  simp only [beforeCommit, LoopState.emit, armTicker_trace, List.append_assoc,
    List.singleton_append]

theorem beforeCommit_tick (ops : TransactionsStream T) (sig : Signals) (s : LoopState W T) :
    (beforeCommit ops sig s).tick = s.tick := by
  simp only [beforeCommit, LoopState.emit, armTicker_tick]

theorem armTicker_peeks (sig : Signals) (s : LoopState W T) :
    peeks (armTicker sig s).trace = peeks s.trace := by
  rw [armTicker_trace]
  split <;> simp [peeks, List.countP_append, isPeek]

theorem beforeCommit_peeks (ops : TransactionsStream T) (sig : Signals) (s : LoopState W T) :
    peeks (beforeCommit ops sig s).trace = peeks s.trace + 1 := by
  have h := armTicker_peeks sig s
  simp only [peeks] at h
  simp [beforeCommit, LoopState.emit, peeks, List.countP_append, isPeek, h]

/-- An iteration that gets to the gas check calls `Peek` exactly when the pool
holds at least `params.TxGas`. -/
theorem iteration_peeks (E : Engine W) (ops : TransactionsStream T) (sig : Signals)
    (s : LoopState W T) (h1 : (s.stopped && sig.timerFired s.tick) = false)
    (h2 : sig.quit s.tick = false) :
    (s.gasPool < TxGas → peeks (iteration E ops sig s).state.trace = peeks s.trace) ∧
    (TxGas ≤ s.gasPool → peeks (iteration E ops sig s).state.trace = peeks s.trace + 1) := by
  have hb := beforeCommit_peeks ops sig s
  have ha := armTicker_peeks sig s
  simp only [peeks] at hb ha
  rcases iteration_cases E ops sig s with
    ⟨g1, hi⟩ | ⟨g1, g2, hi⟩ | ⟨g1, g2, g3, hi⟩ | ⟨g1, g2, g3, g4, hi⟩ |
    ⟨txn, g1, g2, g3, g4, g5, hi⟩ | ⟨txn, hA, hi⟩
  · rw [h1] at g1; cases g1
  · rw [h2] at g2; cases g2
  · refine ⟨fun _ => ?_, fun h => absurd h (not_le.mpr g3)⟩
    rw [hi]
    simp [Step.state, LoopState.emit, peeks, List.countP_append, isPeek, ha]
  · refine ⟨fun h => absurd g3 (not_le.mpr h), fun _ => ?_⟩
    rw [hi]
    simp [Step.state, peeks, hb]
  · refine ⟨fun h => absurd g3 (not_le.mpr h), fun _ => ?_⟩
    rw [hi]
    simp [Step.state, LoopState.Pop, peeks, List.countP_append, isPeek, hb]
  · refine ⟨fun h => absurd hA.2.2.1 (not_le.mpr h), fun _ => ?_⟩
    rcases settle_commit_cases E ops (beforeCommit ops sig s) txn with
      ⟨err, hr, hs | hs⟩ | ⟨receipt, hr, hs⟩ <;> rw [hi, hs] <;>
      simp [Step.state, LoopState.Pop, LoopState.Shift, rejected, committed, peeks,
        List.countP_append, List.countP_cons, isPeek, hb]

/-- An iteration that gets to the gas check with less than `params.TxGas` in
the pool ends the loop there. -/
theorem iteration_out_of_gas (E : Engine W) (ops : TransactionsStream T) (sig : Signals)
    (s : LoopState W T) (h1 : (s.stopped && sig.timerFired s.tick) = false)
    (h2 : sig.quit s.tick = false) (h3 : s.gasPool < TxGas) :
    iteration E ops sig s = .done ((armTicker sig s).emit (.gasCheck s.gasPool)) := by
  simp only [iteration, h1, h2, armTicker_gasPool, h3, if_true, Bool.false_eq_true, if_false]

/-- A successful execution, as one iteration. -/
theorem iteration_committed (E : Engine W) (ops : TransactionsStream T) (sig : Signals)
    (s : LoopState W T) (txn : Transaction) (receipt : Receipt)
    (h : Attempts E ops sig s txn) (hr : (engineAnswer E s txn).result = .ok receipt) :
    iteration E ops sig s
      = .next ((committed E (beforeCommit ops sig s) txn receipt).Shift ops) := by
  rw [iteration_of_attempts E ops sig s txn h,
    miningCommitTx_of_ok E (beforeCommit ops sig s) txn receipt
      (by rw [engineAnswer_beforeCommit]; exact hr)]
  rfl

/-- C11: with gas limit 21000, gas used 0, an empty block and a stream whose
first transaction is executed with success for exactly 21000 gas, the call
admits it and returns its logs with a block of exactly that transaction and
its receipt, `GasUsed` 21000 and an empty gas pool; and an iteration that gets
to the gas check ends the loop there, without a call of `Peek`, exactly when
the pool holds less than `params.TxGas`. -/
theorem admission_boundary (E : Engine W) (ops : TransactionsStream T) (sig : Signals)
    (current : MiningBlock) (txs : T) (ibs : W) (tick : Nat) (txn : Transaction)
    (receipt : Receipt)
    (hlimit : current.Header.GasLimit = 21000) (hused : current.Header.GasUsed = 0)
    (hempty : current.Txs = [] ∧ current.Receipts = [])
    (hquit : sig.quit tick = false ∧ sig.quit (tick + 1) = false)
    (hpeek : ops.Peek txs = some txn) (hsender : (E.Sender txn).isSome = true)
    (hreplay : (txn.Protected && !E.IsSpuriousDragon current.Header.Number) = false)
    (hok : (engineAnswer E (initLoop current txs ibs tick) txn).result = .ok receipt)
    (hgas : (engineAnswer E (initLoop current txs ibs tick) txn).gasPool = 21000 - 21000 ∧
      (engineAnswer E (initLoop current txs ibs tick) txn).gasUsed = 0 + 21000) :
    (∃ s, addTransactionsToMiningBlock E ops sig 2 current txs ibs tick
        = .returned receipt.Logs s ∧
      s.current.Txs = [txn] ∧ s.current.Receipts = [receipt] ∧
      s.current.Header.GasUsed = 21000 ∧ s.gasPool = 0 ∧ executions s.trace = 1) ∧
    ∀ s : LoopState W T, (s.stopped && sig.timerFired s.tick) = false →
      sig.quit s.tick = false →
      (s.gasPool < TxGas →
        iteration E ops sig s = .done ((armTicker sig s).emit (.gasCheck s.gasPool))) ∧
      (s.gasPool < TxGas ↔ peeks (iteration E ops sig s).state.trace = peeks s.trace) := by
  constructor
  · have hpool : (initLoop current txs ibs tick : LoopState W T).gasPool = 21000 := by
      simp only [initLoop, hlimit, hused]
      decide
    have hA : Attempts E ops sig (initLoop current txs ibs tick) txn :=
      ⟨rfl, hquit.1, by rw [hpool]; decide, hpeek, hsender, hreplay⟩
    have hi := iteration_committed E ops sig _ txn receipt hA hok
    have hfacts :
        ((committed E (beforeCommit ops sig (initLoop current txs ibs tick)) txn
          receipt).Shift ops).tickUp.gasPool = 0 ∧
        ((committed E (beforeCommit ops sig (initLoop current txs ibs tick)) txn
          receipt).Shift ops).tickUp.tick = tick + 1 ∧
        ((committed E (beforeCommit ops sig (initLoop current txs ibs tick)) txn
          receipt).Shift ops).tickUp.current.Txs = [txn] ∧
        ((committed E (beforeCommit ops sig (initLoop current txs ibs tick)) txn
          receipt).Shift ops).tickUp.current.Receipts = [receipt] ∧
        ((committed E (beforeCommit ops sig (initLoop current txs ibs tick)) txn
          receipt).Shift ops).tickUp.current.Header.GasUsed = 21000 ∧
        ((committed E (beforeCommit ops sig (initLoop current txs ibs tick)) txn
          receipt).Shift ops).tickUp.coalescedLogs = receipt.Logs ∧
        executions ((committed E (beforeCommit ops sig (initLoop current txs ibs tick)) txn
          receipt).Shift ops).tickUp.trace = 1 := by
      have hc := (beforeCommit_counts ops sig (initLoop current txs ibs tick)).2
      have hc0 : List.countP isExecution
          (beforeCommit ops sig (initLoop current txs ibs tick)).trace = 0 := by
        simp only [executions] at hc
        rw [hc]
        rfl
      refine ⟨?_, ?_, ?_, ?_, ?_, ?_, ?_⟩
      · simp only [LoopState.tickUp, LoopState.Shift, committed, engineAnswer_beforeCommit,
          hgas.1]
      · simp only [LoopState.tickUp, LoopState.Shift, committed, beforeCommit_tick, initLoop]
      · simp [LoopState.tickUp, LoopState.Shift, committed, beforeCommit_current, initLoop,
          hempty.1]
      · simp [LoopState.tickUp, LoopState.Shift, committed, beforeCommit_current, initLoop,
          hempty.2]
      · simp only [LoopState.tickUp, LoopState.Shift, committed, engineAnswer_beforeCommit,
          hgas.2]
      · simp [LoopState.tickUp, LoopState.Shift, committed, beforeCommit_coalescedLogs, initLoop]
      · simp [LoopState.tickUp, LoopState.Shift, committed, executions, List.countP_append,
          List.countP_cons, isExecution, hc0]
    have hloop : addTransactionsToMiningBlock E ops sig 2 current txs ibs tick
        = loop E ops sig 1 ((committed E (beforeCommit ops sig (initLoop current txs ibs tick))
            txn receipt).Shift ops).tickUp := by
      simp only [addTransactionsToMiningBlock, loop, hi]
    rw [hloop]
    generalize ((committed E (beforeCommit ops sig (initLoop current txs ibs tick)) txn
      receipt).Shift ops).tickUp = s1 at hfacts
    obtain ⟨f1, f2, f3, f4, f5, f6, f7⟩ := hfacts
    have hq1 : sig.quit s1.tick = false := by rw [f2]; exact hquit.2
    have hlow : s1.gasPool < TxGas := by rw [f1]; decide
    by_cases ht : (s1.stopped && sig.timerFired s1.tick) = true
    · refine ⟨(s1.emit .timerFired).tickUp, ?_, f3, f4, f5, f1, ?_⟩
      · simp only [loop, iteration, ht, if_true, LoopState.emit, f6]
      · simp [LoopState.tickUp, LoopState.emit, executions, List.countP_append, isExecution]
        exact f7
    · have htf : (s1.stopped && sig.timerFired s1.tick) = false := by simpa using ht
      have hit := iteration_out_of_gas E ops sig s1 htf hq1 hlow
      refine ⟨((armTicker sig s1).emit (.gasCheck s1.gasPool)).tickUp, ?_, ?_, ?_, ?_, ?_, ?_⟩
      · simp only [loop, hit, LoopState.emit, armTicker_coalescedLogs, f6]
      · simp only [LoopState.tickUp, LoopState.emit, armTicker_current, f3]
      · simp only [LoopState.tickUp, LoopState.emit, armTicker_current, f4]
      · simp only [LoopState.tickUp, LoopState.emit, armTicker_current, f5]
      · simp only [LoopState.tickUp, LoopState.emit, armTicker_gasPool, f1]
      · have := (armTicker_counts sig s1).2
        simp only [executions] at this f7
        simp [LoopState.tickUp, LoopState.emit, executions, List.countP_append, isExecution,
          this, f7]
  · intro s h1 h2
    refine ⟨iteration_out_of_gas E ops sig s h1 h2, ?_⟩
    obtain ⟨p1, p2⟩ := iteration_peeks E ops sig s h1 h2
    constructor
    · exact p1
    · intro h
      by_contra hn
      have := p2 (not_lt.mp hn)
      omega

theorem admission_boundary_witness :
    (addTransactionsToMiningBlock sampleEngine TransactionsFixedOrder quiet 2 (sampleBlock 21000)
        [sampleTx 0 0] 0 0).state.current.Header.GasUsed = 21000 ∧
    ∃ s, addTransactionsToMiningBlock sampleEngine TransactionsFixedOrder quiet 2
        (sampleBlock 21000) [sampleTx 0 0] 0 0 = .returned [0] s ∧
      s.current.Txs = [sampleTx 0 0] ∧ s.current.Receipts = [⟨0, 21000, [0]⟩] ∧
      s.current.Header.GasUsed = 21000 ∧ s.gasPool = 0 ∧ executions s.trace = 1 :=
  ⟨by decide,
    (admission_boundary sampleEngine TransactionsFixedOrder quiet (sampleBlock 21000)
      [sampleTx 0 0] 0 0 (sampleTx 0 0) ⟨0, 21000, [0]⟩ rfl rfl ⟨rfl, rfl⟩ ⟨rfl, rfl⟩ rfl rfl
      rfl rfl ⟨rfl, rfl⟩).1⟩

end admission

section grace

variable {W T : Type}

theorem armTicker_stopped (sig : Signals) (s : LoopState W T) :
    (armTicker sig s).stopped = (s.stopped || sig.interrupted s.tick) := by
  unfold armTicker
  cases hs : s.stopped <;> cases hi : sig.interrupted s.tick <;> simp [hs]

theorem armTicker_tickers (sig : Signals) (s : LoopState W T) :
    tickers (armTicker sig s).trace
      = tickers s.trace + (if (sig.interrupted s.tick && !s.stopped) = true then 1 else 0) := by
  rw [armTicker_trace]
  split <;> simp [tickers, List.countP_append, isNewTicker]

/-- What one iteration does about the grace ticker: nothing when it ends at
the ticker check or at the stop check, otherwise what the interrupt test
does. -/
theorem iteration_ticker (E : Engine W) (ops : TransactionsStream T) (sig : Signals)
    (s : LoopState W T) :
    (((s.stopped && sig.timerFired s.tick) = true ∨ sig.quit s.tick = true) →
      tickers (iteration E ops sig s).state.trace = tickers s.trace ∧
      (iteration E ops sig s).state.stopped = s.stopped) ∧
    ((s.stopped && sig.timerFired s.tick) = false → sig.quit s.tick = false →
      tickers (iteration E ops sig s).state.trace = tickers (armTicker sig s).trace ∧
      (iteration E ops sig s).state.stopped = (armTicker sig s).stopped) := by
  have hbt : tickers (beforeCommit ops sig s).trace = tickers (armTicker sig s).trace := by
    simp [beforeCommit, LoopState.emit, tickers, List.countP_append, isNewTicker]
  have hbs : (beforeCommit ops sig s).stopped = (armTicker sig s).stopped := rfl
  simp only [tickers] at hbt
  rcases iteration_cases E ops sig s with
    ⟨g1, hi⟩ | ⟨g1, g2, hi⟩ | ⟨g1, g2, g3, hi⟩ | ⟨g1, g2, g3, g4, hi⟩ |
    ⟨txn, g1, g2, g3, g4, g5, hi⟩ | ⟨txn, hA, hi⟩
  · refine ⟨fun _ => ?_, fun h => by rw [g1] at h; cases h⟩
    rw [hi]
    simp [Step.state, LoopState.emit, tickers, List.countP_append, isNewTicker]
  · refine ⟨fun _ => ?_, fun _ h => by rw [g2] at h; cases h⟩
    rw [hi]
    simp [Step.state, LoopState.emit, tickers, List.countP_append, isNewTicker]
  · refine ⟨fun h => ?_, fun _ _ => ?_⟩
    · rcases h with h | h
      · rw [g1] at h; cases h
      · rw [g2] at h; cases h
    · rw [hi]
      simp [Step.state, LoopState.emit, tickers, List.countP_append, isNewTicker]
  · refine ⟨fun h => ?_, fun _ _ => ?_⟩
    · rcases h with h | h
      · rw [g1] at h; cases h
      · rw [g2] at h; cases h
    · rw [hi]
      exact ⟨by simp only [Step.state, tickers, hbt], hbs⟩
  · refine ⟨fun h => ?_, fun _ _ => ?_⟩
    · rcases h with h | h
      · rw [g1] at h; cases h
      · rw [g2] at h; cases h
    · rw [hi]
      refine ⟨?_, hbs⟩
      simp [Step.state, LoopState.Pop, tickers, List.countP_append, isNewTicker, hbt]
  · refine ⟨fun h => ?_, fun _ _ => ?_⟩
    · rcases h with h | h
      · rw [hA.1] at h; cases h
      · rw [hA.2.1] at h; cases h
    · rcases settle_commit_cases E ops (beforeCommit ops sig s) txn with
        ⟨err, hr, hs | hs⟩ | ⟨receipt, hr, hs⟩ <;> rw [hi, hs] <;> refine ⟨?_, hbs⟩ <;>
        simp [Step.state, LoopState.Pop, LoopState.Shift, rejected, committed, tickers,
          List.countP_append, List.countP_cons, isNewTicker, hbt]

/-- The ticker count after one iteration: one more exactly when the iteration
gets past the stop check and finds the flag set and no ticker. -/
theorem iteration_tickers (E : Engine W) (ops : TransactionsStream T) (sig : Signals)
    (s : LoopState W T) :
    tickers (iteration E ops sig s).state.trace
      = tickers s.trace +
        (if (s.stopped && sig.timerFired s.tick) = false ∧ sig.quit s.tick = false ∧
            sig.interrupted s.tick = true ∧ s.stopped = false then 1 else 0) ∧
    (iteration E ops sig s).state.stopped
      = (s.stopped || ((!(s.stopped && sig.timerFired s.tick)) && (!sig.quit s.tick) &&
          sig.interrupted s.tick)) := by
  obtain ⟨h1, h2⟩ := iteration_ticker E ops sig s
  cases hf : (s.stopped && sig.timerFired s.tick)
  · cases hq : sig.quit s.tick
    · obtain ⟨e1, e2⟩ := h2 hf hq
      rw [e1, e2, armTicker_tickers, armTicker_stopped]
      cases hs : s.stopped <;> cases hi : sig.interrupted s.tick <;> simp
    · obtain ⟨e1, e2⟩ := h1 (Or.inr hq)
      rw [e1, e2]
      simp
  · obtain ⟨e1, e2⟩ := h1 (Or.inl hf)
    rw [e1, e2]
    simp

/-- C14: the grace ticker is created at most once in a call; an iteration
creates it exactly when it gets past the ticker check and the stop check with
a non-zero interrupt flag and no ticker yet, and it then goes on to the gas
check and the attempt; an iteration that finds the ticker fired ends the loop
at once, before the stop check, the gas check and `Peek`, and the call returns
the logs collected so far with a nil error; with a nil interrupt pointer or a
flag that stays 0 no ticker is ever created. -/
theorem grace_timer (E : Engine W) (ops : TransactionsStream T) (sig : Signals) (fuel : Nat)
    (current : MiningBlock) (txs : T) (ibs : W) (tick : Nat) :
    tickers (addTransactionsToMiningBlock E ops sig fuel current txs ibs tick).state.trace ≤ 1 ∧
    (∀ s : LoopState W T,
      (tickers (iteration E ops sig s).state.trace = tickers s.trace + 1 ↔
        ((s.stopped && sig.timerFired s.tick) = false ∧ sig.quit s.tick = false ∧
          sig.interrupted s.tick = true ∧ s.stopped = false)) ∧
      (tickers (iteration E ops sig s).state.trace = tickers s.trace ∨
        tickers (iteration E ops sig s).state.trace = tickers s.trace + 1)) ∧
    (∀ s : LoopState W T, s.stopped = false → sig.quit s.tick = false →
      sig.interrupted s.tick = true →
      armTicker sig s = { s with stopped := true, trace := s.trace ++ [.newTicker] } ∧
      iteration E ops sig s =
        if s.gasPool < TxGas then .done ((armTicker sig s).emit (.gasCheck s.gasPool))
        else attempt E ops ((armTicker sig s).emit (.gasCheck s.gasPool))) ∧
    (∀ (s : LoopState W T) (n : Nat), (s.stopped && sig.timerFired s.tick) = true →
      iteration E ops sig s = .done (s.emit .timerFired) ∧
      loop E ops sig (n + 1) s = .returned s.coalescedLogs (s.emit .timerFired).tickUp) ∧
    ((∀ t, sig.interrupted t = false) →
      tickers (addTransactionsToMiningBlock E ops sig fuel current txs ibs tick).state.trace = 0 ∧
      (addTransactionsToMiningBlock E ops sig fuel current txs ibs tick).state.stopped = false) ∧
    (sig.interrupt = none → ∀ t, sig.interrupted t = false) ∧
    (∀ flag, sig.interrupt = some flag → (∀ t, flag t = 0) → ∀ t, sig.interrupted t = false) := by
  refine ⟨?_, ?_, ?_, ?_, ?_, ?_, ?_⟩
  · have := loop_induction E ops sig
      (fun s => tickers s.trace = if s.stopped = true then 1 else 0) (fun s hs => ?_)
      (fun s hs => hs) fuel (initLoop current txs ibs tick) rfl
    · unfold addTransactionsToMiningBlock
      have h1 : tickers (loop E ops sig fuel (initLoop current txs ibs tick)).state.trace
          = if (loop E ops sig fuel (initLoop current txs ibs tick)).state.stopped = true
            then 1 else 0 := this
      rw [h1]
      split <;> omega
    · obtain ⟨e1, e2⟩ := iteration_tickers E ops sig s
      have hs1 : tickers s.trace = if s.stopped = true then 1 else 0 := hs
      show tickers (iteration E ops sig s).state.trace
        = if (iteration E ops sig s).state.stopped = true then 1 else 0
      rw [e1, e2, hs1]
      cases s.stopped <;> cases sig.timerFired s.tick <;> cases sig.quit s.tick <;>
        cases sig.interrupted s.tick <;> simp
  · intro s
    obtain ⟨e1, _⟩ := iteration_tickers E ops sig s
    rw [e1]
    constructor
    · constructor
      · intro h
        by_contra hn
        rw [if_neg hn] at h
        omega
      · intro h
        rw [if_pos h]
    · split
      · exact Or.inr rfl
      · exact Or.inl rfl
  · intro s hs hq hi
    have hf : (s.stopped && sig.timerFired s.tick) = false := by simp [hs]
    refine ⟨?_, ?_⟩
    · simp [armTicker, hs, hi]
    · simp only [iteration, hf, hq, Bool.false_eq_true, if_false, armTicker_gasPool]
  · intro s n h
    refine ⟨?_, ?_⟩
    · simp only [iteration, h, if_true]
    · simp only [loop, iteration, h, if_true, LoopState.emit]
  · intro hno
    have := loop_induction E ops sig
      (fun s => tickers s.trace = 0 ∧ s.stopped = false) (fun s hs => ?_)
      (fun s hs => hs) fuel (initLoop current txs ibs tick) ⟨rfl, rfl⟩
    · exact this
    · obtain ⟨e1, e2⟩ := iteration_tickers E ops sig s
      obtain ⟨hs1, hs2⟩ := hs
      show tickers (iteration E ops sig s).state.trace = 0 ∧
        (iteration E ops sig s).state.stopped = false
      rw [e1, e2, hs1, hs2, hno]
      simp
  · intro h t
    simp [Signals.interrupted, h]
  · intro flag h h0 t
    simp [Signals.interrupted, h, h0]

theorem grace_timer_witness :
    tickers (addTransactionsToMiningBlock sampleEngine TransactionsFixedOrder interruptNow 5
        (sampleBlock 100000) [sampleTx 1 0, sampleTx 2 1, sampleTx 3 2] 0 0).state.trace = 1 ∧
    (addTransactionsToMiningBlock sampleEngine TransactionsFixedOrder interruptNow 5
        (sampleBlock 100000) [sampleTx 1 0, sampleTx 2 1, sampleTx 3 2] 0 0).state.current.Txs
      = [sampleTx 1 0] ∧
    (addTransactionsToMiningBlock sampleEngine TransactionsFixedOrder interruptNow 5
        (sampleBlock 100000) [sampleTx 1 0, sampleTx 2 1, sampleTx 3 2] 0 0).err = none ∧
    tickers (addTransactionsToMiningBlock sampleEngine TransactionsFixedOrder quiet 5
        (sampleBlock 100000) [sampleTx 1 0, sampleTx 2 1, sampleTx 3 2] 0 0).state.trace = 0 :=
  ⟨by decide, by decide, by decide,
    ((grace_timer sampleEngine TransactionsFixedOrder quiet 5 (sampleBlock 100000)
      [sampleTx 1 0, sampleTx 2 1, sampleTx 3 2] 0 0).2.2.2.2.1 (fun _ => rfl)).1⟩

end grace

section order

variable {W T : Type}

theorem armTicker_filterMap {α : Type} (f : LoopEvent → Option α) (hf : f .newTicker = none)
    (sig : Signals) (s : LoopState W T) :
    (armTicker sig s).trace.filterMap f = s.trace.filterMap f := by
  rw [armTicker_trace]
  split <;> simp [List.filterMap_append, hf]

theorem beforeCommit_filterMap {α : Type} (f : LoopEvent → Option α) (hf : f .newTicker = none)
    (ops : TransactionsStream T) (sig : Signals) (s : LoopState W T) :
    (beforeCommit ops sig s).trace.filterMap f
      = s.trace.filterMap f ++
        [LoopEvent.gasCheck s.gasPool, LoopEvent.peek (ops.Peek s.txs)].filterMap f := by
  have h := armTicker_filterMap f hf sig s
  rw [show [LoopEvent.gasCheck s.gasPool, LoopEvent.peek (ops.Peek s.txs)]
      = [LoopEvent.gasCheck s.gasPool] ++ [LoopEvent.peek (ops.Peek s.txs)] from rfl]
  simp only [beforeCommit, LoopState.emit, List.filterMap_append, h, List.append_assoc]

theorem beforeCommit_succeeded (ops : TransactionsStream T) (sig : Signals) (s : LoopState W T) :
    succeeded (beforeCommit ops sig s).trace = succeeded s.trace := by
  unfold succeeded
  rw [beforeCommit_filterMap _ rfl]
  simp

theorem beforeCommit_preparedAt (ops : TransactionsStream T) (sig : Signals)
    (s : LoopState W T) : preparedAt (beforeCommit ops sig s).trace = preparedAt s.trace := by
  unfold preparedAt
  rw [beforeCommit_filterMap _ rfl]
  simp

theorem beforeCommit_yielded (ops : TransactionsStream T) (sig : Signals) (s : LoopState W T) :
    yielded (beforeCommit ops sig s).trace = yielded s.trace ++ (ops.Peek s.txs).toList := by
  unfold yielded
  rw [beforeCommit_filterMap _ rfl]
  cases ops.Peek s.txs <;> simp

/-- What one iteration does, in full: it commits the transaction `Peek`
yielded, or has it rejected, or executes nothing. -/
theorem iteration_commit (E : Engine W) (ops : TransactionsStream T) (sig : Signals)
    (s : LoopState W T) :
    (∃ txn receipt, Attempts E ops sig s txn ∧ (engineAnswer E s txn).result = .ok receipt ∧
      (iteration E ops sig s).state.current.Txs = s.current.Txs ++ [txn] ∧
      (iteration E ops sig s).state.current.Receipts = s.current.Receipts ++ [receipt] ∧
      (iteration E ops sig s).state.coalescedLogs = s.coalescedLogs ++ receipt.Logs ∧
      (iteration E ops sig s).state.tcount = s.tcount + 1 ∧
      succeeded (iteration E ops sig s).state.trace = succeeded s.trace ++ [txn] ∧
      yielded (iteration E ops sig s).state.trace = yielded s.trace ++ [txn] ∧
      preparedAt (iteration E ops sig s).state.trace = preparedAt s.trace ++ [s.tcount]) ∨
    (∃ txn err, Attempts E ops sig s txn ∧ (engineAnswer E s txn).result = .error err ∧
      (iteration E ops sig s).state.current.Txs = s.current.Txs ∧
      (iteration E ops sig s).state.current.Receipts = s.current.Receipts ∧
      (iteration E ops sig s).state.coalescedLogs = s.coalescedLogs ∧
      (iteration E ops sig s).state.tcount = s.tcount ∧
      succeeded (iteration E ops sig s).state.trace = succeeded s.trace ∧
      yielded (iteration E ops sig s).state.trace = yielded s.trace ++ [txn] ∧
      preparedAt (iteration E ops sig s).state.trace = preparedAt s.trace ++ [s.tcount]) ∨
    ((∀ txn, ¬ Attempts E ops sig s txn) ∧
      (iteration E ops sig s).state.current.Txs = s.current.Txs ∧
      (iteration E ops sig s).state.current.Receipts = s.current.Receipts ∧
      (iteration E ops sig s).state.coalescedLogs = s.coalescedLogs ∧
      (iteration E ops sig s).state.tcount = s.tcount ∧
      succeeded (iteration E ops sig s).state.trace = succeeded s.trace ∧
      (∃ l, yielded (iteration E ops sig s).state.trace = yielded s.trace ++ l) ∧
      preparedAt (iteration E ops sig s).state.trace = preparedAt s.trace) := by
  have hs1 := beforeCommit_succeeded ops sig s
  have hp1 := beforeCommit_preparedAt ops sig s
  have hy1 := beforeCommit_yielded ops sig s
  have hs0 := armTicker_filterMap (W := W) (T := T)
    (fun e => match e with | .applyTransaction txn none => some txn | _ => none) rfl sig s
  have hp0 := armTicker_filterMap (W := W) (T := T)
    (fun e => match e with | .prepare _ txIndex => some txIndex | _ => none) rfl sig s
  have hy0 := armTicker_filterMap (W := W) (T := T)
    (fun e => match e with | .peek (some txn) => some txn | _ => none) rfl sig s
  simp only [succeeded, preparedAt, yielded] at hs1 hp1 hy1
  rcases iteration_cases E ops sig s with
    ⟨g1, hi⟩ | ⟨g1, g2, hi⟩ | ⟨g1, g2, g3, hi⟩ | ⟨g1, g2, g3, g4, hi⟩ |
    ⟨txn, g1, g2, g3, g4, g5, hi⟩ | ⟨txn, hA, hi⟩
  · right; right
    refine ⟨fun t hA => (by rw [hA.1] at g1; cases g1), ?_⟩
    rw [hi]
    simp [Step.state, LoopState.emit, succeeded, preparedAt, yielded, List.filterMap_append]
  · right; right
    refine ⟨fun t hA => (by rw [hA.2.1] at g2; cases g2), ?_⟩
    rw [hi]
    simp [Step.state, LoopState.emit, succeeded, preparedAt, yielded, List.filterMap_append]
  · right; right
    refine ⟨fun t hA => absurd hA.2.2.1 (not_le.mpr g3), ?_⟩
    rw [hi]
    simp [Step.state, LoopState.emit, succeeded, preparedAt, yielded, List.filterMap_append,
      armTicker_current, armTicker_coalescedLogs, armTicker_tcount, hs0, hp0, hy0]
  · right; right
    refine ⟨fun t hA => (by rw [hA.2.2.2.1] at g4; cases g4), ?_⟩
    rw [hi]
    simp [Step.state, succeeded, preparedAt, yielded, beforeCommit_current,
      beforeCommit_coalescedLogs, beforeCommit_tcount, hs1, hp1, hy1]
  · right; right
    refine ⟨fun t hA => ?_, ?_⟩
    · obtain ⟨_, _, _, a4, a5, a6⟩ := hA
      rw [g4] at a4
      cases a4
      rcases g5 with g5 | g5
      · rw [g5] at a5; cases a5
      · rw [g5] at a6; cases a6
    · rw [hi]
      simp [Step.state, LoopState.Pop, succeeded, preparedAt, yielded, List.filterMap_append,
        beforeCommit_current, beforeCommit_coalescedLogs, beforeCommit_tcount, hs1, hp1, hy1]
  · have h4 := hA.2.2.2.1
    rcases settle_commit_cases E ops (beforeCommit ops sig s) txn with
      ⟨err, hr, hs⟩ | ⟨receipt, hr, hs⟩
    · right; left
      rw [engineAnswer_beforeCommit] at hr
      refine ⟨txn, err, hA, hr, ?_⟩
      rcases hs with hs | hs <;> rw [hi, hs] <;>
        simp [Step.state, LoopState.Pop, LoopState.Shift, rejected, succeeded, preparedAt,
          yielded, List.filterMap_append, List.filterMap_cons, beforeCommit_current,
          beforeCommit_coalescedLogs, beforeCommit_tcount, hs1, hp1, hy1, h4]
    · left
      rw [engineAnswer_beforeCommit] at hr
      refine ⟨txn, receipt, hA, hr, ?_⟩
      rw [hi, hs]
      simp [Step.state, LoopState.Shift, committed, succeeded, preparedAt,
        yielded, List.filterMap_append, List.filterMap_cons, beforeCommit_current,
        beforeCommit_coalescedLogs, beforeCommit_tcount, hs1, hp1, hy1, h4]

/-- The logs a call returns are the logs it has collected. -/
theorem loop_returned (E : Engine W) (ops : TransactionsStream T) (sig : Signals) :
    ∀ (fuel : Nat) (s s1 : LoopState W T) (logs : List Log),
      loop E ops sig fuel s = .returned logs s1 → logs = s1.coalescedLogs := by
  intro fuel
  induction fuel with
  | zero => intro s s1 logs h; simp [loop] at h
  | succ n ih =>
    intro s s1 logs h
    unfold loop at h
    cases hi : iteration E ops sig s with
    | next s2 => rw [hi] at h; exact ih _ _ _ h
    | done s2 =>
      rw [hi] at h
      cases h
      rfl
    | fail e s2 => rw [hi] at h; cases h

/-- C13: after any number of iterations and on return, the block holds the
transactions and receipts it held on entry followed by the transactions
executed with success and their receipts, in the order of execution; these
transactions are a subsequence, in order, of the transactions `Peek` yielded;
the logs collected are the logs of those receipts, concatenated in the same
order, and they are the logs the call returns. -/
theorem transactions_in_stream_order (E : Engine W) (ops : TransactionsStream T)
    (sig : Signals) (fuel : Nat) (current : MiningBlock) (txs : T) (ibs : W) (tick : Nat) :
    (∃ pairs : List (Transaction × Receipt),
      (addTransactionsToMiningBlock E ops sig fuel current txs ibs tick).state.current.Txs
        = current.Txs ++ pairs.map Prod.fst ∧
      (addTransactionsToMiningBlock E ops sig fuel current txs ibs tick).state.current.Receipts
        = current.Receipts ++ pairs.map Prod.snd ∧
      (addTransactionsToMiningBlock E ops sig fuel current txs ibs tick).state.coalescedLogs
        = (pairs.map (fun p => p.2.Logs)).flatten ∧
      pairs.map Prod.fst
        = succeeded (addTransactionsToMiningBlock E ops sig fuel current txs ibs tick).state.trace ∧
      (succeeded (addTransactionsToMiningBlock E ops sig fuel current txs ibs tick).state.trace).Sublist
        (yielded (addTransactionsToMiningBlock E ops sig fuel current txs ibs tick).state.trace)) ∧
    ∀ logs s, addTransactionsToMiningBlock E ops sig fuel current txs ibs tick = .returned logs s →
      logs = s.coalescedLogs := by
  refine ⟨?_, fun logs s h => loop_returned E ops sig fuel _ s logs h⟩
  refine loop_induction E ops sig
    (fun s => ∃ pairs : List (Transaction × Receipt),
      s.current.Txs = current.Txs ++ pairs.map Prod.fst ∧
      s.current.Receipts = current.Receipts ++ pairs.map Prod.snd ∧
      s.coalescedLogs = (pairs.map (fun p => p.2.Logs)).flatten ∧
      pairs.map Prod.fst = succeeded s.trace ∧
      (succeeded s.trace).Sublist (yielded s.trace))
    (fun s hs => ?_) (fun s hs => hs) fuel (initLoop current txs ibs tick)
    ⟨[], by simp [initLoop], by simp [initLoop], rfl, rfl, List.Sublist.refl _⟩
  obtain ⟨pairs, h1, h2, h3, h4, h5⟩ := hs
  rcases iteration_commit E ops sig s with
    ⟨txn, receipt, _, _, g1, g2, g3, _, g5, g6, _⟩ |
    ⟨txn, err, _, _, g1, g2, g3, _, g5, g6, _⟩ | ⟨_, g1, g2, g3, _, g5, ⟨l, g6⟩, _⟩
  · refine ⟨pairs ++ [(txn, receipt)], ?_, ?_, ?_, ?_, ?_⟩
    · rw [g1, h1]; simp
    · rw [g2, h2]; simp
    · rw [g3, h3]; simp
    · rw [g5, ← h4]; simp
    · rw [g5, g6]
      exact List.Sublist.append h5 (List.Sublist.refl _)
  · refine ⟨pairs, by rw [g1, h1], by rw [g2, h2], by rw [g3, h3], by rw [g5, h4], ?_⟩
    rw [g5, g6]
    exact h5.trans (List.sublist_append_left _ _)
  · refine ⟨pairs, by rw [g1, h1], by rw [g2, h2], by rw [g3, h3], by rw [g5, h4], ?_⟩
    rw [g5, g6]
    exact h5.trans (List.sublist_append_left _ _)

/-- C19: the index handed to `ibs.Prepare` is `tcount`, which is 0 when a call
starts, goes up by one with each successful execution and stays as it is
otherwise; so after any number of iterations it is the number of transactions
committed in this call, and the block holds that many more transactions than
on entry: the index is the position in the block exactly when the block was
empty on entry. -/
theorem prepare_index_counts_commits (E : Engine W) (ops : TransactionsStream T)
    (sig : Signals) (fuel : Nat) (current : MiningBlock) (txs : T) (ibs : W) (tick : Nat) :
    (initLoop current txs ibs tick : LoopState W T).tcount = 0 ∧
    (∀ s : LoopState W T,
      (∃ txn receipt, Attempts E ops sig s txn ∧ (engineAnswer E s txn).result = .ok receipt ∧
        preparedAt (iteration E ops sig s).state.trace = preparedAt s.trace ++ [s.tcount] ∧
        (iteration E ops sig s).state.tcount = s.tcount + 1) ∨
      (∃ txn err, Attempts E ops sig s txn ∧ (engineAnswer E s txn).result = .error err ∧
        preparedAt (iteration E ops sig s).state.trace = preparedAt s.trace ++ [s.tcount] ∧
        (iteration E ops sig s).state.tcount = s.tcount) ∨
      ((∀ txn, ¬ Attempts E ops sig s txn) ∧
        preparedAt (iteration E ops sig s).state.trace = preparedAt s.trace ∧
        (iteration E ops sig s).state.tcount = s.tcount)) ∧
    (addTransactionsToMiningBlock E ops sig fuel current txs ibs tick).state.tcount
      = (succeeded
          (addTransactionsToMiningBlock E ops sig fuel current txs ibs tick).state.trace).length ∧
    (addTransactionsToMiningBlock E ops sig fuel current txs ibs tick).state.current.Txs.length
      = current.Txs.length +
        (addTransactionsToMiningBlock E ops sig fuel current txs ibs tick).state.tcount ∧
    ((addTransactionsToMiningBlock E ops sig fuel current txs ibs tick).state.tcount
        = (addTransactionsToMiningBlock E ops sig fuel current txs ibs tick).state.current.Txs.length
      ↔ current.Txs = []) := by
  have hinv := loop_induction E ops sig
    (fun s => s.tcount = (succeeded s.trace).length ∧
      s.current.Txs.length = current.Txs.length + s.tcount)
    (fun s hs => ?_) (fun s hs => hs) fuel (initLoop current txs ibs tick) ⟨rfl, rfl⟩
  · refine ⟨rfl, fun s => ?_, hinv.1, hinv.2, ?_⟩
    · rcases iteration_commit E ops sig s with
        ⟨txn, receipt, a1, a2, _, _, _, g4, _, _, g7⟩ |
        ⟨txn, err, a1, a2, _, _, _, g4, _, _, g7⟩ | ⟨a1, _, _, _, g4, _, _, g7⟩
      · exact Or.inl ⟨txn, receipt, a1, a2, g7, g4⟩
      · exact Or.inr (Or.inl ⟨txn, err, a1, a2, g7, g4⟩)
      · exact Or.inr (Or.inr ⟨a1, g7, g4⟩)
    · have h2 := hinv.2
      unfold addTransactionsToMiningBlock
      constructor
      · intro h
        have : current.Txs.length = 0 := by omega
        exact List.length_eq_zero.mp this
      · intro h
        rw [h] at h2
        simp only [List.length_nil] at h2
        omega
  · obtain ⟨h1, h2⟩ := hs
    rcases iteration_commit E ops sig s with
      ⟨txn, receipt, _, _, g1, _, _, g4, g5, _, _⟩ |
      ⟨txn, err, _, _, g1, _, _, g4, g5, _, _⟩ | ⟨_, g1, _, _, g4, g5, _, _⟩
    · refine ⟨?_, ?_⟩
      · show (iteration E ops sig s).state.tcount
          = (succeeded (iteration E ops sig s).state.trace).length
        rw [g4, g5, h1]; simp
      · show (iteration E ops sig s).state.current.Txs.length
          = current.Txs.length + (iteration E ops sig s).state.tcount
        rw [g1, g4]; simp; omega
    · refine ⟨?_, ?_⟩
      · show (iteration E ops sig s).state.tcount
          = (succeeded (iteration E ops sig s).state.trace).length
        rw [g4, g5, h1]
      · show (iteration E ops sig s).state.current.Txs.length
          = current.Txs.length + (iteration E ops sig s).state.tcount
        rw [g1, g4]; exact h2
    · refine ⟨?_, ?_⟩
      · show (iteration E ops sig s).state.tcount
          = (succeeded (iteration E ops sig s).state.trace).length
        rw [g4, g5, h1]
      · show (iteration E ops sig s).state.current.Txs.length
          = current.Txs.length + (iteration E ops sig s).state.tcount
        rw [g1, g4]; exact h2

theorem prepare_index_counts_commits_witness :
    (applied (SpawnMiningExecStage (sampleCfg [.ok [[1, 0], [2, 1]], .ok [[3, 2]]] none) quiet 5
        (sampleWorld 100000)).state.trace).map preparedAt = [[0, 1], [0]] ∧
    (SpawnMiningExecStage (sampleCfg [.ok [[1, 0], [2, 1]], .ok [[3, 2]]] none) quiet 5
        (sampleWorld 100000)).state.current.Txs = [sampleTx 1 0, sampleTx 2 1, sampleTx 3 2] ∧
    (addTransactionsToMiningBlock sampleEngine TransactionsFixedOrder quiet 5
        (sampleBlock 100000) [sampleTx 1 0, sampleTx 2 1] 0 0).state.tcount
      = (succeeded (addTransactionsToMiningBlock sampleEngine TransactionsFixedOrder quiet 5
          (sampleBlock 100000) [sampleTx 1 0, sampleTx 2 1] 0 0).state.trace).length :=
  ⟨by decide, by decide,
    (prepare_index_counts_commits sampleEngine TransactionsFixedOrder quiet 5
      (sampleBlock 100000) [sampleTx 1 0, sampleTx 2 1] 0 0).2.2.1⟩

theorem transactions_in_stream_order_witness :
    (addTransactionsToMiningBlock sampleEngine TransactionsFixedOrder quiet 5 (sampleBlock 100000)
        [sampleTx 1 0, sampleTx 666 1, sampleTx 2 1] 0 0).state.current.Txs
      = [sampleTx 1 0, sampleTx 2 1] ∧
    yielded (addTransactionsToMiningBlock sampleEngine TransactionsFixedOrder quiet 5
        (sampleBlock 100000) [sampleTx 1 0, sampleTx 666 1, sampleTx 2 1] 0 0).state.trace
      = [sampleTx 1 0, sampleTx 666 1, sampleTx 2 1] ∧
    ∀ logs s, addTransactionsToMiningBlock sampleEngine TransactionsFixedOrder quiet 5
        (sampleBlock 100000) [sampleTx 1 0, sampleTx 666 1, sampleTx 2 1] 0 0
      = .returned logs s → logs = s.coalescedLogs :=
  ⟨by decide, by decide,
    (transactions_in_stream_order sampleEngine TransactionsFixedOrder quiet 5 (sampleBlock 100000)
      [sampleTx 1 0, sampleTx 666 1, sampleTx 2 1] 0 0).2⟩

end order

section notification

variable {W P S F : Type}

/-- C15: `NotifyPendingLogs` sends one `OnNewPendingLogs` event carrying the
given logs exactly when the list is not empty and the notifier is not nil,
and nothing otherwise; with an empty list the result does not depend on the
notifier. -/
theorem notify_pending_logs (notifier : Option Nat) (logs : List Log) :
    (NotifyPendingLogs notifier logs = [.onNewPendingLogs logs] ↔
      logs ≠ [] ∧ notifier ≠ none) ∧
    (¬ (logs ≠ [] ∧ notifier ≠ none) → NotifyPendingLogs notifier logs = []) ∧
    notifications (NotifyPendingLogs notifier logs)
      = (if logs ≠ [] ∧ notifier ≠ none then 1 else 0) ∧
    (NotifyPendingLogs notifier logs).length = notifications (NotifyPendingLogs notifier logs) ∧
    (∀ other : Option Nat, NotifyPendingLogs other [] = []) := by
  cases logs with
  | nil =>
    refine ⟨?_, ?_, ?_, ?_, ?_⟩ <;> simp [NotifyPendingLogs, notifications]
  | cons a l =>
    cases notifier with
    | none =>
      refine ⟨?_, ?_, ?_, ?_, ?_⟩ <;> simp [NotifyPendingLogs, notifications]
    | some n =>
      refine ⟨?_, ?_, ?_, ?_, ?_⟩ <;> simp [NotifyPendingLogs, notifications, isNotification]

theorem notify_pending_logs_witness :
    NotifyPendingLogs (some 0) [3, 4] = [.onNewPendingLogs [3, 4]] ∧
    NotifyPendingLogs none [3, 4] = [] ∧ NotifyPendingLogs (some 0) [] = [] :=
  ⟨(notify_pending_logs (some 0) [3, 4]).1.2 ⟨by decide, by decide⟩, by decide, by decide⟩

/-- The polling loop logs entries of the application phase only. -/
theorem pollLoop_phase (cfg : MiningExecCfg W P S F) (header : Header)
    (amount executionAt : Nat) :
    ∀ (fuel : Nat) (st : PollState P),
      ∃ l, (pollLoop cfg header amount executionAt fuel st).state.trace = st.trace ++ l ∧
        ∀ e ∈ l, isApplicationPhase e = true := by
  intro fuel
  induction fuel with
  | zero => intro st; exact ⟨[], by simp [pollLoop, Outcome.state], by simp⟩
  | succ n ih =>
    intro st
    unfold pollLoop
    split
    · rcases hy : cfg.YieldBest st.pool amount st.txSlots executionAt
          (subU64 header.GasLimit header.GasUsed) with ⟨pool1, slots1, r⟩
      simp only [hy]
      cases r with
      | error err =>
        exact ⟨[.yieldBest amount (subU64 header.GasLimit header.GasUsed)], rfl,
          by simp [isApplicationPhase]⟩
      | ok onTime =>
        obtain ⟨l, hl, h1⟩ := ih
          { pool := pool1, txSlots := slots1, onTime := onTime, counter := st.counter + 1
            trace := st.trace ++ [.yieldBest amount (subU64 header.GasLimit header.GasUsed)] }
        refine ⟨.yieldBest amount (subU64 header.GasLimit header.GasUsed) :: l, ?_, ?_⟩
        · simp only [hl, List.append_assoc, List.singleton_append]
        · intro e he
          rcases List.mem_cons.mp he with he | he
          · rw [he]; rfl
          · exact h1 e he
    · exact ⟨[], by simp [Outcome.state], by simp⟩

/-- A call of `getNextTransactions` logs entries of the application phase
only. -/
theorem getNextTransactions_phase (cfg : MiningExecCfg W P S F) (header : Header)
    (amount executionAt : Nat) (pool : P) :
    ∀ e ∈ (getNextTransactions cfg header amount executionAt pool).2.2,
      isApplicationPhase e = true := by
  obtain ⟨l, hl, h1⟩ := pollLoop_phase cfg header amount executionAt 1001 (pollStart pool)
  have hl1 : (pollLoop cfg header amount executionAt 1001 (pollStart pool)).state.trace
      = [StageEvent.getNextTransactions] ++ l := hl
  rw [getNextTransactions_trace, hl1]
  intro e he
  rcases List.mem_append.mp he with he | he
  · rw [List.mem_singleton.mp he]; rfl
  · exact h1 e he

/-- The fetch/apply cycle logs entries of the application phase only. -/
theorem fetchApplyCycle_phase (cfg : MiningExecCfg W P S F) (sig : Signals)
    (fuel executionAt : Nat) :
    ∀ (budget ks : Nat) (cum : List Log) (w : World W P S),
      ∃ l, (fetchApplyCycle cfg sig fuel executionAt budget ks cum w).state.trace
          = w.trace ++ l ∧ ∀ e ∈ l, isApplicationPhase e = true := by
  intro budget
  induction budget with
  | zero => intro ks cum w; exact ⟨[], by simp [fetchApplyCycle, Outcome.state], by simp⟩
  | succ n ih =>
    intro ks cum w
    have hg := getNextTransactions_phase cfg w.current.Header 50 executionAt w.pool
    have hfe : (w.fetched cfg executionAt).trace
        = w.trace ++ (getNextTransactions cfg w.current.Header 50 executionAt w.pool).2.2 := rfl
    have hafter : ∀ s : LoopState W F, ∃ l, ((w.fetched cfg executionAt).after s).trace
        = w.trace ++ l ∧ ∀ e ∈ l, isApplicationPhase e = true := by
      intro s
      refine ⟨(getNextTransactions cfg w.current.Header 50 executionAt w.pool).2.2
        ++ [.addTransactionsToMiningBlock s.trace], ?_, ?_⟩
      · simp only [World.after, hfe, List.append_assoc]
      · intro e he
        rcases List.mem_append.mp he with he | he
        · exact hg e he
        · rw [List.mem_singleton.mp he]; rfl
    rcases fetchApplyCycle_cases cfg sig fuel executionAt n ks cum w with
      ⟨err, _, hc⟩ | ⟨batch, _, _, hc⟩ |
      ⟨batch, _, _, ⟨err, s, hin, hc⟩ | ⟨s, hin, hc⟩ | ⟨logs, s, hin, _, hc⟩ |
        ⟨logs, s, hin, _, hc⟩⟩
    · rw [hc]; exact ⟨_, hfe, hg⟩
    · rw [hc]; exact ⟨_, hfe, hg⟩
    · rw [hc]; exact hafter s
    · rw [hc]; exact hafter s
    · rw [hc]; exact hafter s
    · rw [hc]
      obtain ⟨l1, h1, p1⟩ := hafter s
      obtain ⟨l2, h2, p2⟩ := ih (ks + 1) (cum ++ logs) ((w.fetched cfg executionAt).after s)
      refine ⟨l1 ++ l2, by rw [h2, h1, List.append_assoc], ?_⟩
      intro e he
      rcases List.mem_append.mp he with he | he
      · exact p1 e he
      · exact p2 e he

/-- The application phase logs entries of the application phase only: no
notification, no finalization. -/
theorem applyTransactions_phase (cfg : MiningExecCfg W P S F) (sig : Signals)
    (fuel executionAt : Nat) (w : World W P S) :
    ∃ l, (applyTransactions cfg sig fuel executionAt w).state.trace = w.trace ++ l ∧
      ∀ e ∈ l, isApplicationPhase e = true := by
  unfold applyTransactions
  cases hp : preparedBatch cfg w with
  | some p =>
    simp only
    cases hin : addTransactionsToMiningBlock cfg.engine cfg.preparedOps sig fuel w.current p
        w.ibs w.tick <;>
      exact ⟨[.addTransactionsToMiningBlock _], rfl, by simp [isApplicationPhase]⟩
  | none => exact fetchApplyCycle_phase cfg sig fuel executionAt 1000 0 [] w

/-- The log of the closing part of the stage: the notification, then the
finalizer, then the progress write if the finalizer succeeded. -/
theorem finishBlock_trace (cfg : MiningExecCfg W P S F) (cumLogs : List Log) (w : World W P S) :
    (finishBlock cfg cumLogs w).state.trace
      = w.trace ++ NotifyPendingLogs cfg.notifier cumLogs ++ [.finalizeBlockExecution] ++
        (match (cfg.FinalizeBlockExecution w.ibs w.current.Header w.current.Txs
            w.current.Receipts).err with
          | some _ => []
          | none => [.saveStageProgress (cfg.FinalizeBlockExecution w.ibs w.current.Header
              w.current.Txs w.current.Receipts).Header.Number]) ∧
    ((finishBlock cfg cumLogs w).err = none →
      (cfg.FinalizeBlockExecution w.ibs w.current.Header w.current.Txs
        w.current.Receipts).err = none) := by
  unfold finishBlock
  simp only
  cases he : (cfg.FinalizeBlockExecution w.ibs w.current.Header w.current.Txs
      w.current.Receipts).err with
  | some err =>
    simp [Outcome.state, Outcome.err]
  | none =>
    simp only
    split <;> simp [Outcome.state, Outcome.err]

/-- C16, counterexample: a run whose finalization fails has sent its
pending-logs event all the same, right before the call of the finalizer. -/
theorem notification_sent_though_finalization_fails :
    (SpawnMiningExecStage (sampleCfg [.ok [[1, 0]]] (some (.other 7))) quiet 5
        (sampleWorld 100000)).err = some (.other 7) ∧
    notifications (SpawnMiningExecStage (sampleCfg [.ok [[1, 0]]] (some (.other 7))) quiet 5
        (sampleWorld 100000)).state.trace = 1 ∧
    (SpawnMiningExecStage (sampleCfg [.ok [[1, 0]]] (some (.other 7))) quiet 5
        (sampleWorld 100000)).state.trace.reverse.take 2
      = [.finalizeBlockExecution, .onNewPendingLogs [1]] := by
  refine ⟨by decide, by decide, by decide⟩

/-- C16, amended: when the application phase has returned its logs, the stage
log continues with the events of `NotifyPendingLogs` for those logs, then the
one call of the finalizer, then the progress write if the finalizer
succeeded; the application phase itself logs fetches, pool calls and
applications only. When the application phase or `s.ExecutionAt` fails,
neither a notification nor a call of the finalizer follows. -/
theorem notification_precedes_finalization (cfg : MiningExecCfg W P S F) (sig : Signals)
    (fuel : Nat) (w : World W P S) :
    (∀ executionAt logs w1, cfg.ExecutionAt = .ok executionAt →
      applyTransactions cfg sig fuel executionAt (w.upgraded cfg) = .returned logs w1 →
      ∃ l rest,
        (SpawnMiningExecStage cfg sig fuel w).state.trace
          = w.trace ++ l ++ NotifyPendingLogs cfg.notifier logs ++ [.finalizeBlockExecution]
            ++ rest ∧
        (∀ e ∈ l, isApplicationPhase e = true) ∧
        (rest = [] ∨ ∃ n, rest = [.saveStageProgress n]) ∧
        ((SpawnMiningExecStage cfg sig fuel w).err = none → ∃ n, rest = [.saveStageProgress n]) ∧
        finalizations (SpawnMiningExecStage cfg sig fuel w).state.trace
          = finalizations w.trace + 1) ∧
    (∀ executionAt, cfg.ExecutionAt = .ok executionAt →
      (∀ logs w1, applyTransactions cfg sig fuel executionAt (w.upgraded cfg)
        ≠ .returned logs w1) →
      ∃ l, (SpawnMiningExecStage cfg sig fuel w).state.trace = w.trace ++ l ∧
        ∀ e ∈ l, isApplicationPhase e = true) ∧
    (∀ err, cfg.ExecutionAt = .error err →
      (SpawnMiningExecStage cfg sig fuel w).state.trace = w.trace) := by
  refine ⟨?_, ?_, ?_⟩
  · intro ea logs w1 he ha
    have hs : SpawnMiningExecStage cfg sig fuel w = finishBlock cfg logs w1 := by
      rw [SpawnMiningExecStage_eq]
      simp only [he, ha]
    obtain ⟨l, hl, hp⟩ := applyTransactions_phase cfg sig fuel ea (w.upgraded cfg)
    rw [ha] at hl
    have hl1 : w1.trace = w.trace ++ l := hl
    obtain ⟨ht, hok⟩ := finishBlock_trace cfg logs w1
    refine ⟨l,
      (match (cfg.FinalizeBlockExecution w1.ibs w1.current.Header w1.current.Txs
          w1.current.Receipts).err with
        | some _ => []
        | none => [.saveStageProgress (cfg.FinalizeBlockExecution w1.ibs w1.current.Header
            w1.current.Txs w1.current.Receipts).Header.Number]), ?_, hp, ?_, ?_, ?_⟩
    · rw [hs, ht, hl1]
    · cases (cfg.FinalizeBlockExecution w1.ibs w1.current.Header w1.current.Txs
          w1.current.Receipts).err with
      | some e => exact Or.inl rfl
      | none => exact Or.inr ⟨_, rfl⟩
    · intro hn
      rw [hs] at hn
      have := hok hn
      rw [this]
      exact ⟨_, rfl⟩
    · rw [hs, (finishBlock_facts cfg logs w1).1]
      have := applyTransactions_finalizations cfg sig fuel ea (w.upgraded cfg)
      rw [ha] at this
      simp only [Outcome.state] at this
      rw [this]
      rfl
  · intro ea he hn
    obtain ⟨l, hl, hp⟩ := applyTransactions_phase cfg sig fuel ea (w.upgraded cfg)
    refine ⟨l, ?_, hp⟩
    rw [SpawnMiningExecStage_eq]
    simp only [he]
    cases ha : applyTransactions cfg sig fuel ea (w.upgraded cfg) with
    | returned logs w1 => exact absurd ha (hn logs w1)
    | failed err w1 =>
      rw [ha] at hl
      exact hl
    | running w1 =>
      rw [ha] at hl
      exact hl
  · intro err he
    rw [SpawnMiningExecStage_eq]
    simp only [he]
    rfl

theorem notification_precedes_finalization_witness :
    (SpawnMiningExecStage (sampleCfg [.ok [[1, 0]]] none) quiet 5
        (sampleWorld 100000)).state.trace.reverse.take 3
      = [.saveStageProgress 10, .finalizeBlockExecution, .onNewPendingLogs [1]] ∧
    finalizations (SpawnMiningExecStage (sampleCfg [.ok [[1, 0]]] none) quiet 5
        (sampleWorld 100000)).state.trace
      = finalizations (sampleWorld 100000).trace + 1 :=
  ⟨by decide,
    by
      obtain ⟨l, rest, _, _, _, _, h⟩ :=
        (notification_precedes_finalization (sampleCfg [.ok [[1, 0]]] none) quiet 5
          (sampleWorld 100000)).1 9 [1]
          (applyTransactions (sampleCfg [.ok [[1, 0]]] none) quiet 5 9
            ((sampleWorld 100000).upgraded (sampleCfg [.ok [[1, 0]]] none))).state rfl rfl
      exact h⟩

end notification

section fetching

variable {W P S F : Type}

/-- How `getNextTransactions` goes on after its polling loop. -/
theorem getNextTransactions_eq (cfg : MiningExecCfg W P S F) (header : Header)
    (amount executionAt : Nat) (pool : P) :
    (∀ err st, pollLoop cfg header amount executionAt 1001 (pollStart pool) = .failed err st →
      getNextTransactions cfg header amount executionAt pool
        = (.error err, st.pool, st.trace)) ∧
    (∀ st, pollLoop cfg header amount executionAt 1001 (pollStart pool) = .returned () st →
      (∀ err, decodeSlots cfg st.txSlots.Senders 0 st.txSlots.Txs [] = .error err →
        getNextTransactions cfg header amount executionAt pool
          = (.error err, st.pool, st.trace)) ∧
      (∀ txs, decodeSlots cfg st.txSlots.Senders 0 st.txSlots.Txs [] = .ok txs →
        getNextTransactions cfg header amount executionAt pool
          = ((cfg.filterBadTransactions st.pool txs (executionAt + 1) header.BaseFee).2.map
                cfg.NewTransactionsFixedOrder,
              (cfg.filterBadTransactions st.pool txs (executionAt + 1) header.BaseFee).1,
              st.trace))) := by
  refine ⟨fun err st h => ?_, fun st h => ⟨fun err hd => ?_, fun txs hd => ?_⟩⟩
  · unfold getNextTransactions
    rw [h]
  · unfold getNextTransactions
    rw [h]
    simp only [hd]
  · unfold getNextTransactions
    rw [h]
    simp only [hd]
    rcases cfg.filterBadTransactions st.pool txs (executionAt + 1) header.BaseFee with
      ⟨pool1, r1⟩
    cases r1 <;> rfl

/-- The polling loop, counted: from `st` it makes `n` calls of `YieldBest`,
each with the requested amount and the remaining gas of the header, at most
`1000 - counter` of them and at least one if it starts at all; when it has
ended without an error the counter has gone up by `n`, and the pool has
reported completion or the counter has reached 1000; when it is still running
every unit of fuel went into a call. -/
theorem pollLoop_calls (cfg : MiningExecCfg W P S F) (header : Header)
    (amount executionAt : Nat) :
    ∀ (fuel : Nat) (st : PollState P),
      ∃ n, (pollLoop cfg header amount executionAt fuel st).state.trace
          = st.trace ++ List.replicate n
              (.yieldBest amount (subU64 header.GasLimit header.GasUsed)) ∧
        n ≤ 1000 - st.counter ∧
        (st.onTime = false → st.counter < 1000 → 0 < fuel → 1 ≤ n) ∧
        (∀ st1, pollLoop cfg header amount executionAt fuel st = .returned () st1 →
          st1.counter = st.counter + n ∧ (st1.onTime = true ∨ 1000 ≤ st1.counter)) ∧
        (∀ st1, pollLoop cfg header amount executionAt fuel st = .running st1 → n = fuel) := by
  intro fuel
  induction fuel with
  | zero =>
    intro st
    exact ⟨0, by simp [pollLoop, Outcome.state], Nat.zero_le _,
      fun _ _ h => absurd h (lt_irrefl _), fun st1 h => by simp [pollLoop] at h,
      fun _ _ => rfl⟩
  | succ k ih =>
    intro st
    by_cases hc : (!st.onTime && decide (st.counter < 1000)) = true
    · have hlt : st.counter < 1000 := by
        simp only [Bool.and_eq_true, decide_eq_true_eq] at hc
        exact hc.2
      rcases hy : cfg.YieldBest st.pool amount st.txSlots executionAt
          (subU64 header.GasLimit header.GasUsed) with ⟨pool1, slots1, r⟩
      cases r with
      | error err =>
        have he : pollLoop cfg header amount executionAt (k + 1) st
            = .failed err { st with
                pool := pool1, txSlots := slots1
                trace := st.trace ++
                  [.yieldBest amount (subU64 header.GasLimit header.GasUsed)] } := by
          simp only [pollLoop, hc, if_true, hy]
        rw [he]
        refine ⟨1, rfl, by omega, fun _ _ _ => le_refl _, fun st1 h => ?_, fun st1 h => ?_⟩
        · cases h
        · cases h
      | ok onTime =>
        have he : pollLoop cfg header amount executionAt (k + 1) st
            = pollLoop cfg header amount executionAt k
                { pool := pool1, txSlots := slots1, onTime := onTime, counter := st.counter + 1
                  trace := st.trace ++
                    [.yieldBest amount (subU64 header.GasLimit header.GasUsed)] } := by
          simp only [pollLoop, hc, if_true, hy]
        rw [he]
        obtain ⟨m, h1, h3, _, h5, h6⟩ := ih
          { pool := pool1, txSlots := slots1, onTime := onTime, counter := st.counter + 1
            trace := st.trace ++ [.yieldBest amount (subU64 header.GasLimit header.GasUsed)] }
        simp only at h1 h3 h5
        refine ⟨m + 1, ?_, by omega, fun _ _ _ => by omega, fun st1 h => ?_, fun st1 h => ?_⟩
        · rw [h1, List.replicate_succ, List.append_assoc, List.singleton_append]
        · obtain ⟨g1, g2⟩ := h5 st1 h
          exact ⟨by omega, g2⟩
        · have := h6 st1 h
          omega
    · have he : pollLoop cfg header amount executionAt (k + 1) st = .returned () st := by
        simp only [pollLoop, hc, Bool.false_eq_true, if_false]
      rw [he]
      refine ⟨0, by simp [Outcome.state], by omega, fun h1 h2 _ => ?_, fun st1 h => ?_,
        fun st1 h => by cases h⟩
      · exfalso
        apply hc
        simp [h1, h2]
      · cases h
        refine ⟨rfl, ?_⟩
        by_cases ho : st.onTime = true
        · exact Or.inl ho
        · right
          by_contra hlt
          apply hc
          have : st.onTime = false := by simpa using ho
          simp only [this, Bool.not_false, Bool.true_and, decide_eq_true_eq]
          omega

/-- The polling loop ends: with more fuel than `1000 - counter` it is not left
running. The fuel 1001 of `getNextTransactions` is such. -/
theorem pollLoop_ends (cfg : MiningExecCfg W P S F) (header : Header)
    (amount executionAt fuel : Nat) (st : PollState P) (h : 1000 - st.counter < fuel) :
    ∀ st1, pollLoop cfg header amount executionAt fuel st ≠ .running st1 := by
  intro st1 hr
  obtain ⟨n, _, h2, _, _, h5⟩ := pollLoop_calls cfg header amount executionAt fuel st
  have := h5 st1 hr
  omega

/-- Once the pool has reported completion, or the counter has reached 1000,
the polling loop makes no further call. -/
theorem pollLoop_exit (cfg : MiningExecCfg W P S F) (header : Header)
    (amount executionAt fuel : Nat) (st : PollState P)
    (h : st.onTime = true ∨ 1000 ≤ st.counter) :
    pollLoop cfg header amount executionAt (fuel + 1) st = .returned () st := by
  have hc : (!st.onTime && decide (st.counter < 1000)) = false := by
    rcases h with h | h
    · simp [h]
    · simp only [Bool.and_eq_false_imp, decide_eq_false_iff_not]
      intro _
      omega
  simp only [pollLoop, hc, Bool.false_eq_true, if_false]

/-- The pool of `slowCfg` never ends the polling loop: no call fails and none
reports completion. -/
theorem slowCfg_polls (header : Header) (amount executionAt : Nat) :
    ∀ (fuel : Nat) (st : PollState Nat), st.onTime = false →
      (pollLoop slowCfg header amount executionAt fuel st).state.onTime = false ∧
      ∀ err st1, pollLoop slowCfg header amount executionAt fuel st ≠ .failed err st1 := by
  intro fuel
  induction fuel with
  | zero =>
    intro st h
    exact ⟨by simpa [pollLoop, Outcome.state] using h, fun err st1 hf => by simp [pollLoop] at hf⟩
  | succ k ih =>
    intro st h
    by_cases hc : (!st.onTime && decide (st.counter < 1000)) = true
    · have he : pollLoop slowCfg header amount executionAt (k + 1) st
          = pollLoop slowCfg header amount executionAt k
              { pool := st.pool + 1, txSlots := st.txSlots, onTime := false
                counter := st.counter + 1
                trace := st.trace ++
                  [.yieldBest amount (subU64 header.GasLimit header.GasUsed)] } := by
        simp only [pollLoop, hc, if_true, slowCfg]
      rw [he]
      exact ih _ rfl
    · have he : pollLoop slowCfg header amount executionAt (k + 1) st = .returned () st := by
        simp only [pollLoop, hc, Bool.false_eq_true, if_false]
      rw [he]
      exact ⟨h, fun err st1 hf => by cases hf⟩

/-- C17: the polling loop of `getNextTransactions` makes at least one and at
most 1000 calls of `YieldBest`, whatever the pool answers and however much
fuel the loop is given, each with the requested amount and the remaining gas
`header.GasLimit - header.GasUsed`; with fuel above 1000 it is never left
running, and so the loop inside `getNextTransactions` ends; when it has ended
without an error the pool has reported completion or exactly 1000 calls were
made; a call that fails ends the loop with its error and the fetch returns
it; a call that reports completion ends the loop; any other call is followed
by the next test of the condition, which ends the loop once the counter is at
1000; and after the loop the fetch decodes the slots the last call left. -/
theorem polling_loop_bounded (cfg : MiningExecCfg W P S F) (header : Header)
    (amount executionAt : Nat) (pool : P) :
    (∀ fuel, ∃ n,
      (pollLoop cfg header amount executionAt fuel (pollStart pool)).state.trace
        = .getNextTransactions ::
          List.replicate n (.yieldBest amount (subU64 header.GasLimit header.GasUsed)) ∧
      n ≤ 1000 ∧ (0 < fuel → 1 ≤ n) ∧
      (∀ st, pollLoop cfg header amount executionAt fuel (pollStart pool) = .returned () st →
        st.counter = n ∧ (st.onTime = true ∨ n = 1000)) ∧
      (∀ st, pollLoop cfg header amount executionAt fuel (pollStart pool) = .running st →
        n = fuel) ∧
      (1000 < fuel →
        ∀ st, pollLoop cfg header amount executionAt fuel (pollStart pool) ≠ .running st)) ∧
    (∃ n, (getNextTransactions cfg header amount executionAt pool).2.2
        = .getNextTransactions ::
          List.replicate n (.yieldBest amount (subU64 header.GasLimit header.GasUsed)) ∧
      1 ≤ n ∧ n ≤ 1000) ∧
    (∀ st, pollLoop cfg header amount executionAt 1001 (pollStart pool) ≠ .running st) ∧
    (header.GasUsed ≤ header.GasLimit → header.GasLimit < u64 →
      subU64 header.GasLimit header.GasUsed = header.GasLimit - header.GasUsed) ∧
    (∀ (k : Nat) (st : PollState P) (pool1 : P) (slots1 : TxsRlp),
      st.onTime = false → st.counter < 1000 →
      (∀ err, cfg.YieldBest st.pool amount st.txSlots executionAt
          (subU64 header.GasLimit header.GasUsed) = (pool1, slots1, .error err) →
        pollLoop cfg header amount executionAt (k + 1) st
          = .failed err { st with
              pool := pool1, txSlots := slots1
              trace := st.trace ++
                [.yieldBest amount (subU64 header.GasLimit header.GasUsed)] }) ∧
      (cfg.YieldBest st.pool amount st.txSlots executionAt
          (subU64 header.GasLimit header.GasUsed) = (pool1, slots1, .ok true) →
        pollLoop cfg header amount executionAt (k + 2) st
          = .returned () { pool := pool1, txSlots := slots1, onTime := true
                           counter := st.counter + 1
                           trace := st.trace ++
                             [.yieldBest amount (subU64 header.GasLimit header.GasUsed)] }) ∧
      (cfg.YieldBest st.pool amount st.txSlots executionAt
          (subU64 header.GasLimit header.GasUsed) = (pool1, slots1, .ok false) →
        pollLoop cfg header amount executionAt (k + 1) st
          = pollLoop cfg header amount executionAt k
              { pool := pool1, txSlots := slots1, onTime := false, counter := st.counter + 1
                trace := st.trace ++
                  [.yieldBest amount (subU64 header.GasLimit header.GasUsed)] })) ∧
    (∀ (k : Nat) (st : PollState P), st.onTime = true ∨ 1000 ≤ st.counter →
      pollLoop cfg header amount executionAt (k + 1) st = .returned () st) ∧
    (∀ err st, pollLoop cfg header amount executionAt 1001 (pollStart pool) = .failed err st →
      getNextTransactions cfg header amount executionAt pool
        = (.error err, st.pool, st.trace)) ∧
    (∀ st, pollLoop cfg header amount executionAt 1001 (pollStart pool) = .returned () st →
      ∀ txs, decodeSlots cfg st.txSlots.Senders 0 st.txSlots.Txs [] = .ok txs →
        getNextTransactions cfg header amount executionAt pool
          = ((cfg.filterBadTransactions st.pool txs (executionAt + 1) header.BaseFee).2.map
                cfg.NewTransactionsFixedOrder,
              (cfg.filterBadTransactions st.pool txs (executionAt + 1) header.BaseFee).1,
              st.trace)) := by
  have hcount : ∀ fuel, ∃ n,
      (pollLoop cfg header amount executionAt fuel (pollStart pool)).state.trace
        = .getNextTransactions ::
          List.replicate n (.yieldBest amount (subU64 header.GasLimit header.GasUsed)) ∧
      n ≤ 1000 ∧ (0 < fuel → 1 ≤ n) ∧
      (∀ st, pollLoop cfg header amount executionAt fuel (pollStart pool) = .returned () st →
        st.counter = n ∧ (st.onTime = true ∨ n = 1000)) ∧
      (∀ st, pollLoop cfg header amount executionAt fuel (pollStart pool) = .running st →
        n = fuel) ∧
      (1000 < fuel →
        ∀ st, pollLoop cfg header amount executionAt fuel (pollStart pool) ≠ .running st) := by
    intro fuel
    obtain ⟨n, h1, h2, h3, h4, h5⟩ :=
      pollLoop_calls cfg header amount executionAt fuel (pollStart pool)
    have hn : n ≤ 1000 := by
      have : (pollStart pool).counter = 0 := rfl
      omega
    refine ⟨n, ?_, hn, fun hf => h3 rfl (by simp [pollStart]) hf, fun st h => ?_, h5,
      fun hf st h => ?_⟩
    · rw [h1]; rfl
    · obtain ⟨g1, g2⟩ := h4 st h
      have g1' : st.counter = n := by
        rw [g1]
        simp [pollStart]
      refine ⟨g1', ?_⟩
      rcases g2 with g2 | g2
      · exact Or.inl g2
      · right; omega
    · have := h5 st h
      omega
  refine ⟨hcount, ?_,
    pollLoop_ends cfg header amount executionAt 1001 (pollStart pool) (by simp [pollStart]),
    fun h1 h2 => subU64_of_le _ _ h1 h2, ?_,
    fun k st h => pollLoop_exit cfg header amount executionAt k st h,
    (getNextTransactions_eq cfg header amount executionAt pool).1,
    fun st h => ((getNextTransactions_eq cfg header amount executionAt pool).2 st h).2⟩
  · obtain ⟨n, h1, h2, h3, _, _, _⟩ := hcount 1001
    exact ⟨n, by rw [getNextTransactions_trace, h1], h3 (by omega), h2⟩
  · intro k st pool1 slots1 ho hc
    have hcond : (!st.onTime && decide (st.counter < 1000)) = true := by simp [ho, hc]
    refine ⟨fun err hy => ?_, fun hy => ?_, fun hy => ?_⟩
    · simp only [pollLoop, hcond, if_true, hy]
    · have : pollLoop cfg header amount executionAt (k + 2) st
          = pollLoop cfg header amount executionAt (k + 1)
              { pool := pool1, txSlots := slots1, onTime := true, counter := st.counter + 1
                trace := st.trace ++
                  [.yieldBest amount (subU64 header.GasLimit header.GasUsed)] } := by
        simp only [pollLoop, hcond, if_true, hy]
      rw [this]
      exact pollLoop_exit cfg header amount executionAt k _ (Or.inl rfl)
    · simp only [pollLoop, hcond, if_true, hy]

theorem polling_loop_bounded_witness :
    (getNextTransactions (sampleCfg [.ok [[1, 0]]] none) (sampleBlock 100000).Header 50 9 0).2.2
      = [.getNextTransactions, .yieldBest 50 100000] ∧
    (1000 < 5000 ∧
      ∃ st, pollLoop slowCfg (sampleBlock 100000).Header 50 9 5000 (pollStart 0)
          = .returned () st ∧
        st.onTime = false ∧ st.counter = 1000 ∧
        st.trace = .getNextTransactions :: List.replicate 1000 (.yieldBest 50 100000)) := by
  refine ⟨by decide, by decide, ?_⟩
  obtain ⟨n, h1, _, _, h4, _, h6⟩ :=
    (polling_loop_bounded slowCfg (sampleBlock 100000).Header 50 9 (0 : Nat)).1 5000
  have hslow := slowCfg_polls (sampleBlock 100000).Header 50 9 5000 (pollStart 0) rfl
  cases hp : pollLoop slowCfg (sampleBlock 100000).Header 50 9 5000 (pollStart 0) with
  | failed err st => exact absurd hp (hslow.2 err st)
  | running st => exact absurd hp (h6 (by decide) st)
  | returned r st =>
    rw [hp] at h1 hslow
    obtain ⟨g1, g2⟩ := h4 st hp
    have ho : st.onTime = false := hslow.1
    have hn : n = 1000 := by
      rcases g2 with g2 | g2
      · rw [ho] at g2; cases g2
      · exact g2
    subst hn
    exact ⟨st, rfl, ho, g1, h1⟩

/-- The decoding loop started at slot `i` with `acc` kept so far, against the
reference. -/
theorem decodeSlots_reference (cfg : MiningExecCfg W P S F) (senders : List Address) :
    ∀ (raws : List (List Nat)) (i : Nat) (acc : List Transaction),
      i + raws.length ≤ senders.length →
      decodeSlots cfg senders i raws acc =
        match decodeErrors cfg raws with
        | err :: _ => .error err
        | [] => .ok (acc ++ decodeKept cfg senders i raws) := by
  intro raws
  induction raws with
  | nil =>
    intro i acc _
    simp [decodeSlots, decodeErrors, decodeKept]
  | cons raw rest ih =>
    intro i acc hlen
    simp only [List.length_cons] at hlen
    have hi : i < senders.length := by omega
    have hrest := ih (i + 1)
    cases hd : cfg.DecodeTransaction raw with
    | error e =>
      cases e with
      | EOF =>
        have h1 : decodeErrors cfg (raw :: rest) = decodeErrors cfg rest := by
          simp [decodeErrors, List.filterMap_cons, hd]
        have h2 : decodeKept cfg senders i (raw :: rest) = decodeKept cfg senders (i + 1) rest := by
          simp [decodeKept, List.enumFrom_cons, List.filterMap_cons, hd]
        rw [h1, h2, ← hrest acc (by omega)]
        simp only [decodeSlots, hd]
      | ErrGasLimitReached =>
        simp [decodeSlots, decodeErrors, List.filterMap_cons, hd]
      | ErrNonceTooLow =>
        simp [decodeSlots, decodeErrors, List.filterMap_cons, hd]
      | ErrNonceTooHigh =>
        simp [decodeSlots, decodeErrors, List.filterMap_cons, hd]
      | ErrStopped =>
        simp [decodeSlots, decodeErrors, List.filterMap_cons, hd]
      | other code =>
        simp [decodeSlots, decodeErrors, List.filterMap_cons, hd]
    | ok transaction =>
      have h1 : decodeErrors cfg (raw :: rest) = decodeErrors cfg rest := by
        simp [decodeErrors, List.filterMap_cons, hd]
      by_cases hk : transaction.ChainID = 0 ∨ transaction.ChainID = cfg.chainID
      · have h2 : decodeKept cfg senders i (raw :: rest)
            = transaction.SetSender (senders.getD i 0) :: decodeKept cfg senders (i + 1) rest := by
          simp [decodeKept, List.enumFrom_cons, List.filterMap_cons, hd, hk]
        have hcond : (transaction.ChainID != 0 && transaction.ChainID != cfg.chainID) = false := by
          rcases hk with hk | hk <;> simp [hk]
        have hs : senders[i]? = some (senders.getD i 0) := by
          simp [List.getD, List.getElem?_eq_getElem hi]
        rw [h1, h2]
        have := hrest (acc ++ [transaction.SetSender (senders.getD i 0)]) (by omega)
        simp only [List.append_assoc, List.singleton_append] at this
        rw [← this]
        simp only [decodeSlots, hd, hcond, Bool.false_eq_true, if_false, hs]
      · have h2 : decodeKept cfg senders i (raw :: rest)
            = decodeKept cfg senders (i + 1) rest := by
          simp [decodeKept, List.enumFrom_cons, List.filterMap_cons, hd, hk]
        have hcond : (transaction.ChainID != 0 && transaction.ChainID != cfg.chainID) = true := by
          simp only [not_or] at hk
          simp [hk.1, hk.2]
        rw [h1, h2, ← hrest acc (by omega)]
        simp only [decodeSlots, hd, hcond, if_true]

/-- The errors the reference collects are the decode errors of the slots that
are not end-of-input. -/
theorem mem_decodeErrors (cfg : MiningExecCfg W P S F) (raws : List (List Nat)) (err : Err) :
    err ∈ decodeErrors cfg raws ↔
      err ≠ .EOF ∧ ∃ raw ∈ raws, cfg.DecodeTransaction raw = .error err := by
  unfold decodeErrors
  rw [List.mem_filterMap]
  constructor
  · rintro ⟨raw, hmem, h⟩
    cases hd : cfg.DecodeTransaction raw with
    | ok t => rw [hd] at h; cases h
    | error e =>
      rw [hd] at h
      cases e <;> simp at h <;> subst h <;> exact ⟨by simp, raw, hmem, hd⟩
  · rintro ⟨hne, raw, hmem, hd⟩
    refine ⟨raw, hmem, ?_⟩
    rw [hd]
    cases err <;> first | rfl | exact absurd rfl hne

/-- C12: on parallel lists of raw slots and senders the decoding loop of
`getNextTransactions` equals the reference: it returns the first decode error
that is not end-of-input if some slot has one, and otherwise keeps, in slot
order, the decoded transaction of each slot that decodes and whose chain ID
is zero or the configured one, with the sender at the slot's own index; the
fetch returns that error, or hands that list to `filterBadTransactions`. -/
theorem decode_phase_matches_reference (cfg : MiningExecCfg W P S F) (header : Header)
    (amount executionAt : Nat) (pool : P) (senders : List Address) (raws : List (List Nat))
    (hpar : senders.length = raws.length) :
    decodeSlots cfg senders 0 raws [] = decodeReference cfg senders raws ∧
    (∀ err, decodeReference cfg senders raws = .error err →
      err ≠ .EOF ∧ ∃ raw ∈ raws, cfg.DecodeTransaction raw = .error err) ∧
    ((∃ err, err ≠ .EOF ∧ ∃ raw ∈ raws, cfg.DecodeTransaction raw = .error err) →
      ∃ err, decodeReference cfg senders raws = .error err) ∧
    ((∀ err, err ≠ .EOF → ∀ raw ∈ raws, cfg.DecodeTransaction raw ≠ .error err) →
      decodeReference cfg senders raws = .ok (decodeKept cfg senders 0 raws)) ∧
    (∀ st, pollLoop cfg header amount executionAt 1001 (pollStart pool) = .returned () st →
      st.txSlots = { Txs := raws, Senders := senders } →
      (∀ err, decodeReference cfg senders raws = .error err →
        (getNextTransactions cfg header amount executionAt pool).1 = .error err) ∧
      (∀ txs, decodeReference cfg senders raws = .ok txs →
        (getNextTransactions cfg header amount executionAt pool).1
          = (cfg.filterBadTransactions st.pool txs
              (executionAt + 1) header.BaseFee).2.map cfg.NewTransactionsFixedOrder)) := by
  have href : decodeSlots cfg senders 0 raws [] = decodeReference cfg senders raws := by
    rw [decodeSlots_reference cfg senders raws 0 [] (by omega)]
    simp only [decodeReference, List.nil_append]
  refine ⟨href, ?_, ?_, ?_, ?_⟩
  · intro err h
    apply (mem_decodeErrors cfg raws err).mp
    unfold decodeReference at h
    cases he : decodeErrors cfg raws with
    | nil => rw [he] at h; cases h
    | cons e l =>
      rw [he] at h
      cases h
      exact List.mem_cons_self _ _
  · rintro ⟨err, hne, hraw⟩
    have hm := (mem_decodeErrors cfg raws err).mpr ⟨hne, hraw⟩
    unfold decodeReference
    cases he : decodeErrors cfg raws with
    | nil => rw [he] at hm; cases hm
    | cons e l => exact ⟨e, rfl⟩
  · intro hno
    unfold decodeReference
    cases he : decodeErrors cfg raws with
    | nil => rfl
    | cons e l =>
      exfalso
      have hm : e ∈ decodeErrors cfg raws := by rw [he]; exact List.mem_cons_self _ _
      obtain ⟨hne, raw, hmem, hd⟩ := (mem_decodeErrors cfg raws e).mp hm
      exact hno e hne raw hmem hd
  · intro st hp hslots
    obtain ⟨g1, g2⟩ := (getNextTransactions_eq cfg header amount executionAt pool).2 st hp
    rw [hslots] at g1 g2
    simp only at g1 g2
    rw [href] at g1 g2
    exact ⟨fun err h => by rw [g1 err h], fun txs h => by rw [g2 txs h]⟩

theorem decode_phase_matches_reference_witness :
    decodeSlots (sampleCfg [] none) [10, 11, 12, 13] 0 [[], [1, 0], [], [2, 1]] []
      = .ok [(sampleTx 1 0).SetSender 11, (sampleTx 2 1).SetSender 13] ∧
    decodeSlots (sampleCfg [] none) [10, 11, 12, 13] 0 [[], [1, 0], [], [2, 1]] []
      = decodeReference (sampleCfg [] none) [10, 11, 12, 13] [[], [1, 0], [], [2, 1]] :=
  ⟨rfl,
    (decode_phase_matches_reference (sampleCfg [] none) (sampleBlock 100000).Header 50 9 (0 : Nat)
      [10, 11, 12, 13] [[], [1, 0], [], [2, 1]] rfl).1⟩

end fetching

end stagedsync

namespace state_encoding

/-- The definition `sha256` on the empty message, against the published
digest. -/
theorem sha256_empty :
    sha256 [] = [227, 176, 196, 66, 152, 252, 28, 20, 154, 251, 244, 200, 153, 111, 185, 36, 39, 174, 65, 228, 100, 155, 147, 76, 164, 149, 153, 27, 120, 82, 184, 85] := by
  decide

/-- The definition `sha256` on the message "abc" of FIPS 180-4, against the
published digest. -/
theorem sha256_abc :
    sha256 [97, 98, 99] = [186, 120, 22, 191, 143, 1, 207, 234, 65, 65, 64, 222, 93, 174, 34, 35, 176, 3, 97, 163, 150, 23, 122, 156, 180, 16, 255, 97, 242, 0, 21, 173] := by
  decide

set_option maxRecDepth 1000000 in
/-- The table has 100 entries of 32 bytes each, the first all zero. -/
theorem zeroHashes_shape :
    ZeroHashes.length = 100 ∧ (∀ h ∈ ZeroHashes, h.length = 32 ∧ ∀ b ∈ h, b < 256) ∧
    ZeroHashes.getD 0 [] = List.replicate 32 0 := by
  decide

set_option maxRecDepth 1000000 in
set_option maxHeartbeats 4000000 in
/-- The entries 1 to 3 are the SHA-256 hashes of the doubled entries
before them. -/
theorem zeroHashes_chain_0 :
    ∀ i, 0 ≤ i → i < 3 →
      ZeroHashes.getD (i + 1) [] = sha256 (ZeroHashes.getD i [] ++ ZeroHashes.getD i []) := by
  decide

set_option maxRecDepth 1000000 in
set_option maxHeartbeats 4000000 in
/-- The entries 4 to 6 are the SHA-256 hashes of the doubled entries
before them. -/
theorem zeroHashes_chain_1 :
    ∀ i, 3 ≤ i → i < 6 →
      ZeroHashes.getD (i + 1) [] = sha256 (ZeroHashes.getD i [] ++ ZeroHashes.getD i []) := by
  decide

set_option maxRecDepth 1000000 in
set_option maxHeartbeats 4000000 in
/-- The entries 7 to 9 are the SHA-256 hashes of the doubled entries
before them. -/
theorem zeroHashes_chain_2 :
    ∀ i, 6 ≤ i → i < 9 →
      ZeroHashes.getD (i + 1) [] = sha256 (ZeroHashes.getD i [] ++ ZeroHashes.getD i []) := by
  decide

set_option maxRecDepth 1000000 in
set_option maxHeartbeats 4000000 in
/-- The entries 10 to 12 are the SHA-256 hashes of the doubled entries
before them. -/
theorem zeroHashes_chain_3 :
    ∀ i, 9 ≤ i → i < 12 →
      ZeroHashes.getD (i + 1) [] = sha256 (ZeroHashes.getD i [] ++ ZeroHashes.getD i []) := by
  decide

set_option maxRecDepth 1000000 in
set_option maxHeartbeats 4000000 in
/-- The entries 13 to 15 are the SHA-256 hashes of the doubled entries
before them. -/
theorem zeroHashes_chain_4 :
    ∀ i, 12 ≤ i → i < 15 →
      ZeroHashes.getD (i + 1) [] = sha256 (ZeroHashes.getD i [] ++ ZeroHashes.getD i []) := by
  decide

set_option maxRecDepth 1000000 in
set_option maxHeartbeats 4000000 in
/-- The entries 16 to 18 are the SHA-256 hashes of the doubled entries
before them. -/
theorem zeroHashes_chain_5 :
    ∀ i, 15 ≤ i → i < 18 →
      ZeroHashes.getD (i + 1) [] = sha256 (ZeroHashes.getD i [] ++ ZeroHashes.getD i []) := by
  decide

set_option maxRecDepth 1000000 in
set_option maxHeartbeats 4000000 in
/-- The entries 19 to 21 are the SHA-256 hashes of the doubled entries
before them. -/
theorem zeroHashes_chain_6 :
    ∀ i, 18 ≤ i → i < 21 →
      ZeroHashes.getD (i + 1) [] = sha256 (ZeroHashes.getD i [] ++ ZeroHashes.getD i []) := by
  decide

set_option maxRecDepth 1000000 in
set_option maxHeartbeats 4000000 in
/-- The entries 22 to 24 are the SHA-256 hashes of the doubled entries
before them. -/
theorem zeroHashes_chain_7 :
    ∀ i, 21 ≤ i → i < 24 →
      ZeroHashes.getD (i + 1) [] = sha256 (ZeroHashes.getD i [] ++ ZeroHashes.getD i []) := by
  decide

set_option maxRecDepth 1000000 in
set_option maxHeartbeats 4000000 in
/-- The entries 25 to 27 are the SHA-256 hashes of the doubled entries
before them. -/
theorem zeroHashes_chain_8 :
    ∀ i, 24 ≤ i → i < 27 →
      ZeroHashes.getD (i + 1) [] = sha256 (ZeroHashes.getD i [] ++ ZeroHashes.getD i []) := by
  decide

set_option maxRecDepth 1000000 in
set_option maxHeartbeats 4000000 in
/-- The entries 28 to 30 are the SHA-256 hashes of the doubled entries
before them. -/
theorem zeroHashes_chain_9 :
    ∀ i, 27 ≤ i → i < 30 →
      ZeroHashes.getD (i + 1) [] = sha256 (ZeroHashes.getD i [] ++ ZeroHashes.getD i []) := by
  decide

set_option maxRecDepth 1000000 in
set_option maxHeartbeats 4000000 in
/-- The entries 31 to 33 are the SHA-256 hashes of the doubled entries
before them. -/
theorem zeroHashes_chain_10 :
    ∀ i, 30 ≤ i → i < 33 →
      ZeroHashes.getD (i + 1) [] = sha256 (ZeroHashes.getD i [] ++ ZeroHashes.getD i []) := by
  decide

set_option maxRecDepth 1000000 in
set_option maxHeartbeats 4000000 in
/-- The entries 34 to 36 are the SHA-256 hashes of the doubled entries
before them. -/
theorem zeroHashes_chain_11 :
    ∀ i, 33 ≤ i → i < 36 →
      ZeroHashes.getD (i + 1) [] = sha256 (ZeroHashes.getD i [] ++ ZeroHashes.getD i []) := by
  decide

set_option maxRecDepth 1000000 in
set_option maxHeartbeats 4000000 in
/-- The entries 37 to 39 are the SHA-256 hashes of the doubled entries
before them. -/
theorem zeroHashes_chain_12 :
    ∀ i, 36 ≤ i → i < 39 →
      ZeroHashes.getD (i + 1) [] = sha256 (ZeroHashes.getD i [] ++ ZeroHashes.getD i []) := by
  decide

set_option maxRecDepth 1000000 in
set_option maxHeartbeats 4000000 in
/-- The entries 40 to 42 are the SHA-256 hashes of the doubled entries
before them. -/
theorem zeroHashes_chain_13 :
    ∀ i, 39 ≤ i → i < 42 →
      ZeroHashes.getD (i + 1) [] = sha256 (ZeroHashes.getD i [] ++ ZeroHashes.getD i []) := by
  decide

set_option maxRecDepth 1000000 in
set_option maxHeartbeats 4000000 in
/-- The entries 43 to 45 are the SHA-256 hashes of the doubled entries
before them. -/
theorem zeroHashes_chain_14 :
    ∀ i, 42 ≤ i → i < 45 →
      ZeroHashes.getD (i + 1) [] = sha256 (ZeroHashes.getD i [] ++ ZeroHashes.getD i []) := by
  decide

set_option maxRecDepth 1000000 in
set_option maxHeartbeats 4000000 in
/-- The entries 46 to 48 are the SHA-256 hashes of the doubled entries
before them. -/
theorem zeroHashes_chain_15 :
    ∀ i, 45 ≤ i → i < 48 →
      ZeroHashes.getD (i + 1) [] = sha256 (ZeroHashes.getD i [] ++ ZeroHashes.getD i []) := by
  decide

set_option maxRecDepth 1000000 in
set_option maxHeartbeats 4000000 in
/-- The entries 49 to 51 are the SHA-256 hashes of the doubled entries
before them. -/
theorem zeroHashes_chain_16 :
    ∀ i, 48 ≤ i → i < 51 →
      ZeroHashes.getD (i + 1) [] = sha256 (ZeroHashes.getD i [] ++ ZeroHashes.getD i []) := by
  decide

set_option maxRecDepth 1000000 in
set_option maxHeartbeats 4000000 in
/-- The entries 52 to 54 are the SHA-256 hashes of the doubled entries
before them. -/
theorem zeroHashes_chain_17 :
    ∀ i, 51 ≤ i → i < 54 →
      ZeroHashes.getD (i + 1) [] = sha256 (ZeroHashes.getD i [] ++ ZeroHashes.getD i []) := by
  decide

set_option maxRecDepth 1000000 in
set_option maxHeartbeats 4000000 in
/-- The entries 55 to 57 are the SHA-256 hashes of the doubled entries
before them. -/
theorem zeroHashes_chain_18 :
    ∀ i, 54 ≤ i → i < 57 →
      ZeroHashes.getD (i + 1) [] = sha256 (ZeroHashes.getD i [] ++ ZeroHashes.getD i []) := by
  decide

set_option maxRecDepth 1000000 in
set_option maxHeartbeats 4000000 in
/-- The entries 58 to 60 are the SHA-256 hashes of the doubled entries
before them. -/
theorem zeroHashes_chain_19 :
    ∀ i, 57 ≤ i → i < 60 →
      ZeroHashes.getD (i + 1) [] = sha256 (ZeroHashes.getD i [] ++ ZeroHashes.getD i []) := by
  decide

set_option maxRecDepth 1000000 in
set_option maxHeartbeats 4000000 in
/-- The entries 61 to 63 are the SHA-256 hashes of the doubled entries
before them. -/
theorem zeroHashes_chain_20 :
    ∀ i, 60 ≤ i → i < 63 →
      ZeroHashes.getD (i + 1) [] = sha256 (ZeroHashes.getD i [] ++ ZeroHashes.getD i []) := by
  decide

set_option maxRecDepth 1000000 in
set_option maxHeartbeats 4000000 in
/-- The entries 64 to 66 are the SHA-256 hashes of the doubled entries
before them. -/
theorem zeroHashes_chain_21 :
    ∀ i, 63 ≤ i → i < 66 →
      ZeroHashes.getD (i + 1) [] = sha256 (ZeroHashes.getD i [] ++ ZeroHashes.getD i []) := by
  decide

set_option maxRecDepth 1000000 in
set_option maxHeartbeats 4000000 in
/-- The entries 67 to 69 are the SHA-256 hashes of the doubled entries
before them. -/
theorem zeroHashes_chain_22 :
    ∀ i, 66 ≤ i → i < 69 →
      ZeroHashes.getD (i + 1) [] = sha256 (ZeroHashes.getD i [] ++ ZeroHashes.getD i []) := by
  decide

set_option maxRecDepth 1000000 in
set_option maxHeartbeats 4000000 in
/-- The entries 70 to 72 are the SHA-256 hashes of the doubled entries
before them. -/
theorem zeroHashes_chain_23 :
    ∀ i, 69 ≤ i → i < 72 →
      ZeroHashes.getD (i + 1) [] = sha256 (ZeroHashes.getD i [] ++ ZeroHashes.getD i []) := by
  decide

set_option maxRecDepth 1000000 in
set_option maxHeartbeats 4000000 in
/-- The entries 73 to 75 are the SHA-256 hashes of the doubled entries
before them. -/
theorem zeroHashes_chain_24 :
    ∀ i, 72 ≤ i → i < 75 →
      ZeroHashes.getD (i + 1) [] = sha256 (ZeroHashes.getD i [] ++ ZeroHashes.getD i []) := by
  decide

set_option maxRecDepth 1000000 in
set_option maxHeartbeats 4000000 in
/-- The entries 76 to 78 are the SHA-256 hashes of the doubled entries
before them. -/
theorem zeroHashes_chain_25 :
    ∀ i, 75 ≤ i → i < 78 →
      ZeroHashes.getD (i + 1) [] = sha256 (ZeroHashes.getD i [] ++ ZeroHashes.getD i []) := by
  decide

set_option maxRecDepth 1000000 in
set_option maxHeartbeats 4000000 in
/-- The entries 79 to 81 are the SHA-256 hashes of the doubled entries
before them. -/
theorem zeroHashes_chain_26 :
    ∀ i, 78 ≤ i → i < 81 →
      ZeroHashes.getD (i + 1) [] = sha256 (ZeroHashes.getD i [] ++ ZeroHashes.getD i []) := by
  decide

set_option maxRecDepth 1000000 in
set_option maxHeartbeats 4000000 in
/-- The entries 82 to 84 are the SHA-256 hashes of the doubled entries
before them. -/
theorem zeroHashes_chain_27 :
    ∀ i, 81 ≤ i → i < 84 →
      ZeroHashes.getD (i + 1) [] = sha256 (ZeroHashes.getD i [] ++ ZeroHashes.getD i []) := by
  decide

set_option maxRecDepth 1000000 in
set_option maxHeartbeats 4000000 in
/-- The entries 85 to 87 are the SHA-256 hashes of the doubled entries
before them. -/
theorem zeroHashes_chain_28 :
    ∀ i, 84 ≤ i → i < 87 →
      ZeroHashes.getD (i + 1) [] = sha256 (ZeroHashes.getD i [] ++ ZeroHashes.getD i []) := by
  decide

set_option maxRecDepth 1000000 in
set_option maxHeartbeats 4000000 in
/-- The entries 88 to 90 are the SHA-256 hashes of the doubled entries
before them. -/
theorem zeroHashes_chain_29 :
    ∀ i, 87 ≤ i → i < 90 →
      ZeroHashes.getD (i + 1) [] = sha256 (ZeroHashes.getD i [] ++ ZeroHashes.getD i []) := by
  decide

set_option maxRecDepth 1000000 in
set_option maxHeartbeats 4000000 in
/-- The entries 91 to 93 are the SHA-256 hashes of the doubled entries
before them. -/
theorem zeroHashes_chain_30 :
    ∀ i, 90 ≤ i → i < 93 →
      ZeroHashes.getD (i + 1) [] = sha256 (ZeroHashes.getD i [] ++ ZeroHashes.getD i []) := by
  decide

set_option maxRecDepth 1000000 in
set_option maxHeartbeats 4000000 in
/-- The entries 94 to 96 are the SHA-256 hashes of the doubled entries
before them. -/
theorem zeroHashes_chain_31 :
    ∀ i, 93 ≤ i → i < 96 →
      ZeroHashes.getD (i + 1) [] = sha256 (ZeroHashes.getD i [] ++ ZeroHashes.getD i []) := by
  decide

set_option maxRecDepth 1000000 in
set_option maxHeartbeats 4000000 in
/-- The entries 97 to 99 are the SHA-256 hashes of the doubled entries
before them. -/
theorem zeroHashes_chain_32 :
    ∀ i, 96 ≤ i → i < 99 →
      ZeroHashes.getD (i + 1) [] = sha256 (ZeroHashes.getD i [] ++ ZeroHashes.getD i []) := by
  decide

/-- Each entry after the first is the SHA-256 hash of the entry before it,
written twice. -/
theorem zeroHashes_chain :
    ∀ i, i < 99 →
      ZeroHashes.getD (i + 1) [] = sha256 (ZeroHashes.getD i [] ++ ZeroHashes.getD i []) := by
  intro i hi
  by_cases h0 : i < 3
  · exact zeroHashes_chain_0 i (by omega) h0
  by_cases h1 : i < 6
  · exact zeroHashes_chain_1 i (by omega) h1
  by_cases h2 : i < 9
  · exact zeroHashes_chain_2 i (by omega) h2
  by_cases h3 : i < 12
  · exact zeroHashes_chain_3 i (by omega) h3
  by_cases h4 : i < 15
  · exact zeroHashes_chain_4 i (by omega) h4
  by_cases h5 : i < 18
  · exact zeroHashes_chain_5 i (by omega) h5
  by_cases h6 : i < 21
  · exact zeroHashes_chain_6 i (by omega) h6
  by_cases h7 : i < 24
  · exact zeroHashes_chain_7 i (by omega) h7
  by_cases h8 : i < 27
  · exact zeroHashes_chain_8 i (by omega) h8
  by_cases h9 : i < 30
  · exact zeroHashes_chain_9 i (by omega) h9
  by_cases h10 : i < 33
  · exact zeroHashes_chain_10 i (by omega) h10
  by_cases h11 : i < 36
  · exact zeroHashes_chain_11 i (by omega) h11
  by_cases h12 : i < 39
  · exact zeroHashes_chain_12 i (by omega) h12
  by_cases h13 : i < 42
  · exact zeroHashes_chain_13 i (by omega) h13
  by_cases h14 : i < 45
  · exact zeroHashes_chain_14 i (by omega) h14
  by_cases h15 : i < 48
  · exact zeroHashes_chain_15 i (by omega) h15
  by_cases h16 : i < 51
  · exact zeroHashes_chain_16 i (by omega) h16
  by_cases h17 : i < 54
  · exact zeroHashes_chain_17 i (by omega) h17
  by_cases h18 : i < 57
  · exact zeroHashes_chain_18 i (by omega) h18
  by_cases h19 : i < 60
  · exact zeroHashes_chain_19 i (by omega) h19
  by_cases h20 : i < 63
  · exact zeroHashes_chain_20 i (by omega) h20
  by_cases h21 : i < 66
  · exact zeroHashes_chain_21 i (by omega) h21
  by_cases h22 : i < 69
  · exact zeroHashes_chain_22 i (by omega) h22
  by_cases h23 : i < 72
  · exact zeroHashes_chain_23 i (by omega) h23
  by_cases h24 : i < 75
  · exact zeroHashes_chain_24 i (by omega) h24
  by_cases h25 : i < 78
  · exact zeroHashes_chain_25 i (by omega) h25
  by_cases h26 : i < 81
  · exact zeroHashes_chain_26 i (by omega) h26
  by_cases h27 : i < 84
  · exact zeroHashes_chain_27 i (by omega) h27
  by_cases h28 : i < 87
  · exact zeroHashes_chain_28 i (by omega) h28
  by_cases h29 : i < 90
  · exact zeroHashes_chain_29 i (by omega) h29
  by_cases h30 : i < 93
  · exact zeroHashes_chain_30 i (by omega) h30
  by_cases h31 : i < 96
  · exact zeroHashes_chain_31 i (by omega) h31
  exact zeroHashes_chain_32 i (by omega) hi

/-- C18: `ZeroHashes` has exactly 100 entries of 32 bytes, entry 0 is 32 zero
bytes, and for every `i` below 99 entry `i + 1` is the SHA-256 hash of the 64
bytes made of entry `i` twice. -/
theorem zero_hashes_table :
    ZeroHashes.length = 100 ∧ (∀ h ∈ ZeroHashes, h.length = 32 ∧ ∀ b ∈ h, b < 256) ∧
    ZeroHashes.getD 0 [] = List.replicate 32 0 ∧
    ∀ i, i < 99 →
      (ZeroHashes.getD i [] ++ ZeroHashes.getD i []).length = 64 ∧
      ZeroHashes.getD (i + 1) [] = sha256 (ZeroHashes.getD i [] ++ ZeroHashes.getD i []) := by
  obtain ⟨h1, h2, h3⟩ := zeroHashes_shape
  refine ⟨h1, h2, h3, fun i hi => ⟨?_, zeroHashes_chain i hi⟩⟩
  have hmem : ZeroHashes.getD i [] ∈ ZeroHashes := by
    rw [List.getD_eq_getElem _ _ (by omega)]
    exact List.getElem_mem _
  rw [List.length_append, (h2 _ hmem).1]

end state_encoding
